import Mathlib

/-!
# Liar's Bar game session engine

A shallow embedding of `server/game/game.go`, `server/game/game_logic.go` and
the join handler of `server/game/game_manager.go` (package `game`), followed by
theorems about it.

Conventions of the embedding

* Go strings are `String`, Go `int` is `Int` (lengths are `Nat`), Go `%` is
  `Int.tmod`.
* A Go map is an association list; the order of the list stands for the order
  in which a `range` over the map happens to visit it.  A Go map has one entry
  per key, which is the predicate `Game.WellFormed` where it matters.
* `*Player` values are reached through the map only, so mutating a player is
  replacing the player stored under the key.
* A `*websocket.Conn` is the sequence of messages written to it so far.
* `sync.RWMutex` is a flag; `Lock` on a held mutex never returns
  (`Exec.hang`).  A nil dereference, an index out of range, a failed type
  assertion and `rand.Intn 0` are `Exec.panic`.
* The outcomes of `math/rand` are the fields of `Draws`.
* `log.Printf` and `time.Sleep` are not modelled, except that evaluating the
  arguments of a log call can dereference nil.
-/

namespace LiarsBar

/-! ## Outcomes of running a function -/

/-- Outcome of a call: it returns a value, it panics, or it never returns
(it waits for ever for the session mutex). -/
inductive Exec (α : Type) where
  | ok (a : α)
  | panic
  | hang
deriving DecidableEq

namespace Exec

/-- Sequencing: a panic or a call that never returns ends the run. -/
def bind {α β : Type} (x : Exec α) (f : α → Exec β) : Exec β :=
  match x with
  | ok a => f a
  | panic => panic
  | hang => hang

instance : Monad Exec where
  pure := Exec.ok
  bind := Exec.bind

end Exec

/-! ## Constants (game.go 15-29) -/

def GameStateWaiting : String := "waiting"
def GameStateStarting : String := "starting"
def GameStatePlaying : String := "playing"
def GameStateFinished : String := "finished"

def CardQ : String := "Q"
def CardK : String := "K"
def CardA : String := "A"
def CardJoker : String := "Joker"

/-! ## Data model (game.go 31-56) -/

/-- Player of game.go 48-56. -/
structure Player where
  ID : String
  Name : String
  Hand : List String
  Alive : Bool
  BulletPosition : Int
  CurrentBulletPosition : Int
  Opinions : List (String × String)
deriving DecidableEq

/-- One entry of the `players` map built by `createGameStateForPlayer`
(game.go 294-308).  A key that the Go map does not hold is `none`. -/
structure PlayerView where
  id : String
  name : String
  alive : Bool
  hand : Option (List String)
  bulletPosition : Option Int
  currentBulletPosition : Option Int
  handCount : Option Nat
deriving DecidableEq

/-- The map returned by `createGameStateForPlayer` (game.go 282-330). -/
structure GameStateView where
  id : String
  state : String
  currentPlayerIdx : Int
  roundCount : Int
  gameOver : Bool
  targetCard : String
  players : List (String × PlayerView)
  playerOrder : List String
  winner : Option String
deriving DecidableEq

/-- The `play_action` map of `broadcastPlayAction` (game.go 336-349). -/
structure PlayActionMsg where
  playerName : String
  cardCount : Nat
  targetCard : String
  nextPlayer : String
  playedCards : Option (List String)
deriving DecidableEq

/-- Messages written to a connection, one constructor per `type` tag. -/
inductive OutMsg where
  | gameState (state : GameStateView)
  | yourTurn
  | error
  | playAction (m : PlayActionMsg)
  | challengeRequest (playerName : String) (cardCount : Nat) (targetCard : String)
  | challengeResult (challengerName : String) (wasChallenged : Bool)
      (challengeReason : String) (challengeSuccess : Option Bool)
  | shootingResult (shooterName : String) (bulletHit : Bool)
  | gameOver (winnerName : String)
  | systemChallenge (playerName : String) (challengeValid : Bool) (playedCards : List String)
deriving DecidableEq

/-- Game of game.go 32-45. -/
structure Game where
  ID : String
  State : String
  Players : List (String × Player)
  PlayerOrder : List String
  Connections : List (String × List OutMsg)
  Deck : List String
  TargetCard : String
  CurrentPlayerIdx : Int
  LastShooterID : String
  RoundCount : Int
  GameOver : Bool
  mutex : Bool
deriving DecidableEq

/-- PlayAction of game.go 68-80. -/
structure PlayAction where
  PlayerID : String
  PlayerName : String
  PlayedCards : List String
  RemainingCards : List String
  PlayReason : String
  Behavior : String
  NextPlayerID : String
  NextPlayerName : String
  WasChallenged : Bool
  ChallengeReason : String
  ChallengeResult : Option Bool
deriving DecidableEq

/-- Outcomes of the calls to `math/rand` made while one message is handled. -/
structure Draws where
  /-- raw value behind `rand.Intn(len(g.PlayerOrder))` in `startGame` -/
  start : Nat
  /-- the reordering `rand.Shuffle` applies to the deck in `createDeck` -/
  shuffle : List String → List String
  /-- raw value behind `rand.Intn(len(targetCards))` in `chooseTargetCard` -/
  target : Nat
  /-- raw value behind `rand.Intn(len(alivePlayers))` in `resetRound` -/
  alive : Nat

/-- Inbound JSON as decoded into `map[string]interface{}`. -/
inductive JSON where
  | null
  | bool (b : Bool)
  | num (n : Int)
  | str (s : String)
  | arr (items : List JSON)
  | obj (fields : List (String × JSON))

/-! ## Primitives -/

/-- `rand.Intn n`: panics when `n` is not positive, else a value below `n`. -/
def intn (raw n : Nat) : Exec Nat :=
  if n = 0 then Exec.panic else Exec.ok (raw % n)

/-- `g.Players[id]`: `none` is the nil pointer. -/
def getPlayer (ps : List (String × Player)) (id : String) : Option Player :=
  ps.lookup id

/-- Write through the pointer stored under `id`. -/
def setPlayer (ps : List (String × Player)) (id : String) (p : Player) :
    List (String × Player) :=
  ps.map (fun e => if e.1 = id then (e.1, p) else e)

/-- `s[i]` for a Go `int` index: out of range panics. -/
def index (s : List String) (i : Int) : Exec String :=
  if 0 ≤ i ∧ i < s.length then
    match s.get? i.toNat with
    | some x => Exec.ok x
    | none => Exec.panic
  else Exec.panic

/-- `conn.WriteJSON(m)` on the connection stored under `id`, when there is one. -/
def writeTo (cs : List (String × List OutMsg)) (id : String) (m : OutMsg) :
    List (String × List OutMsg) :=
  cs.map (fun e => if e.1 = id then (e.1, e.2 ++ [m]) else e)

/-- `for _, conn := range g.Connections { conn.WriteJSON(m) }`. -/
def writeAll (cs : List (String × List OutMsg)) (m : OutMsg) :
    List (String × List OutMsg) :=
  cs.map (fun e => (e.1, e.2 ++ [m]))

/-- `g.mutex.Lock()`. -/
def lock (g : Game) : Exec Game :=
  if g.mutex then Exec.hang else Exec.ok { g with mutex := true }

/-- `g.mutex.Unlock()` (deferred to the return of the locking function). -/
def unlock (g : Game) : Game :=
  { g with mutex := false }

/-- The first position of `id` in a roster, `-1` when absent
(the search loops of game.go 374-380 and 569-575). -/
def indexFrom (id : String) : Int → List String → Int
  | _, [] => -1
  | i, x :: rest => if x = id then i else indexFrom id (i + 1) rest

/-- The search loop started at index 0. -/
def indexOf (order : List String) (id : String) : Int :=
  indexFrom id 0 order

/-! ## Visibility projector and broadcasts (game.go 255-369) -/

/-- The `playerView` built for the map entry `id` when the snapshot is made for
`viewer` (game.go 294-308). -/
def playerView (viewer id : String) (player : Player) : PlayerView :=
  if id = viewer then
    { id := player.ID, name := player.Name, alive := player.Alive,
      hand := some player.Hand,
      bulletPosition := some player.BulletPosition,
      currentBulletPosition := some player.CurrentBulletPosition,
      handCount := none }
  else
    { id := player.ID, name := player.Name, alive := player.Alive,
      hand := none, bulletPosition := none, currentBulletPosition := none,
      handCount := some player.Hand.length }

/-- createGameStateForPlayer of game.go 280-331. -/
def createGameStateForPlayer (g : Game) (playerID : String) : GameStateView :=
  { id := g.ID,
    state := g.State,
    currentPlayerIdx := g.CurrentPlayerIdx,
    roundCount := g.RoundCount,
    gameOver := g.GameOver,
    targetCard := g.TargetCard,
    players := g.Players.map (fun e => (e.1, playerView playerID e.1 e.2)),
    playerOrder := g.PlayerOrder,
    winner :=
      if g.GameOver then (g.Players.find? (fun e => e.2.Alive)).map (fun e => e.2.Name)
      else none }

/-- sendGameStateToPlayer of game.go 263-277. -/
def sendGameStateToPlayer (g : Game) (playerID : String) : Game :=
  let state := createGameStateForPlayer g playerID
  { g with Connections := writeTo g.Connections playerID (OutMsg.gameState state) }

/-- broadcastGameState of game.go 256-260: every connection is sent the view
made for its key. -/
def broadcastGameState (g : Game) : Game :=
  let send := fun (e : String × List OutMsg) =>
    (e.1, e.2 ++ [OutMsg.gameState (createGameStateForPlayer g e.1)])
  { g with Connections := g.Connections.map send }

/-- The loop of broadcastPlayAction (game.go 345-351): `message` is one map,
shared by all iterations; `visit` is what is left of the range over
`g.Connections`. -/
def playActionLoop (action : PlayAction) :
    PlayActionMsg → List (String × List OutMsg) → List (String × List OutMsg)
  | _, [] => []
  | message, (playerID, conn) :: visit =>
    let message1 :=
      if playerID = action.PlayerID then
        { message with playedCards := some action.PlayedCards }
      else message
    (playerID, conn ++ [OutMsg.playAction message1]) :: playActionLoop action message1 visit

/-- broadcastPlayAction of game.go 334-352. -/
def broadcastPlayAction (g : Game) (action : PlayAction) : Game :=
  let message : PlayActionMsg :=
    { playerName := action.PlayerName,
      cardCount := action.PlayedCards.length,
      targetCard := g.TargetCard,
      nextPlayer := action.NextPlayerName,
      playedCards := none }
  { g with Connections := playActionLoop action message g.Connections }

/-- waitForChallenge of game.go 355-369. -/
def waitForChallenge (g : Game) (nextPlayerID : String) (playAction : PlayAction) : Game :=
  let request :=
    OutMsg.challengeRequest playAction.PlayerName playAction.PlayedCards.length g.TargetCard
  { g with Connections := writeTo g.Connections nextPlayerID request }

/-! ## Deck and dealing (game_logic.go 36-115) -/

/-- The deck of createDeck before it is shuffled (game_logic.go 64-78). -/
def cardPool : List String :=
  List.replicate 6 CardQ ++ List.replicate 6 CardK ++ List.replicate 6 CardA ++
    List.replicate 2 CardJoker

/-- createDeck of game_logic.go 63-87. -/
def createDeck (d : Draws) : List String :=
  d.shuffle cardPool

/-- The body of the inner loop of dealCards (game_logic.go 51-57). -/
def dealOne (g : Game) (playerID : String) : Exec Game :=
  match getPlayer g.Players playerID with
  | none => Exec.panic
  | some player =>
    if player.Alive then
      match g.Deck with
      | [] => Exec.ok g
      | card :: rest =>
        Exec.ok { g with
          Deck := rest,
          Players := setPlayer g.Players playerID { player with Hand := player.Hand ++ [card] } }
    else Exec.ok g

/-- The inner loop of dealCards over what is left of `g.PlayerOrder`. -/
def dealRound : List String → Game → Exec Game
  | [], g => Exec.ok g
  | playerID :: rest, g => (dealOne g playerID).bind (dealRound rest)

/-- The outer loop of dealCards, `n` iterations left. -/
def dealRounds : Nat → Game → Exec Game
  | 0, g => Exec.ok g
  | n + 1, g => (dealRound g.PlayerOrder g).bind (dealRounds n)

/-- The hand-clearing loop of dealCards (game_logic.go 42-46). -/
def clearHands (ps : List (String × Player)) : List (String × Player) :=
  ps.map (fun e => if e.2.Alive then (e.1, { e.2 with Hand := [] }) else e)

/-- dealCards of game_logic.go 37-60. -/
def dealCards (g : Game) (d : Draws) : Exec Game :=
  dealRounds 5 { g with Deck := createDeck d, Players := clearHands g.Players }

/-- chooseTargetCard of game_logic.go 90-94. -/
def chooseTargetCard (g : Game) (d : Draws) : Exec Game :=
  (intn d.target 3).bind fun i =>
  (index [CardQ, CardK, CardA] i).bind fun c =>
  Exec.ok { g with TargetCard := c }

/-- startRound of game_logic.go 97-107; the log line reads the name of the
current player. -/
def startRound (g : Game) : Exec Game :=
  let g1 := { g with RoundCount := g.RoundCount + 1 }
  (index g1.PlayerOrder g1.CurrentPlayerIdx).bind fun currentPlayerID =>
  match getPlayer g1.Players currentPlayerID with
  | none => Exec.panic
  | some _ => Exec.ok g1

/-- getCurrentPlayerID of game_logic.go 110-115. -/
def getCurrentPlayerID (g : Game) : String :=
  if 0 ≤ g.CurrentPlayerIdx ∧ g.CurrentPlayerIdx < g.PlayerOrder.length then
    (g.PlayerOrder.get? g.CurrentPlayerIdx.toNat).getD ""
  else ""

/-- notifyCurrentPlayer of game_logic.go 118-134. -/
def notifyCurrentPlayer (g : Game) : Game :=
  let currentPlayerID := getCurrentPlayerID g
  if currentPlayerID = "" then g
  else { g with Connections := writeTo g.Connections currentPlayerID OutMsg.yourTurn }

/-- startGame of game_logic.go 10-34. -/
def startGame (g : Game) (d : Draws) : Exec Game :=
  (lock g).bind fun g =>
  let g := { g with State := GameStatePlaying, GameOver := false, RoundCount := 0 }
  (intn d.start g.PlayerOrder.length).bind fun i =>
  let g := { g with CurrentPlayerIdx := (i : Int) }
  (dealCards g d).bind fun g =>
  (chooseTargetCard g d).bind fun g =>
  (startRound g).bind fun g =>
  let g := broadcastGameState g
  let g := notifyCurrentPlayer g
  Exec.ok (unlock g)

/-! ## Playing cards (game_logic.go 136-169) -/

/-- The inner loop of handlePlayCards (game_logic.go 149-156) over `hand`:
the hand without the first card equal to `card`, or `none` when `found` stays
false. -/
def removeCard (card : String) : List String → Option (List String)
  | [] => none
  | handCard :: rest =>
    if handCard = card then some rest
    else (removeCard card rest).map (fun r => handCard :: r)

/-- The outer loop of handlePlayCards (game_logic.go 147-168) over what is left
of `cards`.  The player is updated after every card that is found; the first
card that is not found sends the error and returns. -/
def playLoop (playerID : String) : List String → Game → Exec Game
  | [], g => Exec.ok g
  | card :: rest, g =>
    match getPlayer g.Players playerID with
    | none => Exec.panic
    | some player =>
      match removeCard card player.Hand with
      | some hand =>
        playLoop playerID rest
          { g with Players := setPlayer g.Players playerID { player with Hand := hand } }
      | none =>
        Exec.ok { g with Connections := writeTo g.Connections playerID OutMsg.error }

/-- handlePlayCards of game_logic.go 137-169. -/
def handlePlayCards (g : Game) (playerID : String) (cards : List String) : Exec Game :=
  if getCurrentPlayerID g ≠ playerID then Exec.ok g
  else playLoop playerID cards g

/-! ## Turn order (game.go 437-493) -/

/-- isValidPlay of game.go 438-445. -/
def isValidPlay (g : Game) (cards : List String) : Bool :=
  cards.all (fun card => !(card != g.TargetCard && card != CardJoker))

/-- The loop of findNextPlayerWithCards (game.go 484-491), `n` iterations left,
`idx` the index examined last; `none` when the loop ends without returning. -/
def findNextLoop (g : Game) : Nat → Int → Exec (Option Int)
  | 0, _ => Exec.ok none
  | n + 1, idx =>
    let idx1 := Int.tmod (idx + 1) g.PlayerOrder.length
    (index g.PlayerOrder idx1).bind fun playerID =>
    match getPlayer g.Players playerID with
    | none => Exec.panic
    | some player =>
      if player.Alive && decide (player.Hand.length > 0) then Exec.ok (some idx1)
      else findNextLoop g n idx1

/-- findNextPlayerWithCards of game.go 482-493. -/
def findNextPlayerWithCards (g : Game) (startIdx : Int) : Exec Int :=
  (findNextLoop g g.PlayerOrder.length startIdx).bind fun r =>
  match r with
  | some idx => Exec.ok idx
  | none => Exec.ok startIdx

/-- moveToNextPlayer of game.go 470-479. -/
def moveToNextPlayer (g : Game) : Exec Game :=
  (findNextPlayerWithCards g g.CurrentPlayerIdx).bind fun idx =>
  let g := { g with CurrentPlayerIdx := idx }
  let g := broadcastGameState g
  Exec.ok (notifyCurrentPlayer g)

/-! ## Penalty, victory and round reset (game.go 495-660) -/

/-- The roster entries whose player is alive (game.go 619-624 and 585-590);
reading `Alive` through a nil player panics. -/
def alivePlayers (g : Game) : List String → Exec (List String)
  | [] => Exec.ok []
  | id :: rest =>
    match getPlayer g.Players id with
    | none => Exec.panic
    | some player =>
      (alivePlayers g rest).bind fun tail =>
      Exec.ok (if player.Alive then id :: tail else tail)

/-- broadcastVictory of game.go 647-660. -/
def broadcastVictory (g : Game) (winnerID : String) : Exec Game :=
  match getPlayer g.Players winnerID with
  | none => Exec.panic
  | some winner =>
    Exec.ok { g with Connections := writeAll g.Connections (OutMsg.gameOver winner.Name) }

/-- checkVictory of game.go 617-644, with its boolean result. -/
def checkVictory (g : Game) : Exec (Game × Bool) :=
  (alivePlayers g g.PlayerOrder).bind fun alive =>
  match alive with
  | [winnerID] =>
    match getPlayer g.Players winnerID with
    | none => Exec.panic
    | some _ =>
      let g := { g with State := GameStateFinished, GameOver := true }
      (broadcastVictory g winnerID).bind fun g => Exec.ok (g, true)
  | _ => Exec.ok (g, false)

/-- The choice of the player who starts the new round in resetRound
(game.go 567-604). -/
def chooseStarter (g : Game) (recordShooter : Bool) (d : Draws) : Exec Game :=
  if recordShooter && g.LastShooterID != "" then
    let shooterIdx := indexOf g.PlayerOrder g.LastShooterID
    if shooterIdx ≥ 0 then
      match getPlayer g.Players g.LastShooterID with
      | none => Exec.panic
      | some shooter =>
        if shooter.Alive then Exec.ok { g with CurrentPlayerIdx := shooterIdx }
        else
          (findNextPlayerWithCards g shooterIdx).bind fun idx =>
          Exec.ok { g with CurrentPlayerIdx := idx }
    else
      (findNextPlayerWithCards g shooterIdx).bind fun idx =>
      Exec.ok { g with CurrentPlayerIdx := idx }
  else
    (alivePlayers g g.PlayerOrder).bind fun alive =>
    if alive.length > 0 then
      (intn d.alive alive.length).bind fun randomIdx =>
      (index alive randomIdx).bind fun playerID =>
      let i := indexOf g.PlayerOrder playerID
      Exec.ok (if i ≥ 0 then { g with CurrentPlayerIdx := i } else g)
    else Exec.ok g

/-- resetRound of game.go 560-614. -/
def resetRound (g : Game) (recordShooter : Bool) (d : Draws) : Exec Game :=
  (dealCards g d).bind fun g =>
  (chooseTargetCard g d).bind fun g =>
  (chooseStarter g recordShooter d).bind fun g =>
  (startRound g).bind fun g =>
  let g := broadcastGameState g
  Exec.ok (notifyCurrentPlayer g)

/-- broadcastShootingResult of game.go 542-557. -/
def broadcastShootingResult (g : Game) (shooterName : String) (bulletHit : Bool) : Game :=
  { g with Connections := writeAll g.Connections (OutMsg.shootingResult shooterName bulletHit) }

/-- performPenalty of game.go 496-539. -/
def performPenalty (g : Game) (playerID : String) (d : Draws) : Exec Game :=
  (lock g).bind fun g =>
  match getPlayer g.Players playerID with
  | none => Exec.ok (unlock g)
  | some player =>
    let player :=
      { player with CurrentBulletPosition := Int.tmod (player.CurrentBulletPosition + 1) 6 }
    let g := { g with Players := setPlayer g.Players playerID player }
    let bulletHit := decide (player.CurrentBulletPosition = player.BulletPosition)
    let g := broadcastShootingResult g player.Name bulletHit
    if bulletHit then
      let g := { g with Players := setPlayer g.Players playerID { player with Alive := false } }
      (checkVictory g).bind fun r =>
      if !r.2 then (resetRound r.1 true d).bind fun g => Exec.ok (unlock g)
      else Exec.ok (unlock r.1)
    else (resetRound g true d).bind fun g => Exec.ok (unlock g)

/-! ## Challenges (game.go 371-467 and 662-712) -/

/-- broadcastChallengeResult of game.go 448-467. -/
def broadcastChallengeResult (g : Game) (challengerID : String) (challenged : Bool)
    (challengeSuccess : Bool) (reason : String) : Exec Game :=
  match getPlayer g.Players challengerID with
  | none => Exec.panic
  | some challenger =>
    let message :=
      OutMsg.challengeResult challenger.Name challenged reason
        (if challenged then some challengeSuccess else none)
    Exec.ok { g with Connections := writeAll g.Connections message }

/-- The loop of handleChallenge that looks for the player who played
(game.go 388-393): `prevPlayerIdx` is tested, and stepped back while the player
there is dead or has no card; `none` is the `return` of line 391.  The index
comes back to `currentPlayerIdx` within `len(g.PlayerOrder)` steps, so the
`fuel` that handleChallenge gives is never used up. -/
def findPrevLoop (g : Game) (currentPlayerIdx : Int) : Nat → Int → Exec (Option Int)
  | 0, _ => Exec.hang
  | fuel + 1, prevPlayerIdx =>
    (index g.PlayerOrder prevPlayerIdx).bind fun prevID =>
    match getPlayer g.Players prevID with
    | none => Exec.panic
    | some prev =>
      if !prev.Alive || decide (prev.Hand.length = 0) then
        let prevPlayerIdx1 :=
          Int.tmod (prevPlayerIdx - 1 + g.PlayerOrder.length) g.PlayerOrder.length
        if prevPlayerIdx1 = currentPlayerIdx then Exec.ok none
        else findPrevLoop g currentPlayerIdx fuel prevPlayerIdx1
      else Exec.ok (some prevPlayerIdx)

/-- handleChallenge of game.go 372-435. -/
def handleChallenge (g : Game) (playerID : String) (challenge : Bool) (reason : String)
    (d : Draws) : Exec Game :=
  let currentPlayerIdx := indexOf g.PlayerOrder playerID
  if currentPlayerIdx = -1 then Exec.ok g
  else
    let prevPlayerIdx :=
      Int.tmod (currentPlayerIdx - 1 + g.PlayerOrder.length) g.PlayerOrder.length
    (findPrevLoop g currentPlayerIdx (g.PlayerOrder.length + 1) prevPlayerIdx).bind fun r =>
    match r with
    | none => Exec.ok g
    | some prevPlayerIdx =>
      (index g.PlayerOrder prevPlayerIdx).bind fun prevPlayerID =>
      if !challenge then
        (broadcastChallengeResult g playerID false false reason).bind fun g =>
        moveToNextPlayer { g with CurrentPlayerIdx := currentPlayerIdx }
      else
        let lastPlayedCards : List String := []
        let isValid := isValidPlay g lastPlayedCards
        (broadcastChallengeResult g playerID true isValid reason).bind fun g =>
        let penaltyPlayerID := if isValid then playerID else prevPlayerID
        performPenalty { g with LastShooterID := penaltyPlayerID } penaltyPlayerID d

/-- broadcastSystemChallengeResult of game.go 686-702. -/
def broadcastSystemChallengeResult (g : Game) (playerID : String) (isValid : Bool)
    (cards : List String) : Exec Game :=
  match getPlayer g.Players playerID with
  | none => Exec.panic
  | some player =>
    Exec.ok { g with
      Connections := writeAll g.Connections (OutMsg.systemChallenge player.Name (!isValid) cards) }

/-- handleSystemChallenge of game.go 663-683. -/
def handleSystemChallenge (g : Game) (playerID : String) (cards : List String)
    (d : Draws) : Exec Game :=
  match getPlayer g.Players playerID with
  | none => Exec.panic
  | some _ =>
    let isValid := isValidPlay g cards
    (broadcastSystemChallengeResult g playerID isValid cards).bind fun g =>
    if isValid then resetRound g false d
    else performPenalty { g with LastShooterID := playerID } playerID d

/-- checkOtherPlayersNoCards of game.go 705-712. -/
def checkOtherPlayersNoCards (g : Game) (playerID : String) : Bool :=
  g.Players.all (fun e => !(e.1 != playerID && e.2.Alive && decide (e.2.Hand.length > 0)))

/-! ## Message dispatch (game.go 201-253) -/

/-- The conversion loop of handleMessage (game.go 231-234): `card.(string)`
panics on an element that is not a string. -/
def cardStrings : List JSON → Exec (List String)
  | [] => Exec.ok []
  | JSON.str s :: rest => (cardStrings rest).bind fun tail => Exec.ok (s :: tail)
  | _ :: _ => Exec.panic

/-- The `switch` of handleMessage (game.go 214-252), run with the mutex held. -/
def dispatch (g : Game) (playerID : String) (message : List (String × JSON)) (d : Draws)
    (msgType : String) : Exec Game :=
  if msgType = "start_game" then
    if g.State = GameStateWaiting ∧ g.Players.length ≥ 2 then startGame g d
    else Exec.ok g
  else if msgType = "play_cards" then
    if g.State = GameStatePlaying ∧ getCurrentPlayerID g = playerID then
      match message.lookup "cards" with
      | some (JSON.arr cardsData) =>
        (cardStrings cardsData).bind fun cards => handlePlayCards g playerID cards
      | _ => Exec.ok g
    else Exec.ok g
  else if msgType = "challenge" then
    if g.State = GameStatePlaying then
      match message.lookup "challenge" with
      | some (JSON.bool challenge) =>
        let reason :=
          match message.lookup "reason" with
          | some (JSON.str s) => s
          | _ => ""
        handleChallenge g playerID challenge reason d
      | _ => Exec.ok g
    else Exec.ok g
  else Exec.ok g

/-- handleMessage of game.go 202-253. -/
def handleMessage (g : Game) (playerID : String) (message : List (String × JSON))
    (d : Draws) : Exec Game :=
  (lock g).bind fun g =>
  match message.lookup "type" with
  | some (JSON.str msgType) =>
    (dispatch g playerID message d msgType).bind fun g => Exec.ok (unlock g)
  | _ => Exec.ok (unlock g)

/-! ## Roster (game.go 110-159) -/

/-- NewGame of game.go 111-123. -/
def NewGame (id : String) : Game :=
  { ID := id, State := GameStateWaiting, Players := [], PlayerOrder := [],
    Connections := [], Deck := [], TargetCard := "", CurrentPlayerIdx := 0,
    LastShooterID := "", RoundCount := 0, GameOver := false, mutex := false }

/-- IsFull of game.go 126-130; a read lock waits for the writer. -/
def IsFull (g : Game) : Exec Bool :=
  if g.mutex then Exec.hang else Exec.ok (decide (g.Players.length ≥ 4))

/-- `g.Players[playerID] = player`: replace the entry of the key or add one. -/
def putPlayer (ps : List (String × Player)) (id : String) (p : Player) :
    List (String × Player) :=
  match getPlayer ps id with
  | some _ => setPlayer ps id p
  | none => ps ++ [(id, p)]

/-- AddPlayer of game.go 133-159; `playerID` is the value of `uuid.New()` and
`bullet` the raw value behind `rand.Intn(6)`. -/
def AddPlayer (g : Game) (name playerID : String) (bullet : Nat) : Exec (Game × String) :=
  (lock g).bind fun g =>
  (intn bullet 6).bind fun b =>
  let player : Player :=
    { ID := playerID, Name := name, Hand := [], Alive := true, BulletPosition := (b : Int),
      CurrentBulletPosition := 0, Opinions := [] }
  let g := { g with Players := putPlayer g.Players playerID player }
  let g := { g with PlayerOrder := g.PlayerOrder ++ [playerID] }
  let g := broadcastGameState g
  Exec.ok (unlock g, playerID)

/-! ## Joining (game_manager.go 35-41 and 67-106) -/

/-- What HandleJoinGame reads of the HTTP request: the method, and the body once
decoded into `gameId` and `playerName` (`none` when the decoding fails). -/
structure JoinRequest where
  Method : String
  Body : Option (String × String)

/-- What HandleJoinGame answers. -/
inductive JoinReply where
  | methodNotAllowed
  | badRequest
  | notFound
  | full
  | joined (playerId : String)
deriving DecidableEq

/-- GetGame of game_manager.go 36-41 (the manager's own mutex is taken and
released inside and is not modelled). -/
def GetGame (games : List (String × Game)) (gameID : String) : Option Game :=
  games.lookup gameID

/-- Write through the game pointer stored under `gameID`. -/
def setGame (games : List (String × Game)) (gameID : String) (g : Game) :
    List (String × Game) :=
  games.map (fun e => if e.1 = gameID then (e.1, g) else e)

/-- HandleJoinGame of game_manager.go 68-106; `playerID` and `bullet` are the
draws of AddPlayer. -/
def HandleJoinGame (games : List (String × Game)) (r : JoinRequest) (playerID : String)
    (bullet : Nat) : Exec (List (String × Game) × JoinReply) :=
  if r.Method ≠ "POST" then Exec.ok (games, JoinReply.methodNotAllowed)
  else
    match r.Body with
    | none => Exec.ok (games, JoinReply.badRequest)
    | some (gameID, playerName) =>
      match GetGame games gameID with
      | none => Exec.ok (games, JoinReply.notFound)
      | some game =>
        (IsFull game).bind fun isFull =>
        if isFull then Exec.ok (games, JoinReply.full)
        else
          (AddPlayer game playerName playerID bullet).bind fun r =>
          Exec.ok (setGame games gameID r.1, JoinReply.joined r.2)

/-! ## Vocabulary of the statements -/

/-- The keys of the player map. -/
def playerKeys (g : Game) : List String :=
  g.Players.map Prod.fst

/-- What a session built by NewGame and AddPlayer keeps true: the player map
has one entry per key, and the roster lists exactly those keys, each once. -/
def Game.WellFormed (g : Game) : Prop :=
  (playerKeys g).Nodup ∧ g.PlayerOrder.Nodup ∧
    (∀ id ∈ g.PlayerOrder, id ∈ playerKeys g) ∧ (∀ id ∈ playerKeys g, id ∈ g.PlayerOrder)

/-- A session between two messages: well formed, the mutex free, the
current-player index inside the roster, and the last-penalized marker unset or
naming a roster member. -/
def Game.Sound (g : Game) : Prop :=
  g.WellFormed ∧ g.mutex = false ∧
    (0 ≤ g.CurrentPlayerIdx ∧ g.CurrentPlayerIdx < g.PlayerOrder.length) ∧
    (g.LastShooterID = "" ∨ g.LastShooterID ∈ g.PlayerOrder)

instance Game.decidableWellFormed (g : Game) : Decidable g.WellFormed := by
  unfold Game.WellFormed
  infer_instance

instance Game.decidableSound (g : Game) : Decidable g.Sound := by
  unfold Game.Sound
  infer_instance

/-- Sum of the hand sizes of the players selected by `keep`. -/
def handTotal (keep : Player → Bool) (ps : List (String × Player)) : Nat :=
  ((ps.filter (fun e => keep e.2)).map (fun e => e.2.Hand.length)).sum

/-- Hand sizes of all players plus the size of the deck. -/
def cardsOfAll (g : Game) : Nat :=
  handTotal (fun _ => true) g.Players + g.Deck.length

/-- Hand sizes of the living players plus the size of the deck. -/
def cardsOfLiving (g : Game) : Nat :=
  handTotal (fun p => p.Alive) g.Players + g.Deck.length

/-- Whether the roster member `id` is alive. -/
def isAlive (g : Game) (id : String) : Bool :=
  match getPlayer g.Players id with
  | some p => p.Alive
  | none => false

/-- The `bulletHit` of a `shooting_result` message. -/
def shotOf : OutMsg → Option Bool
  | OutMsg.shootingResult _ b => some b
  | _ => none

/-- The `bulletHit` of the last `shooting_result` written to a connection. -/
def lastShot (log : List OutMsg) : Option Bool :=
  log.reverse.findSome? shotOf

/-- A run of penalties: performPenalty applied to the listed players in turn,
each with its own draws. -/
def penaltyRun : List (String × Draws) → Game → Exec Game
  | [], g => Exec.ok g
  | step :: rest, g => (performPenalty g step.1 step.2).bind (penaltyRun rest)

/-- How many penalties of a run are applied to `playerID`. -/
def penaltiesOf (playerID : String) (steps : List (String × Draws)) : Nat :=
  (steps.filter (fun step => step.1 == playerID)).length

/-- The player map with every hand emptied: what dealing and playing leave
alone. -/
def stripHands (ps : List (String × Player)) : List (String × Player) :=
  ps.map (fun e => (e.1, { e.2 with Hand := [] }))

/-- Only the hands and the deck differ between `g` and `g1`. -/
def DealFrame (g g1 : Game) : Prop :=
  g1 = { g with Players := g1.Players, Deck := g1.Deck } ∧
    stripHands g1.Players = stripHands g.Players

/-- Size of the hand stored under `id`, 0 when there is no such player. -/
def handLen (g : Game) (id : String) : Nat :=
  match getPlayer g.Players id with
  | some p => p.Hand.length
  | none => 0

/-- For each connection, the `bulletHit` of the last `shooting_result` it was
sent. -/
def shots (cs : List (String × List OutMsg)) : List (String × Option Bool) :=
  cs.map (fun e => (e.1, lastShot e.2))

/-- What a round reset keeps: identifier, state, roster, last-penalized marker,
terminal flag and mutex, every player up to the hand, and the last
`shooting_result` of every connection; the round counter goes up by one. -/
def ResetFrame (g g1 : Game) : Prop :=
  g1.ID = g.ID ∧ g1.State = g.State ∧ g1.PlayerOrder = g.PlayerOrder ∧
    g1.LastShooterID = g.LastShooterID ∧ g1.GameOver = g.GameOver ∧ g1.mutex = g.mutex ∧
    g1.RoundCount = g.RoundCount + 1 ∧
    stripHands g1.Players = stripHands g.Players ∧
    shots g1.Connections = shots g.Connections

/-- Whether the next penalty of player `p` hits: the mechanism position after
one more step is the hazard slot (game.go 510-513). -/
def penaltyHits (p : Player) : Bool :=
  decide (Int.tmod (p.CurrentBulletPosition + 1) 6 = p.BulletPosition)

/-- The number of living roster members other than `playerID`. -/
def othersAlive (g : Game) (playerID : String) : Nat :=
  (g.PlayerOrder.filter (fun id => id != playerID && isAlive g id)).length

/-- The player at roster index `i`, when the index is in range and names a
player. -/
def rosterAt (g : Game) (i : Int) : Option Player :=
  match index g.PlayerOrder i with
  | Exec.ok id => getPlayer g.Players id
  | _ => none

/-- Whether the roster member at index `i` is alive. -/
def aliveAt (g : Game) (i : Int) : Bool :=
  match rosterAt g i with
  | some p => p.Alive
  | none => false

/-- Whether the roster member at index `i` is alive and holds at least one
card. -/
def eligibleAt (g : Game) (i : Int) : Bool :=
  match rosterAt g i with
  | some p => p.Alive && decide (p.Hand.length > 0)
  | none => false

/-- The index `i` is the first after `start` in cyclic roster order, `start`
itself coming last, at which `ok` holds. -/
def FirstAfter (g : Game) (ok : Int → Bool) (start i : Int) : Prop :=
  ∃ j : Nat, 1 ≤ j ∧ j ≤ g.PlayerOrder.length ∧
    i = (start + j) % g.PlayerOrder.length ∧ ok i = true ∧
    ∀ j1 : Nat, 1 ≤ j1 → j1 < j → ok ((start + j1) % g.PlayerOrder.length) = false

/-- The hand stored under `id`, empty when there is no such player. -/
def handOf (g : Game) (id : String) : List String :=
  match getPlayer g.Players id with
  | some p => p.Hand
  | none => []

/-- The cards in the hands of the living players, in the order of the player
map. -/
def livingHands : List (String × Player) → List String
  | [] => []
  | e :: rest => (if e.2.Alive then e.2.Hand else []) ++ livingHands rest

/-- What the entries `e1` and `e2` of two player maps have in common when
`viewer` must not tell them apart: the same key; under the key of `viewer` the
same player; under another key the same identifier, name, liveness and opinions
and hands of the same length (the hand contents, the hazard slot and the
mechanism position are free). -/
def agreeEntry (viewer : String) (e1 e2 : String × Player) : Prop :=
  e1.1 = e2.1 ∧
    if e1.1 = viewer then e1.2 = e2.2
    else
      e1.2.ID = e2.2.ID ∧ e1.2.Name = e2.2.Name ∧ e1.2.Alive = e2.2.Alive ∧
        e1.2.Opinions = e2.2.Opinions ∧ e1.2.Hand.length = e2.2.Hand.length

instance agreeEntry.decidable (viewer : String) (e1 e2 : String × Player) :
    Decidable (agreeEntry viewer e1 e2) := by
  unfold agreeEntry
  infer_instance

/-- Two sessions that differ at most in what is hidden from `viewer`: the hand
contents, hazard slots and mechanism positions of the players stored under
another key. -/
def AgreeFor (viewer : String) (g1 g2 : Game) : Prop :=
  g2 = { g1 with Players := g2.Players } ∧
    List.Forall₂ (agreeEntry viewer) g1.Players g2.Players

instance AgreeFor.decidable (viewer : String) (g1 g2 : Game) :
    Decidable (AgreeFor viewer g1 g2) := by
  unfold AgreeFor
  infer_instance

/-- The hands and the deck are those of a fresh deal of the shuffled deck
`createDeck d`: with n the number of living roster members, the j-th of them in
roster order (j counted from 0) holds exactly the deck cards at positions j,
j+n, j+2n, j+3n, j+4n, in that order, and the deck is the shuffled deck without
its first 5n cards. -/
def Dealt (g : Game) (d : Draws) : Prop :=
  (∀ (j : Nat) (id : String), (g.PlayerOrder.filter (isAlive g))[j]? = some id →
    (handOf g id).map some = (List.range 5).map
      (fun r => (createDeck d)[j + r * (g.PlayerOrder.filter (isAlive g)).length]?)) ∧
  g.Deck = (createDeck d).drop (5 * (g.PlayerOrder.filter (isAlive g)).length)

/-! ## Sample sessions -/

/-- A living player of the sample sessions, the mechanism at position 0. -/
def samplePlayer (id : String) (hand : List String) (slot : Int) : Player :=
  { ID := id, Name := id, Hand := hand, Alive := true, BulletPosition := slot,
    CurrentBulletPosition := 0, Opinions := [] }

/-- A Waiting session of three connected players. -/
def sampleWaiting : Game :=
  { NewGame "g" with
    Players := [("a", samplePlayer "a" [] 3), ("b", samplePlayer "b" [] 2),
      ("c", samplePlayer "c" [] 1)],
    PlayerOrder := ["a", "b", "c"],
    Connections := [("a", []), ("b", []), ("c", [])] }

/-- A Playing session of three players: "a" is to play, the target card is K. -/
def samplePlaying : Game :=
  { ID := "g", State := GameStatePlaying,
    Players :=
      [("a", samplePlayer "a" ["Q", "K", "A", "K", "Joker"] 3),
       ("b", samplePlayer "b" ["A", "A", "Q", "K", "Q"] 2),
       ("c", samplePlayer "c" ["K", "Q", "A", "Q", "A"] 5)],
    PlayerOrder := ["a", "b", "c"],
    Connections := [("a", []), ("b", []), ("c", [])],
    Deck := ["Q", "K", "A", "K", "Joker"],
    TargetCard := "K", CurrentPlayerIdx := 0, LastShooterID := "", RoundCount := 1,
    GameOver := false, mutex := false }

/-- A Finished session: "a" is the only player alive. -/
def sampleFinished : Game :=
  { ID := "g", State := GameStateFinished,
    Players :=
      [("a", samplePlayer "a" ["Q", "K"] 3),
       ("b", { samplePlayer "b" ["A"] 2 with Alive := false, CurrentBulletPosition := 2 })],
    PlayerOrder := ["a", "b"],
    Connections := [("a", []), ("b", [])],
    Deck := ["Q", "K", "A"],
    TargetCard := "K", CurrentPlayerIdx := 0, LastShooterID := "b", RoundCount := 4,
    GameOver := true, mutex := false }

/-- A Waiting session that five players have joined. -/
def sampleFive : Game :=
  { NewGame "g" with
    Players := [("a", samplePlayer "a" [] 3), ("b", samplePlayer "b" [] 2),
      ("c", samplePlayer "c" [] 1), ("d", samplePlayer "d" [] 0), ("e", samplePlayer "e" [] 4)],
    PlayerOrder := ["a", "b", "c", "d", "e"],
    Connections := [("a", []), ("b", []), ("c", []), ("d", []), ("e", [])] }

/-- The inbound message `start_game`. -/
def startGameMessage : List (String × JSON) :=
  [("type", JSON.str "start_game")]

/-- A Playing session in which only "a", whose turn it is, still holds a card. -/
def sampleLastCard : Game :=
  { samplePlaying with
    Players :=
      [("a", samplePlayer "a" ["K"] 3), ("b", samplePlayer "b" [] 2),
       ("c", samplePlayer "c" [] 5)] }

/-- The sample Playing session with "b" as the last-penalized player. -/
def sampleMarked : Game :=
  { samplePlaying with LastShooterID := "b" }

/-- The inbound message `play_cards` with the given JSON values as cards. -/
def playCardsMessage (cards : List JSON) : List (String × JSON) :=
  [("type", JSON.str "play_cards"), ("cards", JSON.arr cards)]

/-- A request to join the session "g" under the name "zed". -/
def sampleJoin : JoinRequest :=
  { Method := "POST", Body := some ("g", "zed") }

/-- Draws used with the sample sessions: the shuffle reverses the deck. -/
def sampleDraws : Draws :=
  { start := 1, shuffle := List.reverse, target := 1, alive := 0 }

/-- A play of the two cards Q, K by "a", as handed to broadcastPlayAction. -/
def sampleAction : PlayAction :=
  { PlayerID := "a", PlayerName := "a", PlayedCards := ["Q", "K"],
    RemainingCards := ["A", "K", "Joker"], PlayReason := "", Behavior := "",
    NextPlayerID := "b", NextPlayerName := "b", WasChallenged := false,
    ChallengeReason := "", ChallengeResult := none }

/-- The sample Playing session with other cards, hazard slots and mechanism
positions for "b" and "c". -/
def sampleOtherHands : Game :=
  { samplePlaying with
    Players :=
      [("a", samplePlayer "a" ["Q", "K", "A", "K", "Joker"] 3),
       ("b", { samplePlayer "b" ["K", "K", "K", "Joker", "A"] 0 with
               CurrentBulletPosition := 4 }),
       ("c", { samplePlayer "c" ["Q", "Q", "Q", "A", "K"] 1 with
               CurrentBulletPosition := 2 })] }

/-- The inbound message `challenge` with the given decision. -/
def challengeMessage (challenge : Bool) : List (String × JSON) :=
  [("type", JSON.str "challenge"), ("challenge", JSON.bool challenge),
   ("reason", JSON.str "")]

/-- A Playing session of two players: "a" is to play. -/
def sampleTwo : Game :=
  { samplePlaying with
    Players :=
      [("a", samplePlayer "a" ["Q", "K", "A", "K", "Joker"] 3),
       ("b", samplePlayer "b" ["A", "A", "Q", "K", "Q"] 2)],
    PlayerOrder := ["a", "b"],
    Connections := [("a", []), ("b", [])] }

/-! ## Theorems -/

@[simp] theorem Exec.bind_ok {α β : Type} (a : α) (f : α → Exec β) :
    (Exec.ok a).bind f = f a := rfl

@[simp] theorem Exec.bind_panic {α β : Type} (f : α → Exec β) :
    (Exec.panic : Exec α).bind f = Exec.panic := rfl

@[simp] theorem Exec.bind_hang {α β : Type} (f : α → Exec β) :
    (Exec.hang : Exec α).bind f = Exec.hang := rfl

/-- Releasing the mutex taken from a session whose mutex was free gives the
session back. -/
theorem unlock_lock (g : Game) (h : g.mutex = false) :
    lock g = Exec.ok { g with mutex := true } ∧ unlock { g with mutex := true } = g := by
  cases g
  simp_all [lock, unlock]

/-! ### The player map -/

theorem getPlayer_cons (k : String) (q : Player) (ps : List (String × Player)) (id : String) :
    getPlayer ((k, q) :: ps) id = if id = k then some q else getPlayer ps id := by
  unfold getPlayer
  rw [List.lookup_cons]
  by_cases h : id = k
  · simp [h]
  · have : (id == k) = false := by simpa using h
    simp [this, h]

theorem getPlayer_nil (id : String) : getPlayer [] id = none := rfl

theorem getPlayer_setPlayer (ps : List (String × Player)) (id id1 : String) (q : Player) :
    getPlayer (setPlayer ps id q) id1 =
      if id1 = id then (getPlayer ps id).map (fun _ => q) else getPlayer ps id1 := by
  induction ps with
  | nil => simp [setPlayer, getPlayer_nil]
  | cons e ps ih =>
    obtain ⟨k, p⟩ := e
    have hcons : setPlayer ((k, p) :: ps) id q =
        (if k = id then (k, q) else (k, p)) :: setPlayer ps id q := by
      simp [setPlayer]
    rw [hcons]
    by_cases hk : k = id
    · subst hk
      simp only [if_true, getPlayer_cons]
      by_cases h1 : id1 = k
      · simp [h1]
      · simp only [h1, if_false]
        rw [ih]
        simp [h1]
    · simp only [hk, if_false, getPlayer_cons]
      by_cases h1 : id1 = k
      · have : ¬ id1 = id := by rw [h1]; exact hk
        simp [h1, hk]
      · simp only [h1, if_false]
        rw [ih]
        have hk2 : ¬ id = k := fun h => hk h.symm
        simp [hk2]

theorem keys_setPlayer (ps : List (String × Player)) (id : String) (q : Player) :
    (setPlayer ps id q).map Prod.fst = ps.map Prod.fst := by
  induction ps with
  | nil => rfl
  | cons e ps ih =>
    simp only [setPlayer, List.map_cons, List.map_map] at ih ⊢
    refine congrArg₂ _ ?_ ih
    by_cases h : e.1 = id <;> simp [h]

theorem getPlayer_some_of_mem_keys (ps : List (String × Player)) (id : String)
    (h : id ∈ ps.map Prod.fst) : ∃ p, getPlayer ps id = some p := by
  induction ps with
  | nil => simp at h
  | cons e ps ih =>
    obtain ⟨k, p⟩ := e
    rw [getPlayer_cons]
    by_cases hk : id = k
    · exact ⟨p, by simp [hk]⟩
    · simp only [hk, if_false]
      apply ih
      simpa [hk] using h

theorem mem_of_getPlayer (ps : List (String × Player)) (id : String) (p : Player)
    (h : getPlayer ps id = some p) : (id, p) ∈ ps := by
  induction ps with
  | nil => simp [getPlayer_nil] at h
  | cons e ps ih =>
    obtain ⟨k, q⟩ := e
    rw [getPlayer_cons] at h
    by_cases hk : id = k
    · simp only [hk, if_true, Option.some.injEq] at h
      simp [hk, h]
    · simp only [hk, if_false] at h
      exact List.mem_cons_of_mem _ (ih h)

theorem getPlayer_of_mem (ps : List (String × Player)) (id : String) (p : Player)
    (hnd : (ps.map Prod.fst).Nodup) (h : (id, p) ∈ ps) : getPlayer ps id = some p := by
  induction ps with
  | nil => simp at h
  | cons e ps ih =>
    obtain ⟨k, q⟩ := e
    rw [getPlayer_cons]
    simp only [List.map_cons, List.nodup_cons] at hnd
    rcases List.mem_cons.mp h with heq | hmem
    · simp only [Prod.mk.injEq] at heq
      simp [heq.1, heq.2]
    · have hne : id ≠ k := by
        rintro rfl
        exact hnd.1 (List.mem_map.mpr ⟨(id, p), hmem, rfl⟩)
      simp only [hne, if_false]
      exact ih hnd.2 hmem

theorem setPlayer_of_not_mem (ps : List (String × Player)) (id : String) (q : Player)
    (h : id ∉ ps.map Prod.fst) : setPlayer ps id q = ps := by
  induction ps with
  | nil => rfl
  | cons e ps ih =>
    simp only [List.map_cons, List.mem_cons, not_or] at h
    have hne : ¬ e.1 = id := fun h1 => h.1 h1.symm
    have ih1 := ih h.2
    simp only [setPlayer, List.map_cons, hne, if_false] at ih1 ⊢
    rw [ih1]

theorem setPlayer_cons (k : String) (p : Player) (ps : List (String × Player)) (id : String)
    (q : Player) :
    setPlayer ((k, p) :: ps) id q = (if k = id then (k, q) else (k, p)) :: setPlayer ps id q := by
  simp [setPlayer]

theorem stripHands_setPlayer (ps : List (String × Player)) (id : String) (p : Player)
    (hand : List String) (hnd : (ps.map Prod.fst).Nodup) (hp : getPlayer ps id = some p) :
    stripHands (setPlayer ps id { p with Hand := hand }) = stripHands ps := by
  unfold stripHands setPlayer
  rw [List.map_map]
  apply List.map_congr_left
  intro e he
  by_cases h : e.1 = id
  · have hmem : (id, e.2) ∈ ps := by rw [← h]; exact he
    have := getPlayer_of_mem ps id e.2 hnd hmem
    rw [hp] at this
    simp only [Option.some.injEq] at this
    simp [h, ← this]
  · simp [h]

theorem stripHands_clearHands (ps : List (String × Player)) :
    stripHands (clearHands ps) = stripHands ps := by
  unfold stripHands clearHands
  rw [List.map_map]
  apply List.map_congr_left
  intro e _
  by_cases h : e.2.Alive <;> simp [h]

theorem keys_stripHands (ps : List (String × Player)) :
    (stripHands ps).map Prod.fst = ps.map Prod.fst := by
  simp [stripHands, List.map_map, Function.comp_def]

theorem keys_of_stripHands_eq {ps qs : List (String × Player)}
    (h : stripHands qs = stripHands ps) : qs.map Prod.fst = ps.map Prod.fst := by
  rw [← keys_stripHands qs, h, keys_stripHands]

theorem getPlayer_stripHands (ps : List (String × Player)) (id : String) :
    getPlayer (stripHands ps) id = (getPlayer ps id).map (fun p => { p with Hand := [] }) := by
  induction ps with
  | nil => rfl
  | cons e ps ih =>
    obtain ⟨k, q⟩ := e
    have : stripHands ((k, q) :: ps) = (k, { q with Hand := [] }) :: stripHands ps := rfl
    rw [this, getPlayer_cons, getPlayer_cons, ih]
    by_cases h : id = k <;> simp [h]

/-- Players stored under the same key in two maps that agree up to hands agree
up to their hand. -/
theorem getPlayer_of_stripHands_eq {ps qs : List (String × Player)}
    (h : stripHands qs = stripHands ps) (id : String) :
    (getPlayer qs id).map (fun p => { p with Hand := [] })
      = (getPlayer ps id).map (fun p => { p with Hand := [] }) := by
  rw [← getPlayer_stripHands, ← getPlayer_stripHands, h]

theorem DealFrame.refl (g : Game) : DealFrame g g := ⟨rfl, rfl⟩

theorem DealFrame.trans {g g1 g2 : Game} (h1 : DealFrame g g1) (h2 : DealFrame g1 g2) :
    DealFrame g g2 := by
  obtain ⟨e1, s1⟩ := h1
  obtain ⟨e2, s2⟩ := h2
  refine ⟨?_, s2.trans s1⟩
  rw [e2, e1]

theorem DealFrame.keys {g g1 : Game} (h : DealFrame g g1) : playerKeys g1 = playerKeys g :=
  keys_of_stripHands_eq h.2

theorem DealFrame.order {g g1 : Game} (h : DealFrame g g1) : g1.PlayerOrder = g.PlayerOrder := by
  rw [h.1]

theorem DealFrame.alive_eq {g g1 : Game} (h : DealFrame g g1) (id : String) :
    isAlive g1 id = isAlive g id := by
  have := getPlayer_of_stripHands_eq h.2 id
  unfold isAlive
  cases h1 : getPlayer g1.Players id <;> cases h2 : getPlayer g.Players id <;>
    simp_all

/-! ### Counting cards -/

theorem handTotal_cons (keep : Player → Bool) (k : String) (q : Player)
    (ps : List (String × Player)) :
    handTotal keep ((k, q) :: ps) = (if keep q then q.Hand.length else 0) + handTotal keep ps := by
  unfold handTotal
  by_cases h : keep q <;> simp [List.filter_cons, h]

/-- Replacing the hand of the player stored under `id` moves the total by the
change in that hand. -/
theorem handTotal_setPlayer (keep : Player → Bool) (ps : List (String × Player)) (id : String)
    (p : Player) (hand : List String) (hnd : (ps.map Prod.fst).Nodup)
    (hp : getPlayer ps id = some p) (hkeep : keep { p with Hand := hand } = keep p) :
    handTotal keep (setPlayer ps id { p with Hand := hand })
        + (if keep p then p.Hand.length else 0)
      = handTotal keep ps + (if keep p then hand.length else 0) := by
  induction ps with
  | nil => simp [getPlayer_nil] at hp
  | cons e ps ih =>
    obtain ⟨k, q⟩ := e
    simp only [List.map_cons, List.nodup_cons] at hnd
    rw [getPlayer_cons] at hp
    rw [setPlayer_cons]
    by_cases hk : id = k
    · subst hk
      simp only [if_true, Option.some.injEq] at hp
      subst hp
      rw [setPlayer_of_not_mem ps id _ hnd.1]
      simp only [if_true, handTotal_cons, hkeep]
      by_cases hq : keep q
      · simp only [hq, if_true]
        omega
      · simp [hq]
    · have hk2 : ¬ k = id := fun h => hk h.symm
      simp only [hk, if_false] at hp
      simp only [hk2, if_false, handTotal_cons]
      have := ih hnd.2 hp
      omega

theorem handTotal_clearHands (ps : List (String × Player)) :
    handTotal (fun p => p.Alive) (clearHands ps) = 0 := by
  induction ps with
  | nil => rfl
  | cons e ps ih =>
    obtain ⟨k, q⟩ := e
    have : clearHands ((k, q) :: ps)
        = (if q.Alive then (k, { q with Hand := [] }) else (k, q)) :: clearHands ps := by
      simp [clearHands]
    rw [this]
    by_cases h : q.Alive <;> simp [h, handTotal_cons, ih]

/-! ### Dealing -/

/-- One step of the deal never fails on a player of the map, changes hands and
deck only, and moves a card from the deck to a living hand or does nothing. -/
theorem dealOne_spec (g : Game) (id : String) (hnd : (playerKeys g).Nodup)
    (hmem : id ∈ playerKeys g) :
    ∃ g1, dealOne g id = Exec.ok g1 ∧ DealFrame g g1 ∧ cardsOfLiving g1 = cardsOfLiving g ∧
      ((isAlive g id = true ∧ g.Deck ≠ []) →
        g1.Deck = g.Deck.tail ∧
        ∀ id1, handLen g1 id1 = handLen g id1 + (if id1 = id then 1 else 0)) := by
  obtain ⟨p, hp⟩ := getPlayer_some_of_mem_keys g.Players id hmem
  unfold dealOne
  rw [hp]
  simp only
  by_cases ha : p.Alive
  · rw [if_pos ha]
    cases hd : g.Deck with
    | nil =>
      refine ⟨g, rfl, DealFrame.refl g, rfl, ?_⟩
      intro h
      exact absurd rfl h.2
    | cons card rest =>
      refine ⟨_, rfl, ⟨rfl, ?_⟩, ?_, ?_⟩
      · exact stripHands_setPlayer g.Players id p _ hnd hp
      · have := handTotal_setPlayer (fun p => p.Alive) g.Players id p (p.Hand ++ [card]) hnd hp rfl
        rw [if_pos ha, if_pos ha, List.length_append, List.length_singleton] at this
        simp only [cardsOfLiving, hd, List.length_cons]
        omega
      · intro _
        refine ⟨by simp, ?_⟩
        intro id1
        simp only [handLen, getPlayer_setPlayer]
        by_cases h1 : id1 = id
        · subst h1
          simp [hp]
        · simp [h1]
  · rw [if_neg ha]
    refine ⟨g, rfl, DealFrame.refl g, rfl, ?_⟩
    intro h
    simp [isAlive, hp, ha] at h

/-- One pass of the deal over roster members `ids`. -/
theorem dealRound_spec (ids : List String) (g : Game) (hnd : (playerKeys g).Nodup)
    (hsub : ∀ id ∈ ids, id ∈ playerKeys g) :
    ∃ g1, dealRound ids g = Exec.ok g1 ∧ DealFrame g g1 ∧ cardsOfLiving g1 = cardsOfLiving g ∧
      ((ids.Nodup ∧ (∀ id ∈ ids, isAlive g id = true) ∧ ids.length ≤ g.Deck.length) →
        g1.Deck = g.Deck.drop ids.length ∧
        ∀ id1, handLen g1 id1 = handLen g id1 + (if id1 ∈ ids then 1 else 0)) := by
  induction ids generalizing g with
  | nil =>
    exact ⟨g, rfl, DealFrame.refl g, rfl, fun _ => ⟨by simp, fun _ => by simp⟩⟩
  | cons id rest ih =>
    obtain ⟨g1, h1, f1, c1, n1⟩ :=
      dealOne_spec g id hnd (hsub id (List.mem_cons_self _ _))
    have hnd1 : (playerKeys g1).Nodup := by rw [f1.keys]; exact hnd
    have hsub1 : ∀ id1 ∈ rest, id1 ∈ playerKeys g1 := by
      intro id1 h
      rw [f1.keys]
      exact hsub id1 (List.mem_cons_of_mem _ h)
    obtain ⟨g2, h2, f2, c2, n2⟩ := ih g1 hnd1 hsub1
    refine ⟨g2, ?_, f1.trans f2, c2.trans c1, ?_⟩
    · simp [dealRound, h1, h2]
    · rintro ⟨hids, halive, hlen⟩
      simp only [List.nodup_cons] at hids
      simp only [List.length_cons] at hlen
      have hne : g.Deck ≠ [] := by
        intro h
        rw [h] at hlen
        simp at hlen
      obtain ⟨d1, l1⟩ := n1 ⟨halive id (List.mem_cons_self _ _), hne⟩
      have hlen1 : rest.length ≤ g1.Deck.length := by
        rw [d1, List.length_tail]
        omega
      obtain ⟨d2, l2⟩ := n2 ⟨hids.2, fun id1 h => by
        rw [f1.alive_eq]; exact halive id1 (List.mem_cons_of_mem _ h), hlen1⟩
      refine ⟨?_, ?_⟩
      · rw [d2, d1, List.length_cons, ← List.drop_one, List.drop_drop]
        congr 1
        omega
      · intro id1
        rw [l2, l1]
        by_cases e : id1 = id
        · subst e
          simp [hids.1]
        · simp [e]

/-- The rounds of the deal. -/
theorem dealRounds_spec (k : Nat) (g : Game) (hnd : (playerKeys g).Nodup)
    (hsub : ∀ id ∈ g.PlayerOrder, id ∈ playerKeys g) :
    ∃ g1, dealRounds k g = Exec.ok g1 ∧ DealFrame g g1 ∧ cardsOfLiving g1 = cardsOfLiving g ∧
      ((g.PlayerOrder.Nodup ∧ (∀ id ∈ g.PlayerOrder, isAlive g id = true) ∧
          k * g.PlayerOrder.length ≤ g.Deck.length) →
        g1.Deck = g.Deck.drop (k * g.PlayerOrder.length) ∧
        ∀ id1, handLen g1 id1 = handLen g id1 + (if id1 ∈ g.PlayerOrder then k else 0)) := by
  induction k generalizing g with
  | zero =>
    exact ⟨g, rfl, DealFrame.refl g, rfl, fun _ => ⟨by simp, fun _ => by simp⟩⟩
  | succ k ih =>
    obtain ⟨g1, h1, f1, c1, n1⟩ := dealRound_spec g.PlayerOrder g hnd hsub
    have hnd1 : (playerKeys g1).Nodup := by rw [f1.keys]; exact hnd
    have hsub1 : ∀ id1 ∈ g1.PlayerOrder, id1 ∈ playerKeys g1 := by
      rw [f1.keys, f1.order]
      exact hsub
    obtain ⟨g2, h2, f2, c2, n2⟩ := ih g1 hnd1 hsub1
    refine ⟨g2, ?_, f1.trans f2, c2.trans c1, ?_⟩
    · simp [dealRounds, h1, h2]
    · rintro ⟨hids, halive, hlen⟩
      have hmul : (k + 1) * g.PlayerOrder.length
          = k * g.PlayerOrder.length + g.PlayerOrder.length := by ring
      obtain ⟨d1, l1⟩ := n1 ⟨hids, halive, by omega⟩
      have hlen1 : k * g1.PlayerOrder.length ≤ g1.Deck.length := by
        rw [d1, f1.order, List.length_drop]
        omega
      obtain ⟨d2, l2⟩ := n2 ⟨by rw [f1.order]; exact hids, fun id1 h => by
        rw [f1.alive_eq]; rw [f1.order] at h; exact halive id1 h, hlen1⟩
      refine ⟨?_, ?_⟩
      · rw [d2, d1, f1.order, List.drop_drop]
        congr 1
        omega
      · intro id1
        rw [l2, l1, f1.order]
        by_cases e : id1 ∈ g.PlayerOrder
        · simp only [e, if_true]
          omega
        · simp [e]

/-- The whole deal: it returns, changes hands and deck only, spreads the shuffled
deck over the living hands and the deck, and gives five cards to each roster
member when all of them are alive and the deck is large enough. -/
theorem dealCards_spec (g : Game) (d : Draws) (hnd : (playerKeys g).Nodup)
    (hsub : ∀ id ∈ g.PlayerOrder, id ∈ playerKeys g) :
    ∃ g1, dealCards g d = Exec.ok g1 ∧ DealFrame g g1 ∧
      cardsOfLiving g1 = (createDeck d).length ∧
      ((g.PlayerOrder.Nodup ∧ (∀ id ∈ g.PlayerOrder, isAlive g id = true) ∧
          5 * g.PlayerOrder.length ≤ (createDeck d).length) →
        g1.Deck = (createDeck d).drop (5 * g.PlayerOrder.length) ∧
        ∀ id ∈ g.PlayerOrder, handLen g1 id = 5) := by
  have f0 : DealFrame g { g with Deck := createDeck d, Players := clearHands g.Players } :=
    ⟨rfl, stripHands_clearHands g.Players⟩
  have hnd0 := hnd
  rw [← f0.keys] at hnd0
  have hsub0 : ∀ id ∈ g.PlayerOrder,
      id ∈ playerKeys { g with Deck := createDeck d, Players := clearHands g.Players } := by
    rw [f0.keys]
    exact hsub
  obtain ⟨g1, h1, f1, c1, n1⟩ := dealRounds_spec 5 _ hnd0 hsub0
  refine ⟨g1, h1, f0.trans f1, ?_, ?_⟩
  · rw [c1]
    simp [cardsOfLiving, handTotal_clearHands]
  · rintro ⟨hids, halive, hlen⟩
    obtain ⟨d1, l1⟩ := n1 ⟨hids, fun id h => by rw [f0.alive_eq]; exact halive id h, hlen⟩
    refine ⟨d1, ?_⟩
    intro id hid
    rw [l1 id]
    have h0 : handLen { g with Deck := createDeck d, Players := clearHands g.Players } id = 0 := by
      have ha := halive id hid
      unfold isAlive at ha
      unfold handLen
      have hc : getPlayer (clearHands g.Players) id
          = (getPlayer g.Players id).map
              (fun p => if p.Alive then { p with Hand := [] } else p) := by
        generalize g.Players = ps
        induction ps with
        | nil => rfl
        | cons e ps ih =>
          obtain ⟨k, q⟩ := e
          have : clearHands ((k, q) :: ps)
              = (if q.Alive then (k, { q with Hand := [] }) else (k, q)) :: clearHands ps := by
            simp [clearHands]
          rw [this]
          by_cases hq : q.Alive <;> by_cases hk : id = k <;>
            simp [hq, hk, getPlayer_cons, ih]
      simp only [hc]
      cases hp : getPlayer g.Players id with
      | none => simp
      | some p =>
        rw [hp] at ha
        simp only at ha
        simp [ha]
    rw [h0]
    simp [hid]

/-! ### Small steps of a round -/

theorem index_ok (s : List String) (i : Int) (h0 : 0 ≤ i) (h1 : i < s.length) :
    ∃ x, index s i = Exec.ok x ∧ x ∈ s := by
  have hlt : i.toNat < s.length := by omega
  unfold index
  rw [if_pos ⟨h0, h1⟩, List.get?_eq_get hlt]
  exact ⟨_, rfl, List.get_mem _ _ _⟩

theorem chooseTargetCard_spec (g : Game) (d : Draws) :
    ∃ c, c ∈ [CardQ, CardK, CardA] ∧ chooseTargetCard g d = Exec.ok { g with TargetCard := c } := by
  have h3 : d.target % 3 < 3 := Nat.mod_lt _ (by decide)
  obtain ⟨c, hc, hmem⟩ := index_ok [CardQ, CardK, CardA] ((d.target % 3 : Nat) : Int)
    (by omega) (by simp; omega)
  refine ⟨c, hmem, ?_⟩
  unfold chooseTargetCard intn
  rw [if_neg (by decide)]
  simp only [Exec.bind_ok]
  rw [hc]
  rfl

theorem startRound_spec (g : Game) (hsub : ∀ id ∈ g.PlayerOrder, id ∈ playerKeys g)
    (h0 : 0 ≤ g.CurrentPlayerIdx) (h1 : g.CurrentPlayerIdx < g.PlayerOrder.length) :
    startRound g = Exec.ok { g with RoundCount := g.RoundCount + 1 } := by
  obtain ⟨x, hx, hmem⟩ := index_ok g.PlayerOrder g.CurrentPlayerIdx h0 h1
  obtain ⟨p, hp⟩ := getPlayer_some_of_mem_keys g.Players x (hsub x hmem)
  simp [startRound, hx, hp]

theorem indexFrom_of_mem (id : String) (l : List String) (i : Int) (h : id ∈ l) :
    i ≤ indexFrom id i l ∧ indexFrom id i l < i + l.length := by
  induction l generalizing i with
  | nil => simp at h
  | cons x rest ih =>
    unfold indexFrom
    by_cases hx : x = id
    · simp only [hx, if_true, List.length_cons]
      omega
    · simp only [hx, if_false, List.length_cons]
      have hmem : id ∈ rest := by
        rcases List.mem_cons.mp h with h1 | h1
        · exact absurd h1.symm hx
        · exact h1
      have := ih (i + 1) hmem
      push_cast
      omega

theorem indexFrom_of_not_mem (id : String) (l : List String) (i : Int) (h : id ∉ l) :
    indexFrom id i l = -1 := by
  induction l generalizing i with
  | nil => rfl
  | cons x rest ih =>
    simp only [List.mem_cons, not_or] at h
    have hx : ¬ x = id := fun e => h.1 e.symm
    unfold indexFrom
    simp only [hx, if_false]
    exact ih (i + 1) h.2

theorem indexOf_of_mem (order : List String) (id : String) (h : id ∈ order) :
    0 ≤ indexOf order id ∧ indexOf order id < order.length := by
  have := indexFrom_of_mem id order 0 h
  unfold indexOf
  omega

theorem notifyCurrentPlayer_eq (g : Game) :
    notifyCurrentPlayer g = { g with Connections := (notifyCurrentPlayer g).Connections } := by
  unfold notifyCurrentPlayer
  simp only
  split <;> rfl

theorem cardPool_length : cardPool.length = 20 := by decide

/-- In a well-formed session the roster is as long as the player map. -/
theorem Game.WellFormed.length_eq {g : Game} (h : g.WellFormed) :
    g.PlayerOrder.length = g.Players.length := by
  obtain ⟨hk, ho, h1, h2⟩ := h
  have hperm : g.PlayerOrder.Perm (playerKeys g) :=
    (List.perm_ext_iff_of_nodup ho hk).mpr (fun id => ⟨h1 id, h2 id⟩)
  rw [hperm.length_eq]
  simp [playerKeys]

/-- startGame once the mutex is taken and the first player drawn. -/
theorem startGame_eq (g : Game) (d : Draws) (hfree : g.mutex = false)
    (hne : g.PlayerOrder.length ≠ 0) :
    startGame g d =
      (dealCards
          { g with mutex := true, State := GameStatePlaying, GameOver := false, RoundCount := 0,
                   CurrentPlayerIdx := ((d.start % g.PlayerOrder.length : Nat) : Int) } d).bind
        fun g1 => (chooseTargetCard g1 d).bind fun g2 => (startRound g2).bind fun g3 =>
          Exec.ok (unlock (notifyCurrentPlayer (broadcastGameState g3))) := by
  unfold startGame lock intn
  rw [hfree]
  simp only [Bool.false_eq_true, if_false, Exec.bind_ok, hne]

/-- startGame on a well-formed session with a free mutex and a roster that is
not empty: it returns the dealt session with a target card, the round counter
raised, the snapshots sent and the mutex released. -/
theorem startGame_run (g : Game) (d : Draws) (hfree : g.mutex = false) (hwf : g.WellFormed)
    (hne : g.PlayerOrder.length ≠ 0) :
    ∃ g1 c, c ∈ [CardQ, CardK, CardA] ∧
      g1.State = GameStatePlaying ∧ g1.GameOver = false ∧ g1.RoundCount = 0 ∧
      g1.CurrentPlayerIdx = ((d.start % g.PlayerOrder.length : Nat) : Int) ∧
      playerKeys g1 = playerKeys g ∧
      cardsOfLiving g1 = (createDeck d).length ∧
      ((∀ id ∈ g.PlayerOrder, isAlive g id = true) →
          5 * g.PlayerOrder.length ≤ (createDeck d).length →
        g1.Deck = (createDeck d).drop (5 * g.PlayerOrder.length) ∧
        ∀ id ∈ g.PlayerOrder, handLen g1 id = 5) ∧
      startGame g d = Exec.ok (unlock (notifyCurrentPlayer (broadcastGameState
        { g1 with TargetCard := c, RoundCount := g1.RoundCount + 1 }))) := by
  obtain ⟨hk, ho, hsub, -⟩ := hwf
  obtain ⟨g1, h1, f1, c1, n1⟩ := dealCards_spec
    { g with mutex := true, State := GameStatePlaying, GameOver := false, RoundCount := 0,
             CurrentPlayerIdx := ((d.start % g.PlayerOrder.length : Nat) : Int) } d hk hsub
  obtain ⟨c, hc, hch⟩ := chooseTargetCard_spec g1 d
  have hkeys : playerKeys g1 = playerKeys g := f1.keys
  have hord : g1.PlayerOrder = g.PlayerOrder := f1.order
  have hidx : g1.CurrentPlayerIdx = ((d.start % g.PlayerOrder.length : Nat) : Int) := by
    rw [f1.1]
  have hlt : d.start % g.PlayerOrder.length < g.PlayerOrder.length :=
    Nat.mod_lt _ (Nat.pos_of_ne_zero hne)
  have hsr := startRound_spec { g1 with TargetCard := c }
    (by show ∀ id ∈ g1.PlayerOrder, id ∈ playerKeys g1
        rw [hkeys, hord]; exact hsub)
    (by show 0 ≤ g1.CurrentPlayerIdx
        rw [hidx]; omega)
    (by show g1.CurrentPlayerIdx < g1.PlayerOrder.length
        rw [hidx, hord]; omega)
  refine ⟨g1, c, hc, by rw [f1.1], by rw [f1.1], by rw [f1.1], hidx, hkeys, c1, ?_, ?_⟩
  · intro halive hlen
    exact n1 ⟨ho, halive, hlen⟩
  · rw [startGame_eq g d hfree hne, h1, Exec.bind_ok, hch, Exec.bind_ok, hsr, Exec.bind_ok]


/-! ### Connections -/

theorem lastShot_append_singleton (l : List OutMsg) (m : OutMsg) :
    lastShot (l ++ [m]) = (shotOf m).orElse (fun _ => lastShot l) := by
  unfold lastShot
  rw [List.reverse_append, List.reverse_singleton, List.singleton_append, List.findSome?_cons]
  cases shotOf m <;> rfl

theorem shots_writeTo (cs : List (String × List OutMsg)) (id : String) (m : OutMsg)
    (hm : shotOf m = none) : shots (writeTo cs id m) = shots cs := by
  unfold shots writeTo
  rw [List.map_map]
  apply List.map_congr_left
  intro e _
  by_cases h : e.1 = id <;> simp [h, lastShot_append_singleton, hm]

theorem shots_writeAll (cs : List (String × List OutMsg)) (m : OutMsg) :
    shots (writeAll cs m) = cs.map (fun e => (e.1, (shotOf m).orElse (fun _ => lastShot e.2))) := by
  unfold shots writeAll
  rw [List.map_map]
  apply List.map_congr_left
  intro e _
  simp [lastShot_append_singleton]

theorem shots_broadcastGameState (g : Game) :
    shots (broadcastGameState g).Connections = shots g.Connections := by
  unfold shots broadcastGameState
  simp only [List.map_map]
  apply List.map_congr_left
  intro e _
  simp [lastShot_append_singleton, shotOf]

theorem shots_notifyCurrentPlayer (g : Game) :
    shots (notifyCurrentPlayer g).Connections = shots g.Connections := by
  unfold notifyCurrentPlayer
  simp only
  split
  · rfl
  · exact shots_writeTo _ _ _ rfl

theorem lastShot_of_shots {cs : List (String × List OutMsg)} {b : Option Bool}
    (h : ∀ e ∈ shots cs, e.2 = b) : ∀ c ∈ cs, lastShot c.2 = b := by
  intro c hc
  exact h (c.1, lastShot c.2) (List.mem_map.mpr ⟨c, hc, rfl⟩)

/-! ### Turn order -/

theorem findNextLoop_valid (g : Game) (hsub : ∀ id ∈ g.PlayerOrder, id ∈ playerKeys g)
    (k : Nat) (idx : Int) (h0 : 0 ≤ idx) (h1 : idx < g.PlayerOrder.length) :
    ∃ r, findNextLoop g k idx = Exec.ok r ∧
      ∀ i, r = some i → 0 ≤ i ∧ i < g.PlayerOrder.length := by
  induction k generalizing idx with
  | zero => exact ⟨none, rfl, fun i h => by simp at h⟩
  | succ k ih =>
    have hn : (0 : Int) < g.PlayerOrder.length := by omega
    have hmod : Int.tmod (idx + 1) g.PlayerOrder.length = (idx + 1) % g.PlayerOrder.length :=
      Int.tmod_eq_emod (by omega) (by omega)
    have hlo : 0 ≤ (idx + 1) % (g.PlayerOrder.length : Int) := Int.emod_nonneg _ (by omega)
    have hhi : (idx + 1) % (g.PlayerOrder.length : Int) < g.PlayerOrder.length :=
      Int.emod_lt_of_pos _ hn
    obtain ⟨x, hx, hmem⟩ := index_ok g.PlayerOrder _ hlo hhi
    obtain ⟨p, hp⟩ := getPlayer_some_of_mem_keys g.Players x (hsub x hmem)
    unfold findNextLoop
    simp only [hmod, hx, Exec.bind_ok, hp]
    split
    · exact ⟨_, rfl, fun i h => by
        simp only [Option.some.injEq] at h
        rw [← h]; exact ⟨hlo, hhi⟩⟩
    · exact ih _ hlo hhi

theorem findNextPlayerWithCards_valid (g : Game)
    (hsub : ∀ id ∈ g.PlayerOrder, id ∈ playerKeys g)
    (idx : Int) (h0 : 0 ≤ idx) (h1 : idx < g.PlayerOrder.length) :
    ∃ i : Int, findNextPlayerWithCards g idx = Exec.ok i ∧ 0 ≤ i ∧ i < g.PlayerOrder.length := by
  obtain ⟨r, hr, hv⟩ := findNextLoop_valid g hsub g.PlayerOrder.length idx h0 h1
  unfold findNextPlayerWithCards
  rw [hr]
  cases r with
  | none => exact ⟨idx, rfl, h0, h1⟩
  | some i => exact ⟨i, rfl, hv i rfl⟩

theorem alivePlayers_spec (g : Game) (ids : List String) (hsub : ∀ id ∈ ids, id ∈ playerKeys g) :
    alivePlayers g ids = Exec.ok (ids.filter (isAlive g)) := by
  induction ids with
  | nil => rfl
  | cons id rest ih =>
    obtain ⟨p, hp⟩ := getPlayer_some_of_mem_keys g.Players id (hsub id (List.mem_cons_self _ _))
    have ih1 := ih (fun x hx => hsub x (List.mem_cons_of_mem _ hx))
    unfold alivePlayers
    simp only [hp, ih1, Exec.bind_ok, List.filter_cons, isAlive]

/-! ### Round reset -/

/-- The choice of the starting player returns with an index inside the roster
and changes nothing else. -/
theorem chooseStarter_spec (g : Game) (b : Bool) (d : Draws)
    (hsub : ∀ id ∈ g.PlayerOrder, id ∈ playerKeys g)
    (h0 : 0 ≤ g.CurrentPlayerIdx) (h1 : g.CurrentPlayerIdx < g.PlayerOrder.length)
    (hlast : g.LastShooterID = "" ∨ g.LastShooterID ∈ g.PlayerOrder) :
    ∃ i : Int, (0 ≤ i ∧ i < g.PlayerOrder.length) ∧
      chooseStarter g b d = Exec.ok { g with CurrentPlayerIdx := i } := by
  unfold chooseStarter
  by_cases hc : (b && g.LastShooterID != "") = true
  · rw [if_pos hc]
    have hne : g.LastShooterID ≠ "" := by
      simp only [Bool.and_eq_true, bne_iff_ne] at hc
      exact hc.2
    have hmem : g.LastShooterID ∈ g.PlayerOrder := by
      rcases hlast with h | h
      · exact absurd h hne
      · exact h
    obtain ⟨i0, i1⟩ := indexOf_of_mem g.PlayerOrder g.LastShooterID hmem
    obtain ⟨p, hp⟩ := getPlayer_some_of_mem_keys g.Players _ (hsub _ hmem)
    simp only [ge_iff_le, i0, if_true, hp]
    by_cases ha : p.Alive
    · rw [if_pos ha]
      exact ⟨_, ⟨i0, i1⟩, rfl⟩
    · rw [if_neg ha]
      obtain ⟨i, hi, hv⟩ := findNextPlayerWithCards_valid g hsub _ i0 i1
      rw [hi]
      exact ⟨i, hv, rfl⟩
  · rw [if_neg hc, alivePlayers_spec g g.PlayerOrder hsub]
    simp only [Exec.bind_ok]
    by_cases hl : (g.PlayerOrder.filter (isAlive g)).length > 0
    · rw [if_pos hl]
      have hlt : d.alive % (g.PlayerOrder.filter (isAlive g)).length
          < (g.PlayerOrder.filter (isAlive g)).length := Nat.mod_lt _ hl
      obtain ⟨x, hx, hxmem⟩ := index_ok (g.PlayerOrder.filter (isAlive g))
        ((d.alive % (g.PlayerOrder.filter (isAlive g)).length : Nat) : Int) (by omega) (by omega)
      obtain ⟨i0, i1⟩ := indexOf_of_mem g.PlayerOrder x (List.mem_of_mem_filter hxmem)
      unfold intn
      rw [if_neg (by omega)]
      simp only [Exec.bind_ok]
      rw [hx]
      simp only [Exec.bind_ok, ge_iff_le, i0, if_true]
      exact ⟨_, ⟨i0, i1⟩, rfl⟩
    · rw [if_neg hl]
      exact ⟨g.CurrentPlayerIdx, ⟨h0, h1⟩, rfl⟩

/-- A round reset on a well-formed session returns; it deals the shuffled deck to
the living players, picks a target among Q, K, A and a starting index inside the
roster, and adds one to the round counter. -/
theorem resetRound_spec (g : Game) (b : Bool) (d : Draws) (hwf : g.WellFormed)
    (h0 : 0 ≤ g.CurrentPlayerIdx) (h1 : g.CurrentPlayerIdx < g.PlayerOrder.length)
    (hlast : g.LastShooterID = "" ∨ g.LastShooterID ∈ g.PlayerOrder) :
    ∃ g1, resetRound g b d = Exec.ok g1 ∧ ResetFrame g g1 ∧
      (0 ≤ g1.CurrentPlayerIdx ∧ g1.CurrentPlayerIdx < g.PlayerOrder.length) ∧
      g1.TargetCard ∈ [CardQ, CardK, CardA] ∧
      cardsOfLiving g1 = (createDeck d).length := by
  obtain ⟨hk, -, hsub, -⟩ := hwf
  obtain ⟨g1, e1, f1, c1, -⟩ := dealCards_spec g d hk hsub
  obtain ⟨c, hc, e2⟩ := chooseTargetCard_spec g1 d
  have hsub1 : ∀ id ∈ g1.PlayerOrder, id ∈ playerKeys g1 := by
    rw [f1.keys, f1.order]
    exact hsub
  have hidx1 : g1.CurrentPlayerIdx = g.CurrentPlayerIdx := by rw [f1.1]
  have hlast1 : g1.LastShooterID = g.LastShooterID := by rw [f1.1]
  obtain ⟨i, hi, e3⟩ := chooseStarter_spec { g1 with TargetCard := c } b d hsub1
    (by show 0 ≤ g1.CurrentPlayerIdx
        rw [hidx1]; exact h0)
    (by show g1.CurrentPlayerIdx < g1.PlayerOrder.length
        rw [hidx1, f1.order]; exact h1)
    (by show g1.LastShooterID = "" ∨ g1.LastShooterID ∈ g1.PlayerOrder
        rw [hlast1, f1.order]; exact hlast)
  have e4 := startRound_spec { g1 with TargetCard := c, CurrentPlayerIdx := i } hsub1 hi.1 hi.2
  have hrun : resetRound g b d = Exec.ok (notifyCurrentPlayer (broadcastGameState
      { g1 with TargetCard := c, CurrentPlayerIdx := i, RoundCount := g1.RoundCount + 1 })) := by
    unfold resetRound
    rw [e1, Exec.bind_ok, e2, Exec.bind_ok, e3, Exec.bind_ok, e4, Exec.bind_ok]
  have hi2 : i < (g.PlayerOrder.length : Int) := by
    have := hi.2
    rw [← f1.order]
    exact this
  refine ⟨_, hrun, ⟨?_, ?_, ?_, ?_, ?_, ?_, ?_, ?_, ?_⟩, ?_, ?_, ?_⟩
  · rw [notifyCurrentPlayer_eq]
    show g1.ID = g.ID
    rw [f1.1]
  · rw [notifyCurrentPlayer_eq]
    show g1.State = g.State
    rw [f1.1]
  · rw [notifyCurrentPlayer_eq]
    exact f1.order
  · rw [notifyCurrentPlayer_eq]
    exact hlast1
  · rw [notifyCurrentPlayer_eq]
    show g1.GameOver = g.GameOver
    rw [f1.1]
  · rw [notifyCurrentPlayer_eq]
    show g1.mutex = g.mutex
    rw [f1.1]
  · rw [notifyCurrentPlayer_eq]
    show g1.RoundCount + 1 = g.RoundCount + 1
    rw [f1.1]
  · rw [notifyCurrentPlayer_eq]
    exact f1.2
  · rw [shots_notifyCurrentPlayer, shots_broadcastGameState]
    show shots g1.Connections = shots g.Connections
    rw [f1.1]
  · rw [notifyCurrentPlayer_eq]
    exact ⟨hi.1, hi2⟩
  · rw [notifyCurrentPlayer_eq]
    exact hc
  · rw [notifyCurrentPlayer_eq]
    exact c1

/-! ### Victory and penalty -/

theorem Game.WellFormed.of_keys {g g1 : Game} (h : g.WellFormed)
    (hk : playerKeys g1 = playerKeys g) (ho : g1.PlayerOrder = g.PlayerOrder) :
    g1.WellFormed := by
  unfold Game.WellFormed at h ⊢
  rw [hk, ho]
  exact h

theorem player_of_stripHands_eq {ps qs : List (String × Player)}
    (h : stripHands qs = stripHands ps) {id : String} {q : Player}
    (hq : getPlayer ps id = some q) :
    ∃ q1, getPlayer qs id = some q1 ∧
      q1.CurrentBulletPosition = q.CurrentBulletPosition ∧
      q1.BulletPosition = q.BulletPosition ∧ q1.Name = q.Name ∧ q1.Alive = q.Alive := by
  have := getPlayer_of_stripHands_eq h id
  rw [hq] at this
  cases h1 : getPlayer qs id with
  | none => rw [h1] at this; simp at this
  | some q1 =>
    rw [h1] at this
    simp only [Option.map_some', Option.some.injEq, Player.mk.injEq] at this
    obtain ⟨-, hn, -, ha, hb, hc, -⟩ := this
    exact ⟨q1, rfl, hc, hb, hn, ha⟩

theorem checkVictory_spec (g : Game) (hsub : ∀ id ∈ g.PlayerOrder, id ∈ playerKeys g) :
    ((g.PlayerOrder.filter (isAlive g)).length = 1 →
      ∃ name, checkVictory g = Exec.ok
        ({ g with State := GameStateFinished, GameOver := true,
                  Connections := writeAll g.Connections (OutMsg.gameOver name) }, true)) ∧
    ((g.PlayerOrder.filter (isAlive g)).length ≠ 1 → checkVictory g = Exec.ok (g, false)) := by
  have hmem : ∀ x ∈ g.PlayerOrder.filter (isAlive g), x ∈ playerKeys g :=
    fun x hx => hsub x (List.mem_of_mem_filter hx)
  unfold checkVictory
  rw [alivePlayers_spec g g.PlayerOrder hsub, Exec.bind_ok]
  generalize g.PlayerOrder.filter (isAlive g) = alive at hmem
  match alive, hmem with
  | [], _ => exact ⟨fun h => by simp at h, fun _ => rfl⟩
  | [w], hmem =>
    obtain ⟨p, hp⟩ := getPlayer_some_of_mem_keys g.Players w (hmem w (List.mem_singleton_self w))
    refine ⟨fun _ => ⟨p.Name, ?_⟩, fun h => by simp at h⟩
    simp [hp, broadcastVictory]
  | _ :: _ :: _, _ => exact ⟨fun h => by simp at h, fun _ => rfl⟩

/-- The end of both branches of performPenalty that start a new round. -/
theorem resetRound_unlock_spec (g : Game) (d : Draws) (hwf : g.WellFormed)
    (h0 : 0 ≤ g.CurrentPlayerIdx) (h1 : g.CurrentPlayerIdx < g.PlayerOrder.length)
    (hlast : g.LastShooterID = "" ∨ g.LastShooterID ∈ g.PlayerOrder) :
    ∃ g1, ((resetRound g true d).bind fun r => Exec.ok (unlock r)) = Exec.ok g1 ∧
      g1.Sound ∧ g1.State = g.State ∧ g1.GameOver = g.GameOver ∧
      g1.PlayerOrder = g.PlayerOrder ∧ g1.LastShooterID = g.LastShooterID ∧
      g1.RoundCount = g.RoundCount + 1 ∧
      stripHands g1.Players = stripHands g.Players ∧
      shots g1.Connections = shots g.Connections ∧
      g1.TargetCard ∈ [CardQ, CardK, CardA] ∧
      cardsOfLiving g1 = (createDeck d).length := by
  obtain ⟨r, hr, ⟨-, fs, fo, fl, fg, -, fr, fp, fc⟩, hidx, ht, hc⟩ :=
    resetRound_spec g true d hwf h0 h1 hlast
  refine ⟨unlock r, by rw [hr, Exec.bind_ok], ⟨?_, rfl, ?_, ?_⟩, fs, fg, fo, fl, fr, fp, fc, ht, hc⟩
  · exact hwf.of_keys (keys_of_stripHands_eq fp) fo
  · show 0 ≤ r.CurrentPlayerIdx ∧ r.CurrentPlayerIdx < r.PlayerOrder.length
    rw [fo]
    exact hidx
  · show r.LastShooterID = "" ∨ r.LastShooterID ∈ r.PlayerOrder
    rw [fl, fo]
    exact hlast

theorem shots_writeAll_quiet (cs : List (String × List OutMsg)) (m : OutMsg)
    (hm : shotOf m = none) : shots (writeAll cs m) = shots cs := by
  rw [shots_writeAll]
  unfold shots
  apply List.map_congr_left
  intro e _
  simp [hm]

theorem shots_writeAll_shot (cs : List (String × List OutMsg)) (name : String) (b : Bool) :
    ∀ e ∈ shots (writeAll cs (OutMsg.shootingResult name b)), e.2 = some b := by
  rw [shots_writeAll]
  intro e he
  obtain ⟨c, -, rfl⟩ := List.mem_map.mp he
  simp [shotOf]

/-- performPenalty once the mutex is taken and the player found. -/
theorem performPenalty_eq (g : Game) (playerID : String) (d : Draws) (p : Player)
    (hfree : g.mutex = false) (hp : getPlayer g.Players playerID = some p) :
    performPenalty g playerID d =
      if penaltyHits p = true then
        (checkVictory
          { g with
            mutex := true,
            Players := setPlayer
              (setPlayer g.Players playerID
                { p with CurrentBulletPosition := Int.tmod (p.CurrentBulletPosition + 1) 6 })
              playerID
              { p with CurrentBulletPosition := Int.tmod (p.CurrentBulletPosition + 1) 6,
                       Alive := false },
            Connections :=
              writeAll g.Connections (OutMsg.shootingResult p.Name (penaltyHits p)) }).bind
          fun r =>
            if (!r.2) = true then (resetRound r.1 true d).bind fun g => Exec.ok (unlock g)
            else Exec.ok (unlock r.1)
      else
        (resetRound
          { g with
            mutex := true,
            Players := setPlayer g.Players playerID
              { p with CurrentBulletPosition := Int.tmod (p.CurrentBulletPosition + 1) 6 },
            Connections :=
              writeAll g.Connections (OutMsg.shootingResult p.Name (penaltyHits p)) }
          true d).bind fun g => Exec.ok (unlock g) := by
  unfold performPenalty lock
  rw [hfree]
  simp only [Bool.false_eq_true, if_false, Exec.bind_ok, hp, broadcastShootingResult,
    penaltyHits, decide_eq_true_eq]

theorem setPlayer_setPlayer_get (ps : List (String × Player)) (id : String) (p q r : Player)
    (hp : getPlayer ps id = some p) (id1 : String) :
    getPlayer (setPlayer (setPlayer ps id q) id r) id1 =
      if id1 = id then some r else getPlayer ps id1 := by
  simp only [getPlayer_setPlayer]
  by_cases h : id1 = id
  · simp [h, hp]
  · simp [h]

/-- One penalty on a player of a sound session: it returns a sound session; the
mechanism of the player has advanced by one step modulo 6; every connection was
told whether it hit; the session is finished exactly when it hit and one other
roster member is alive, and otherwise a new round has been dealt. -/
theorem performPenalty_spec (g : Game) (playerID : String) (d : Draws) (p : Player)
    (hs : g.Sound) (hp : getPlayer g.Players playerID = some p) :
    ∃ g1 p1, performPenalty g playerID d = Exec.ok g1 ∧ g1.Sound ∧
      getPlayer g1.Players playerID = some p1 ∧
      p1.CurrentBulletPosition = Int.tmod (p.CurrentBulletPosition + 1) 6 ∧
      p1.BulletPosition = p.BulletPosition ∧ p1.Name = p.Name ∧
      p1.Alive = (p.Alive && !penaltyHits p) ∧
      (∀ c ∈ g1.Connections, lastShot c.2 = some (penaltyHits p)) ∧
      ((penaltyHits p = true ∧ othersAlive g playerID = 1) →
        g1.State = GameStateFinished ∧ g1.GameOver = true ∧ g1.RoundCount = g.RoundCount) ∧
      (¬ (penaltyHits p = true ∧ othersAlive g playerID = 1) →
        g1.State = g.State ∧ g1.GameOver = g.GameOver ∧ g1.RoundCount = g.RoundCount + 1 ∧
        g1.TargetCard ∈ [CardQ, CardK, CardA] ∧ cardsOfLiving g1 = (createDeck d).length) ∧
      (∀ id q, id ≠ playerID → getPlayer g.Players id = some q →
        ∃ q1, getPlayer g1.Players id = some q1 ∧
          q1.CurrentBulletPosition = q.CurrentBulletPosition ∧
          q1.BulletPosition = q.BulletPosition) ∧
      g1.LastShooterID = g.LastShooterID ∧ g1.PlayerOrder = g.PlayerOrder := by
  obtain ⟨hwf, hfree, ⟨h0, h1⟩, hlast⟩ := hs
  rw [performPenalty_eq g playerID d p hfree hp]
  by_cases hit : penaltyHits p = true
  · rw [if_pos hit]
    generalize hgD : ({ g with
        mutex := true,
        Players := setPlayer
          (setPlayer g.Players playerID
            { p with CurrentBulletPosition := Int.tmod (p.CurrentBulletPosition + 1) 6 })
          playerID
          { p with CurrentBulletPosition := Int.tmod (p.CurrentBulletPosition + 1) 6,
                   Alive := false },
        Connections :=
          writeAll g.Connections (OutMsg.shootingResult p.Name (penaltyHits p)) } : Game) = gD
    have eP : gD.Players = setPlayer
          (setPlayer g.Players playerID
            { p with CurrentBulletPosition := Int.tmod (p.CurrentBulletPosition + 1) 6 })
          playerID
          { p with CurrentBulletPosition := Int.tmod (p.CurrentBulletPosition + 1) 6,
                   Alive := false } := by rw [← hgD]
    have eC : gD.Connections
        = writeAll g.Connections (OutMsg.shootingResult p.Name (penaltyHits p)) := by rw [← hgD]
    have eO : gD.PlayerOrder = g.PlayerOrder := by rw [← hgD]
    have eL : gD.LastShooterID = g.LastShooterID := by rw [← hgD]
    have eI : gD.CurrentPlayerIdx = g.CurrentPlayerIdx := by rw [← hgD]
    have eS : gD.State = g.State := by rw [← hgD]
    have eG : gD.GameOver = g.GameOver := by rw [← hgD]
    have eR : gD.RoundCount = g.RoundCount := by rw [← hgD]
    have eK : playerKeys gD = playerKeys g := by
      unfold playerKeys
      rw [eP, keys_setPlayer, keys_setPlayer]
    have wfD : gD.WellFormed := hwf.of_keys eK eO
    have hsubD : ∀ id ∈ gD.PlayerOrder, id ∈ playerKeys gD := wfD.2.2.1
    have getD : ∀ id1, getPlayer gD.Players id1 =
        if id1 = playerID then
          some { p with CurrentBulletPosition := Int.tmod (p.CurrentBulletPosition + 1) 6,
                        Alive := false }
        else getPlayer g.Players id1 := by
      intro id1
      rw [eP]
      exact setPlayer_setPlayer_get g.Players playerID p _ _ hp id1
    have shotsD : ∀ e ∈ shots gD.Connections, e.2 = some (penaltyHits p) := by
      rw [eC]
      exact shots_writeAll_shot _ _ _
    have hcount : (gD.PlayerOrder.filter (isAlive gD)).length = othersAlive g playerID := by
      unfold othersAlive
      rw [eO]
      congr 1
      apply List.filter_congr
      intro id _
      unfold isAlive
      rw [getD id]
      by_cases h : id = playerID
      · simp [h]
      · simp [h]
    obtain ⟨hwin, hcont⟩ := checkVictory_spec gD hsubD
    rw [hcount] at hwin hcont
    by_cases hone : othersAlive g playerID = 1
    · obtain ⟨name, hv⟩ := hwin hone
      rw [hv, Exec.bind_ok]
      simp only [Bool.not_true, Bool.false_eq_true, if_false]
      refine ⟨_, { p with CurrentBulletPosition := Int.tmod (p.CurrentBulletPosition + 1) 6,
                          Alive := false },
        rfl, ⟨?_, rfl, ?_, ?_⟩, ?_, rfl, rfl, rfl, ?_, ?_, ?_, ?_, ?_, eL, eO⟩
      · exact wfD.of_keys rfl rfl
      · show 0 ≤ gD.CurrentPlayerIdx ∧ gD.CurrentPlayerIdx < gD.PlayerOrder.length
        rw [eI, eO]
        exact ⟨h0, h1⟩
      · show gD.LastShooterID = "" ∨ gD.LastShooterID ∈ gD.PlayerOrder
        rw [eL, eO]
        exact hlast
      · show getPlayer gD.Players playerID = _
        rw [getD playerID, if_pos rfl]
      · simp [hit]
      · apply lastShot_of_shots
        show ∀ e ∈ shots (writeAll gD.Connections (OutMsg.gameOver name)), _
        rw [shots_writeAll_quiet gD.Connections (OutMsg.gameOver name) rfl]
        exact shotsD
      · intro _
        exact ⟨rfl, rfl, eR⟩
      · intro h
        exact absurd ⟨hit, hone⟩ h
      · intro id q hne hq
        refine ⟨q, ?_, rfl, rfl⟩
        show getPlayer gD.Players id = some q
        rw [getD id, if_neg hne, hq]
    · rw [hcont hone, Exec.bind_ok]
      simp only [Bool.not_false, if_true]
      obtain ⟨g1, hr, hsound, fs, fg, fo, fl, fr, fp, fc, ht, hc⟩ :=
        resetRound_unlock_spec gD d wfD (by rw [eI]; exact h0) (by rw [eI, eO]; exact h1)
          (by rw [eL, eO]; exact hlast)
      obtain ⟨p1, hp1, a1, a2, a3, a4⟩ :=
        player_of_stripHands_eq fp (by rw [getD playerID, if_pos rfl])
      refine ⟨g1, p1, hr, hsound, hp1, a1, a2, a3, ?_, ?_, ?_, ?_, ?_, fl.trans eL,
        fo.trans eO⟩
      · rw [a4]
        simp [hit]
      · apply lastShot_of_shots
        rw [fc]
        exact shotsD
      · intro h
        exact absurd h.2 hone
      · intro _
        exact ⟨fs.trans eS, fg.trans eG, by rw [fr, eR], ht, hc⟩
      · intro id q hne hq
        obtain ⟨q1, hq1, b1, b2, -, -⟩ :=
          player_of_stripHands_eq fp (by rw [getD id, if_neg hne, hq])
        exact ⟨q1, hq1, b1, b2⟩
  · rw [if_neg hit]
    generalize hgB : ({ g with
        mutex := true,
        Players := setPlayer g.Players playerID
          { p with CurrentBulletPosition := Int.tmod (p.CurrentBulletPosition + 1) 6 },
        Connections :=
          writeAll g.Connections (OutMsg.shootingResult p.Name (penaltyHits p)) } : Game) = gB
    have eP : gB.Players = setPlayer g.Players playerID
          { p with CurrentBulletPosition := Int.tmod (p.CurrentBulletPosition + 1) 6 } := by
      rw [← hgB]
    have eC : gB.Connections
        = writeAll g.Connections (OutMsg.shootingResult p.Name (penaltyHits p)) := by rw [← hgB]
    have eO : gB.PlayerOrder = g.PlayerOrder := by rw [← hgB]
    have eL : gB.LastShooterID = g.LastShooterID := by rw [← hgB]
    have eI : gB.CurrentPlayerIdx = g.CurrentPlayerIdx := by rw [← hgB]
    have eS : gB.State = g.State := by rw [← hgB]
    have eG : gB.GameOver = g.GameOver := by rw [← hgB]
    have eR : gB.RoundCount = g.RoundCount := by rw [← hgB]
    have eK : playerKeys gB = playerKeys g := by
      unfold playerKeys
      rw [eP, keys_setPlayer]
    have wfB : gB.WellFormed := hwf.of_keys eK eO
    have getB : getPlayer gB.Players playerID =
        some { p with CurrentBulletPosition := Int.tmod (p.CurrentBulletPosition + 1) 6 } := by
      rw [eP, getPlayer_setPlayer, if_pos rfl, hp]
      rfl
    have shotsB : ∀ e ∈ shots gB.Connections, e.2 = some (penaltyHits p) := by
      rw [eC]
      exact shots_writeAll_shot _ _ _
    obtain ⟨g1, hr, hsound, fs, fg, fo, fl, fr, fp, fc, ht, hc⟩ :=
      resetRound_unlock_spec gB d wfB (by rw [eI]; exact h0) (by rw [eI, eO]; exact h1)
        (by rw [eL, eO]; exact hlast)
    obtain ⟨p1, hp1, a1, a2, a3, a4⟩ := player_of_stripHands_eq fp getB
    have hit0 : penaltyHits p = false := by simpa using hit
    refine ⟨g1, p1, hr, hsound, hp1, a1, a2, a3, ?_, ?_, ?_, ?_, ?_, fl.trans eL,
      fo.trans eO⟩
    · rw [a4]
      simp [hit0]
    · apply lastShot_of_shots
      rw [fc]
      exact shotsB
    · intro h
      exact absurd h.1 hit
    · intro _
      exact ⟨fs.trans eS, fg.trans eG, by rw [fr, eR], ht, hc⟩
    · intro id q hne hq
      have hgB : getPlayer gB.Players id = some q := by
        rw [eP, getPlayer_setPlayer, if_neg hne, hq]
      obtain ⟨q1, hq1, b1, b2, -, -⟩ := player_of_stripHands_eq fp hgB
      exact ⟨q1, hq1, b1, b2⟩

/-! ### The search for the previous player ends -/

theorem stepBack_eq (n : Nat) (prev : Int) (h0 : 0 ≤ prev) (h1 : prev < n) :
    Int.tmod (prev - 1 + n) n = if prev = 0 then (n : Int) - 1 else prev - 1 := by
  rw [Int.tmod_eq_emod (by omega) (by omega)]
  by_cases hp : prev = 0
  · rw [if_pos hp, hp]
    have : (0 - 1 + (n : Int)) = (n : Int) - 1 := by ring
    rw [this]
    exact Int.emod_eq_of_lt (by omega) (by omega)
  · rw [if_neg hp, Int.add_emod_self]
    exact Int.emod_eq_of_lt (by omega) (by omega)

/-- The loop of handleChallenge returns or panics before `fuel` runs out, when
`fuel` is at least the number of steps back from `prevPlayerIdx` to
`currentPlayerIdx`. -/
theorem findPrevLoop_ends (g : Game) (cur : Int) (hc0 : 0 ≤ cur)
    (hc1 : cur < g.PlayerOrder.length) (fuel : Nat) (prev : Int) (h0 : 0 ≤ prev)
    (h1 : prev < g.PlayerOrder.length)
    (hfuel : (if cur < prev then prev - cur else prev - cur + g.PlayerOrder.length) ≤ fuel) :
    findPrevLoop g cur fuel prev ≠ Exec.hang := by
  induction fuel generalizing prev with
  | zero =>
    exfalso
    split at hfuel <;> omega
  | succ fuel ih =>
    obtain ⟨x, hx, -⟩ := index_ok g.PlayerOrder prev h0 h1
    unfold findPrevLoop
    rw [hx, Exec.bind_ok]
    cases hp : getPlayer g.Players x with
    | none => simp
    | some q =>
      simp only
      split
      · have hstep := stepBack_eq g.PlayerOrder.length prev h0 h1
        generalize Int.tmod (prev - 1 + g.PlayerOrder.length) g.PlayerOrder.length = prev1
          at hstep ⊢
        by_cases hret : prev1 = cur
        · rw [if_pos hret]
          simp
        · rw [if_neg hret]
          apply ih prev1
          · split at hstep <;> omega
          · split at hstep <;> omega
          · split at hstep <;> split at hfuel <;> split <;> omega
      · simp

/-- The fuel that handleChallenge gives to the loop is enough. -/
theorem findPrevLoop_fuel (g : Game) (cur : Int) (hc0 : 0 ≤ cur)
    (hc1 : cur < g.PlayerOrder.length) :
    findPrevLoop g cur (g.PlayerOrder.length + 1)
      (Int.tmod (cur - 1 + g.PlayerOrder.length) g.PlayerOrder.length) ≠ Exec.hang := by
  rw [stepBack_eq g.PlayerOrder.length cur hc0 hc1]
  apply findPrevLoop_ends g cur hc0 hc1
  · split <;> omega
  · split <;> omega
  · split <;> split <;> push_cast <;> omega

/-! ### The roster -/

theorem getPlayer_none_of_not_mem (ps : List (String × Player)) (id : String)
    (h : id ∉ ps.map Prod.fst) : getPlayer ps id = none := by
  cases hp : getPlayer ps id with
  | none => rfl
  | some p =>
    exact absurd (List.mem_map.mpr ⟨(id, p), mem_of_getPlayer ps id p hp, rfl⟩) h

/-- NewGame makes a well-formed Waiting session with a free mutex. -/
theorem NewGame_wellFormed (id : String) :
    (NewGame id).WellFormed ∧ (NewGame id).State = GameStateWaiting ∧
      (NewGame id).mutex = false := by
  refine ⟨?_, rfl, rfl⟩
  unfold Game.WellFormed playerKeys NewGame
  simp

/-- AddPlayer with a fresh identifier keeps the session well formed: the new
player, alive, with an empty hand and the mechanism at position 0, is added at
the end of the player map and of the roster. -/
theorem AddPlayer_spec (g : Game) (name playerID : String) (bullet : Nat)
    (hwf : g.WellFormed) (hfree : g.mutex = false) (hfresh : playerID ∉ playerKeys g) :
    ∃ g1, AddPlayer g name playerID bullet = Exec.ok (g1, playerID) ∧ g1.WellFormed ∧
      g1.mutex = false ∧ g1.State = g.State ∧
      g1.PlayerOrder = g.PlayerOrder ++ [playerID] ∧
      g1.Players = g.Players ++
        [(playerID, { ID := playerID, Name := name, Hand := [], Alive := true,
                      BulletPosition := ((bullet % 6 : Nat) : Int),
                      CurrentBulletPosition := 0, Opinions := [] })] := by
  obtain ⟨hk, ho, hsub, hsup⟩ := hwf
  have hnone := getPlayer_none_of_not_mem g.Players playerID hfresh
  have hrun : AddPlayer g name playerID bullet = Exec.ok
      (unlock (broadcastGameState
        { g with
          mutex := true,
          Players := g.Players ++
            [(playerID, { ID := playerID, Name := name, Hand := [], Alive := true,
                          BulletPosition := ((bullet % 6 : Nat) : Int),
                          CurrentBulletPosition := 0, Opinions := [] })],
          PlayerOrder := g.PlayerOrder ++ [playerID] }), playerID) := by
    unfold AddPlayer lock intn putPlayer
    rw [hfree]
    simp only [Bool.false_eq_true, if_false, Exec.bind_ok, hnone]
    rfl
  refine ⟨_, hrun, ⟨?_, ?_, ?_, ?_⟩, rfl, rfl, rfl, rfl⟩
  · show ((g.Players ++ [_]).map Prod.fst).Nodup
    rw [List.map_append, List.map_singleton]
    exact List.Nodup.append hk (List.nodup_singleton _) (List.disjoint_singleton.mpr hfresh)
  · show (g.PlayerOrder ++ [playerID]).Nodup
    exact List.Nodup.append ho (List.nodup_singleton _)
      (List.disjoint_singleton.mpr (fun h => hfresh (hsub _ h)))
  · intro id hid
    show id ∈ (g.Players ++ [_]).map Prod.fst
    have hid1 : id ∈ g.PlayerOrder ++ [playerID] := hid
    rw [List.map_append, List.map_singleton, List.mem_append] at *
    rcases hid1 with h | h
    · exact Or.inl (hsub id h)
    · exact Or.inr h
  · intro id hid
    show id ∈ g.PlayerOrder ++ [playerID]
    have hid1 : id ∈ (g.Players ++ [_]).map Prod.fst := hid
    rw [List.map_append, List.map_singleton, List.mem_append] at hid1
    rw [List.mem_append]
    rcases hid1 with h | h
    · exact Or.inl (hsup id h)
    · exact Or.inr h

/-! ### Runs of penalties -/

/-- A penalty on an identifier that names no player returns the session as it
was. -/
theorem performPenalty_missing (g : Game) (playerID : String) (d : Draws)
    (hfree : g.mutex = false) (hp : getPlayer g.Players playerID = none) :
    performPenalty g playerID d = Exec.ok g := by
  obtain ⟨hl, hu⟩ := unlock_lock g hfree
  unfold performPenalty
  rw [hl, Exec.bind_ok]
  simp only [hp]
  rw [hu]

theorem penaltyRun_append (steps more : List (String × Draws)) (g : Game) :
    penaltyRun (steps ++ more) g = (penaltyRun steps g).bind (penaltyRun more) := by
  induction steps generalizing g with
  | nil => rfl
  | cons step rest ih =>
    show (performPenalty g step.1 step.2).bind (penaltyRun (rest ++ more))
      = ((performPenalty g step.1 step.2).bind (penaltyRun rest)).bind (penaltyRun more)
    cases performPenalty g step.1 step.2 with
    | ok g1 => exact ih g1
    | panic => rfl
    | hang => rfl

/-- A run of penalties on a sound session returns a sound session in which the
mechanism of a player has advanced, modulo 6, by the number of penalties applied
to that player, the hazard slot being the same. -/
theorem penaltyRun_spec (playerID : String) (steps : List (String × Draws)) (g : Game)
    (p : Player) (hs : g.Sound) (hp : getPlayer g.Players playerID = some p)
    (hq : 0 ≤ p.CurrentBulletPosition ∧ p.CurrentBulletPosition < 6) :
    ∃ g1 p1, penaltyRun steps g = Exec.ok g1 ∧ g1.Sound ∧
      getPlayer g1.Players playerID = some p1 ∧
      p1.CurrentBulletPosition
        = (p.CurrentBulletPosition + (penaltiesOf playerID steps : Nat)) % 6 ∧
      p1.BulletPosition = p.BulletPosition := by
  induction steps generalizing g p with
  | nil =>
    refine ⟨g, p, rfl, hs, hp, ?_, rfl⟩
    simp only [penaltiesOf, List.filter_nil, List.length_nil, Nat.cast_zero, add_zero]
    omega
  | cons step rest ih =>
    by_cases hid : step.1 = playerID
    · obtain ⟨g1, p1, h1, s1, hp1, c1, b1, -, -, -, -, -, -⟩ :=
        performPenalty_spec g playerID step.2 p hs hp
      have hmod : Int.tmod (p.CurrentBulletPosition + 1) 6
          = (p.CurrentBulletPosition + 1) % 6 := Int.tmod_eq_emod (by omega) (by omega)
      rw [hmod] at c1
      obtain ⟨g2, p2, h2, s2, hp2, c2, b2⟩ := ih g1 p1 s1 hp1 (by omega)
      refine ⟨g2, p2, ?_, s2, hp2, ?_, b2.trans b1⟩
      · simp only [penaltyRun, hid, h1, Exec.bind_ok, h2]
      · rw [c2, c1]
        have hcount : penaltiesOf playerID (step :: rest) = penaltiesOf playerID rest + 1 := by
          simp [penaltiesOf, List.filter_cons, hid]
        rw [hcount]
        push_cast
        omega
    · have hcount : penaltiesOf playerID (step :: rest) = penaltiesOf playerID rest := by
        simp [penaltiesOf, List.filter_cons, hid]
      rw [hcount]
      cases hother : getPlayer g.Players step.1 with
      | none =>
        obtain ⟨g2, p2, h2, s2, hp2, c2, b2⟩ := ih g p hs hp hq
        refine ⟨g2, p2, ?_, s2, hp2, c2, b2⟩
        simp only [penaltyRun, performPenalty_missing g step.1 step.2 hs.2.1 hother,
          Exec.bind_ok, h2]
      | some o =>
        obtain ⟨g1, -, h1, s1, -, -, -, -, -, -, -, -, hframe, -⟩ :=
          performPenalty_spec g step.1 step.2 o hs hother
        obtain ⟨p1, hp1, c1, b1⟩ := hframe playerID p (fun h => hid h.symm) hp
        obtain ⟨g2, p2, h2, s2, hp2, c2, b2⟩ := ih g1 p1 s1 hp1 (by rw [c1]; exact hq)
        refine ⟨g2, p2, ?_, s2, hp2, ?_, b2.trans b1⟩
        · simp only [penaltyRun, h1, Exec.bind_ok, h2]
        · rw [c2, c1]

/-! ### The sample sessions -/

theorem samplePlaying_sound : samplePlaying.Sound := by
  decide

theorem sampleWaiting_wf : sampleWaiting.WellFormed := by
  decide

/-! ### C1: a rejected play is not atomic -/

/-- C1 (the code at the failing input): "a" holds Q, K, A, K, Joker and submits
Q, Joker, Joker.  The second Joker cannot be matched, the play is rejected with
an error to "a", and the hand is left as K, A, K: the two cards matched before
the failure stay removed. -/
theorem handlePlayCards_rejected_play_keeps_removals :
    ∃ g1, handlePlayCards samplePlaying "a" ["Q", "Joker", "Joker"] = Exec.ok g1 ∧
      (getPlayer samplePlaying.Players "a").map Player.Hand
        = some ["Q", "K", "A", "K", "Joker"] ∧
      (getPlayer g1.Players "a").map Player.Hand = some ["K", "A", "K"] ∧
      g1.Connections = [("a", [OutMsg.error]), ("b", []), ("c", [])] :=
  ⟨_, rfl, rfl, rfl, rfl⟩

/-! ### C2: a challenge is checked against an empty card list -/

/-- C2 (the code at the failing input): the target card is K, "a" plays the
single card Q (not a valid play) and "b" challenges.  The challenger "b" is
recorded as last penalized and it is the mechanism of "b" that advances, not
that of "a". -/
theorem handleChallenge_penalizes_challenger_of_invalid_play :
    ∃ g1 g2, handlePlayCards samplePlaying "a" ["Q"] = Exec.ok g1 ∧
      (getPlayer g1.Players "a").map Player.Hand = some ["K", "A", "K", "Joker"] ∧
      isValidPlay g1 ["Q"] = false ∧
      handleChallenge g1 "b" true "" sampleDraws = Exec.ok g2 ∧
      g2.LastShooterID = "b" ∧
      (getPlayer g2.Players "b").map Player.CurrentBulletPosition = some 1 ∧
      (getPlayer g2.Players "a").map Player.CurrentBulletPosition = some 0 :=
  ⟨_, _, rfl, rfl, rfl, rfl, rfl, rfl, rfl⟩

/-! ### C3: what a snapshot shows of each player -/

/-- C3: in the snapshot made for viewer `v`, the entry of a player stored under
another key holds id, name, alive and handCount (the length of the hand) and no
hand, bulletPosition or currentBulletPosition; the entry stored under `v` holds
the hand, bulletPosition and currentBulletPosition of `v`; and the snapshot has
no other player entries. -/
theorem createGameStateForPlayer_entries (g : Game) (v : String) :
    (∀ id p, (id, p) ∈ g.Players → id ≠ v →
      (id, { id := p.ID, name := p.Name, alive := p.Alive, hand := none,
             bulletPosition := none, currentBulletPosition := none,
             handCount := some p.Hand.length }) ∈ (createGameStateForPlayer g v).players) ∧
    (∀ p, (v, p) ∈ g.Players →
      (v, { id := p.ID, name := p.Name, alive := p.Alive, hand := some p.Hand,
            bulletPosition := some p.BulletPosition,
            currentBulletPosition := some p.CurrentBulletPosition,
            handCount := none }) ∈ (createGameStateForPlayer g v).players) ∧
    (∀ id pv, (id, pv) ∈ (createGameStateForPlayer g v).players →
      ∃ p, (id, p) ∈ g.Players ∧ pv.id = p.ID ∧ pv.name = p.Name ∧ pv.alive = p.Alive ∧
        (id ≠ v → pv.hand = none ∧ pv.bulletPosition = none ∧
          pv.currentBulletPosition = none ∧ pv.handCount = some p.Hand.length) ∧
        (id = v → pv.hand = some p.Hand ∧ pv.bulletPosition = some p.BulletPosition ∧
          pv.currentBulletPosition = some p.CurrentBulletPosition ∧ pv.handCount = none)) := by
  refine ⟨?_, ?_, ?_⟩
  · intro id p hmem hne
    simp only [createGameStateForPlayer, List.mem_map]
    exact ⟨(id, p), hmem, by simp [playerView, hne]⟩
  · intro p hmem
    simp only [createGameStateForPlayer, List.mem_map]
    exact ⟨(v, p), hmem, by simp [playerView]⟩
  · intro id pv hmem
    simp only [createGameStateForPlayer, List.mem_map] at hmem
    obtain ⟨⟨id0, p⟩, hp, heq⟩ := hmem
    simp only [Prod.mk.injEq] at heq
    obtain ⟨rfl, rfl⟩ := heq
    refine ⟨p, hp, ?_⟩
    by_cases h : id0 = v <;> simp [playerView, h]

/-- C3 at the sample session: what "a" is shown of "b". -/
theorem createGameStateForPlayer_entries_witness :
    ("b", samplePlayer "b" ["A", "A", "Q", "K", "Q"] 2) ∈ samplePlaying.Players ∧ "b" ≠ "a" ∧
    ("b", { id := "b", name := "b", alive := true, hand := none, bulletPosition := none,
            currentBulletPosition := none, handCount := some 5 })
      ∈ (createGameStateForPlayer samplePlaying "a").players :=
  ⟨by decide, by decide,
    (createGameStateForPlayer_entries samplePlaying "a").1 "b"
      (samplePlayer "b" ["A", "A", "Q", "K", "Q"] 2) (by decide) (by decide)⟩

/-! ### C4: the played cards leak to the connections visited after the actor -/

/-- C4 (the code at the failing input): "a" plays Q, K and the connections are
visited in the order a, b, c.  The message written to "b" and the one written to
"c" carry the played cards. -/
theorem broadcastPlayAction_leaks_after_actor :
    (broadcastPlayAction samplePlaying sampleAction).Connections =
      [("a", [OutMsg.playAction
          { playerName := "a", cardCount := 2, targetCard := "K", nextPlayer := "b",
            playedCards := some ["Q", "K"] }]),
       ("b", [OutMsg.playAction
          { playerName := "a", cardCount := 2, targetCard := "K", nextPlayer := "b",
            playedCards := some ["Q", "K"] }]),
       ("c", [OutMsg.playAction
          { playerName := "a", cardCount := 2, targetCard := "K", nextPlayer := "b",
            playedCards := some ["Q", "K"] }])] := by
  rfl

/-! ### C5: the cards in hands and deck -/

/-- C5 (counterexample): after the deal of startGame on the three-player sample
session hands and deck hold 20 cards.  When "b" then plays one card (a
`play_cards` message), hands and deck hold 19 cards, before any new deal.  When
instead "c" challenges and is hit, the new round deals five cards to "a" and to
"b" while the dead "c" keeps five cards, so that directly after that deal hands
and deck hold 25 cards. -/
theorem cards_not_kept_at_20 :
    ∃ g1 g2 g3, startGame sampleWaiting sampleDraws = Exec.ok g1 ∧ cardsOfAll g1 = 20 ∧
      handleMessage g1 "b" [("type", JSON.str "play_cards"), ("cards", JSON.arr [JSON.str "Joker"])]
        sampleDraws = Exec.ok g2 ∧
      g2.RoundCount = g1.RoundCount ∧ cardsOfAll g2 = 19 ∧
      handleChallenge g1 "c" true "" sampleDraws = Exec.ok g3 ∧
      g3.RoundCount = g1.RoundCount + 1 ∧ isAlive g3 "c" = false ∧ handLen g3 "c" = 5 ∧
      cardsOfAll g3 = 25 ∧ cardsOfLiving g3 = 20 :=
  ⟨_, _, _, rfl, rfl, rfl, rfl, rfl, rfl, rfl, rfl, rfl, rfl, rfl⟩

/-- C5 (amended): in the session reached directly after a deal (dealCards itself,
startGame, resetRound) the hand sizes of the living players plus the size of the
remaining deck are 20, for every well-formed session and every shuffle that is a
permutation of the deck. -/
theorem deal_living_cards (g : Game) (d : Draws) (hwf : g.WellFormed)
    (hshuffle : (d.shuffle cardPool).Perm cardPool) :
    (∃ g1, dealCards g d = Exec.ok g1 ∧ cardsOfLiving g1 = 20) ∧
    (g.mutex = false → g.PlayerOrder ≠ [] →
      ∃ g1, startGame g d = Exec.ok g1 ∧ cardsOfLiving g1 = 20) ∧
    (∀ recordShooter,
      (0 ≤ g.CurrentPlayerIdx ∧ g.CurrentPlayerIdx < g.PlayerOrder.length) →
      (g.LastShooterID = "" ∨ g.LastShooterID ∈ g.PlayerOrder) →
      ∃ g1, resetRound g recordShooter d = Exec.ok g1 ∧ cardsOfLiving g1 = 20) := by
  have hdeck : (createDeck d).length = 20 := by
    unfold createDeck
    rw [hshuffle.length_eq, cardPool_length]
  refine ⟨?_, ?_, ?_⟩
  · obtain ⟨g1, h1, -, c1, -⟩ := dealCards_spec g d hwf.1 hwf.2.2.1
    exact ⟨g1, h1, c1.trans hdeck⟩
  · intro hfree hne
    obtain ⟨g1, c, -, -, -, -, -, -, c1, -, hrun⟩ :=
      startGame_run g d hfree hwf (by simpa using hne)
    refine ⟨_, hrun, ?_⟩
    rw [notifyCurrentPlayer_eq]
    exact c1.trans hdeck
  · intro b hidx hlast
    obtain ⟨g1, h1, -, -, -, c1⟩ := resetRound_spec g b d hwf hidx.1 hidx.2 hlast
    exact ⟨g1, h1, c1.trans hdeck⟩

/-- C5 (amended) at the sample Waiting session: after dealCards, after startGame
and after resetRound the living hands and the deck hold 20 cards. -/
theorem deal_living_cards_witness :
    sampleWaiting.WellFormed ∧ (sampleDraws.shuffle cardPool).Perm cardPool ∧
      (∃ g1, dealCards sampleWaiting sampleDraws = Exec.ok g1 ∧ cardsOfLiving g1 = 20) ∧
      (∃ g1, startGame sampleWaiting sampleDraws = Exec.ok g1 ∧ cardsOfLiving g1 = 20) ∧
      (∃ g1, resetRound sampleWaiting true sampleDraws = Exec.ok g1 ∧ cardsOfLiving g1 = 20) :=
  ⟨sampleWaiting_wf, List.reverse_perm _,
    (deal_living_cards sampleWaiting sampleDraws sampleWaiting_wf (List.reverse_perm _)).1,
    (deal_living_cards sampleWaiting sampleDraws sampleWaiting_wf (List.reverse_perm _)).2.1
      rfl (by decide),
    (deal_living_cards sampleWaiting sampleDraws sampleWaiting_wf (List.reverse_perm _)).2.2
      true (by decide) (by decide)⟩

/-! ### C6: starting the game -/

/-- C6: for a Waiting session of `n` players, `2 ≤ n ≤ 4`, all of them alive (as
AddPlayer creates them), called with the mutex free, and for every outcome of
the draws (the shuffle being a permutation of the deck), startGame returns a
session in state Playing with round counter 1, terminal flag false, five cards
in every hand, `20 - 5 * n` cards in the deck, a target card among Q, K, A and
a current-player index in `[0, n)`. -/
theorem startGame_deals (g : Game) (d : Draws) (n : Nat)
    (_hstate : g.State = GameStateWaiting) (hfree : g.mutex = false) (hwf : g.WellFormed)
    (hn : g.Players.length = n) (h2 : 2 ≤ n) (h4 : n ≤ 4)
    (halive : ∀ id ∈ g.PlayerOrder, isAlive g id = true)
    (hshuffle : (d.shuffle cardPool).Perm cardPool) :
    ∃ g1, startGame g d = Exec.ok g1 ∧ g1.State = GameStatePlaying ∧ g1.RoundCount = 1 ∧
      g1.GameOver = false ∧ g1.Players.length = n ∧
      (∀ id p, (id, p) ∈ g1.Players → p.Hand.length = 5) ∧
      g1.Deck.length = 20 - 5 * n ∧ g1.TargetCard ∈ [CardQ, CardK, CardA] ∧
      0 ≤ g1.CurrentPlayerIdx ∧ g1.CurrentPlayerIdx < n := by
  have hlen : g.PlayerOrder.length = n := by rw [hwf.length_eq, hn]
  have hdeck : (createDeck d).length = 20 := by
    unfold createDeck
    rw [hshuffle.length_eq, cardPool_length]
  obtain ⟨g1, c, hc, hst, hov, hrc, hidx, hkeys, -, hcount, hrun⟩ :=
    startGame_run g d hfree hwf (by omega)
  obtain ⟨hk, -, -, hsup⟩ := hwf
  obtain ⟨dk, hl⟩ := hcount halive (by omega)
  have hlt : d.start % g.PlayerOrder.length < n := by
    rw [hlen]
    exact Nat.mod_lt _ (by omega)
  refine ⟨_, hrun, ?_, ?_, ?_, ?_, ?_, ?_, ?_, ?_, ?_⟩
  · rw [notifyCurrentPlayer_eq]
    exact hst
  · rw [notifyCurrentPlayer_eq]
    show g1.RoundCount + 1 = 1
    rw [hrc]
    rfl
  · rw [notifyCurrentPlayer_eq]
    exact hov
  · rw [notifyCurrentPlayer_eq]
    show g1.Players.length = n
    have := congrArg List.length hkeys
    simp only [playerKeys, List.length_map] at this
    rw [this, hn]
  · intro id p hmem
    rw [notifyCurrentPlayer_eq] at hmem
    have hmem1 : (id, p) ∈ g1.Players := hmem
    have hkey : id ∈ playerKeys g1 := List.mem_map.mpr ⟨(id, p), hmem1, rfl⟩
    have hp := getPlayer_of_mem g1.Players id p (by rw [← playerKeys, hkeys]; exact hk) hmem1
    have h5 := hl id (hsup id (by rw [← hkeys]; exact hkey))
    unfold handLen at h5
    rw [hp] at h5
    exact h5
  · rw [notifyCurrentPlayer_eq]
    show g1.Deck.length = 20 - 5 * n
    rw [dk, List.length_drop, hdeck, hlen]
  · rw [notifyCurrentPlayer_eq]
    exact hc
  · rw [notifyCurrentPlayer_eq]
    show 0 ≤ g1.CurrentPlayerIdx
    rw [hidx]; omega
  · rw [notifyCurrentPlayer_eq]
    show g1.CurrentPlayerIdx < n
    rw [hidx]; omega

/-- C6 at the sample Waiting session of three players: five cards remain. -/
theorem startGame_deals_witness :
    sampleWaiting.State = GameStateWaiting ∧ sampleWaiting.mutex = false ∧
    sampleWaiting.Players.length = 3 ∧
    ∃ g1, startGame sampleWaiting sampleDraws = Exec.ok g1 ∧ g1.State = GameStatePlaying ∧
      g1.RoundCount = 1 ∧ g1.GameOver = false ∧ g1.Players.length = 3 ∧
      (∀ id p, (id, p) ∈ g1.Players → p.Hand.length = 5) ∧
      g1.Deck.length = 20 - 5 * 3 ∧ g1.TargetCard ∈ [CardQ, CardK, CardA] ∧
      0 ≤ g1.CurrentPlayerIdx ∧ g1.CurrentPlayerIdx < 3 :=
  ⟨rfl, rfl, rfl,
    startGame_deals sampleWaiting sampleDraws 3 rfl rfl sampleWaiting_wf rfl (by decide)
      (by decide) (by decide) (List.reverse_perm _)⟩

/-! ### C7: the k-th penalty -/

/-- C7: take a player whose mechanism is at position 0, with hazard slot `h`, in
a sound session, and any run of penalties `steps` (on this player or on others)
followed by one more penalty on this player; let `k` be the number of penalties
of the whole run that are applied to this player, so that the last one is the
k-th.  Then the run returns, the position after it is `k mod 6`, the slot is
still `h`, and the `shooting_result` of that k-th penalty told every connection
a hit exactly when `k mod 6 = h`. -/
theorem performPenalty_kth_hit (g : Game) (playerID : String) (p : Player)
    (steps : List (String × Draws)) (d : Draws)
    (hs : g.Sound) (hp : getPlayer g.Players playerID = some p)
    (hstart : p.CurrentBulletPosition = 0) :
    ∃ g1 p1, penaltyRun (steps ++ [(playerID, d)]) g = Exec.ok g1 ∧
      getPlayer g1.Players playerID = some p1 ∧
      p1.BulletPosition = p.BulletPosition ∧
      p1.CurrentBulletPosition = (((penaltiesOf playerID steps + 1) % 6 : Nat) : Int) ∧
      ∀ c ∈ g1.Connections,
        lastShot c.2 = some
          (decide ((((penaltiesOf playerID steps + 1) % 6 : Nat) : Int) = p.BulletPosition)) := by
  obtain ⟨g1, p1, h1, s1, hp1, c1, b1⟩ :=
    penaltyRun_spec playerID steps g p hs hp (by omega)
  obtain ⟨g2, p2, h2, -, hp2, c2, b2, -, -, l2, -, -, -⟩ :=
    performPenalty_spec g1 playerID d p1 s1 hp1
  have hmod : Int.tmod (p1.CurrentBulletPosition + 1) 6
      = (((penaltiesOf playerID steps + 1) % 6 : Nat) : Int) := by
    rw [Int.tmod_eq_emod (by omega) (by omega), c1, hstart]
    push_cast
    omega
  refine ⟨g2, p2, ?_, hp2, b2.trans b1, c2.trans hmod, ?_⟩
  · rw [penaltyRun_append, h1, Exec.bind_ok]
    simp only [penaltyRun, h2, Exec.bind_ok]
  · intro c hc
    rw [l2 c hc]
    unfold penaltyHits
    rw [hmod, b1]

/-- C7 at the sample Playing session: after a penalty on "b", one on "a" and a
second one on "b" (slot 2), the position of "b" is 2 and the last penalty hit. -/
theorem performPenalty_kth_hit_witness :
    samplePlaying.Sound ∧
    getPlayer samplePlaying.Players "b" = some (samplePlayer "b" ["A", "A", "Q", "K", "Q"] 2) ∧
    (samplePlayer "b" ["A", "A", "Q", "K", "Q"] 2).CurrentBulletPosition = 0 ∧
    ∃ g1 p1, penaltyRun ([("b", sampleDraws), ("a", sampleDraws)] ++ [("b", sampleDraws)])
        samplePlaying = Exec.ok g1 ∧
      getPlayer g1.Players "b" = some p1 ∧
      p1.BulletPosition = 2 ∧
      p1.CurrentBulletPosition
        = (((penaltiesOf "b" [("b", sampleDraws), ("a", sampleDraws)] + 1) % 6 : Nat) : Int) ∧
      ∀ c ∈ g1.Connections,
        lastShot c.2 = some
          (decide ((((penaltiesOf "b" [("b", sampleDraws), ("a", sampleDraws)] + 1) % 6 : Nat)
            : Int) = 2)) :=
  ⟨samplePlaying_sound, rfl, rfl,
    performPenalty_kth_hit samplePlaying "b" (samplePlayer "b" ["A", "A", "Q", "K", "Q"] 2)
      [("b", sampleDraws), ("a", sampleDraws)] sampleDraws samplePlaying_sound rfl rfl⟩

/-! ### C8: a finished session ignores every message -/

/-- C8: in state Finished (the mutex free, as it is between two messages),
handleMessage returns the session unchanged, whoever the sender and whatever
the message. -/
theorem handleMessage_finished_noop (g : Game) (playerID : String)
    (message : List (String × JSON)) (d : Draws)
    (hstate : g.State = GameStateFinished) (hfree : g.mutex = false) :
    handleMessage g playerID message d = Exec.ok g := by
  obtain ⟨hl, hu⟩ := unlock_lock g hfree
  have hw : ¬ (GameStateFinished = GameStateWaiting) := by decide
  have hp : ¬ (GameStateFinished = GameStatePlaying) := by decide
  unfold handleMessage
  rw [hl]
  simp only [Exec.bind_ok]
  split
  · rename_i msgType _
    have hd : dispatch { g with mutex := true } playerID message d msgType
        = Exec.ok { g with mutex := true } := by
      unfold dispatch
      simp [hstate, hw, hp]
    rw [hd]
    simp [hu]
  · simp [hu]

/-- C8 at the sample Finished session, for a `play_cards` message. -/
theorem handleMessage_finished_noop_witness :
    sampleFinished.State = GameStateFinished ∧ sampleFinished.mutex = false ∧
    handleMessage sampleFinished "a"
        [("type", JSON.str "play_cards"), ("cards", JSON.arr [JSON.str "Q"])] sampleDraws
      = Exec.ok sampleFinished :=
  ⟨rfl, rfl, handleMessage_finished_noop sampleFinished "a" _ sampleDraws rfl rfl⟩

/-! ### C10: when a start request is accepted -/

/-- C10 (counterexample): in a Waiting session that five players have joined,
the `start_game` message is not answered by returning the session unchanged:
the guard of handleMessage lets it through to startGame, which (called with the
mutex free) takes the five-player session to Playing. -/
theorem start_game_not_ignored_with_five_players :
    sampleFive.State = GameStateWaiting ∧ sampleFive.Players.length = 5 ∧
    sampleFive.mutex = false ∧
    handleMessage sampleFive "a" startGameMessage sampleDraws ≠ Exec.ok sampleFive ∧
    dispatch { sampleFive with mutex := true } "a" startGameMessage sampleDraws "start_game"
      = startGame { sampleFive with mutex := true } sampleDraws ∧
    ∃ g1, startGame sampleFive sampleDraws = Exec.ok g1 ∧ g1.State = GameStatePlaying ∧
      g1.Players.length = 5 :=
  ⟨rfl, rfl, rfl, by decide, rfl, _, rfl, rfl, rfl⟩

/-- C10 (amended): a `start_game` message returns the session unchanged when the
session is not Waiting or has fewer than two players; when it is Waiting with at
least two players, whatever their number, handleMessage hands over to startGame;
so a run that returns a changed session started from a Waiting session with at
least two players. -/
theorem handleMessage_start_game (g : Game) (playerID : String)
    (message : List (String × JSON)) (d : Draws) (hfree : g.mutex = false)
    (htype : message.lookup "type" = some (JSON.str "start_game")) :
    (¬ (g.State = GameStateWaiting ∧ 2 ≤ g.Players.length) →
      handleMessage g playerID message d = Exec.ok g) ∧
    ((g.State = GameStateWaiting ∧ 2 ≤ g.Players.length) →
      handleMessage g playerID message d =
        (startGame { g with mutex := true } d).bind fun g1 => Exec.ok (unlock g1)) ∧
    (∀ g1, handleMessage g playerID message d = Exec.ok g1 → g1 ≠ g →
      g.State = GameStateWaiting ∧ 2 ≤ g.Players.length) := by
  obtain ⟨hl, hu⟩ := unlock_lock g hfree
  have hrun : handleMessage g playerID message d =
      (dispatch { g with mutex := true } playerID message d "start_game").bind
        fun g1 => Exec.ok (unlock g1) := by
    unfold handleMessage
    rw [hl, Exec.bind_ok, htype]
  have hno : ¬ (g.State = GameStateWaiting ∧ 2 ≤ g.Players.length) →
      handleMessage g playerID message d = Exec.ok g := by
    intro h
    rw [hrun]
    unfold dispatch
    rw [if_pos rfl, if_neg h, Exec.bind_ok, hu]
  refine ⟨hno, ?_, ?_⟩
  · intro h
    rw [hrun]
    unfold dispatch
    rw [if_pos rfl, if_pos h]
  · intro g1 h1 hne
    by_contra h
    rw [hno h] at h1
    exact hne (Exec.ok.inj h1).symm

/-- C10 (amended) at the sample Finished session. -/
theorem handleMessage_start_game_witness :
    sampleFinished.mutex = false ∧
    startGameMessage.lookup "type" = some (JSON.str "start_game") ∧
    ¬ (sampleFinished.State = GameStateWaiting ∧ 2 ≤ sampleFinished.Players.length) ∧
    handleMessage sampleFinished "a" startGameMessage sampleDraws = Exec.ok sampleFinished :=
  ⟨rfl, rfl, by decide,
    (handleMessage_start_game sampleFinished "a" startGameMessage sampleDraws rfl rfl).1
      (by decide)⟩

/-! ### C11: who may join -/

/-- C11 (counterexample): a join request for the sample Playing session of three
players is accepted: the new player "z" is put at the end of the roster and into
the player map while the session stays Playing.  And AddPlayer itself, called on
the Waiting session that already has five players, adds a sixth. -/
theorem join_accepted_while_playing :
    samplePlaying.State = GameStatePlaying ∧
    (∃ g1, HandleJoinGame [("g", samplePlaying)] sampleJoin "z" 4
        = Exec.ok ([("g", g1)], JoinReply.joined "z") ∧
      g1.State = GameStatePlaying ∧ g1.PlayerOrder = ["a", "b", "c", "z"] ∧
      playerKeys g1 = ["a", "b", "c", "z"]) ∧
    (∃ g2, AddPlayer sampleFive "zed" "z" 4 = Exec.ok (g2, "z") ∧
      g2.PlayerOrder = ["a", "b", "c", "d", "e", "z"] ∧
      playerKeys g2 = ["a", "b", "c", "d", "e", "z"]) :=
  ⟨rfl, ⟨_, rfl, rfl, rfl, rfl⟩, ⟨_, rfl, rfl, rfl⟩⟩

theorem getPlayer_putPlayer (ps : List (String × Player)) (id : String) (p : Player) :
    getPlayer (putPlayer ps id p) id = some p := by
  unfold putPlayer
  cases h : getPlayer ps id with
  | some q => simp [getPlayer_setPlayer, h]
  | none =>
    simp only
    induction ps with
    | nil => simp [getPlayer_cons]
    | cons e ps ih =>
      obtain ⟨k, q⟩ := e
      rw [getPlayer_cons] at h
      by_cases hk : id = k
      · simp [hk] at h
      · simp only [hk, if_false] at h
        simp only [List.cons_append, getPlayer_cons, hk, if_false]
        exact ih h

/-- C11 (amended): a join request for a session found under its identifier, the
mutex being free, is refused and leaves every session as it was when the
session has four players or more; when it has fewer than four, whatever its
state, AddPlayer runs: the new player, alive, with an empty hand and the
mechanism at position 0, is in the player map and at the end of the roster, and
the state is unchanged. -/
theorem HandleJoinGame_spec (games : List (String × Game)) (gameID name playerID : String)
    (bullet : Nat) (g : Game) (hfound : GetGame games gameID = some g)
    (hfree : g.mutex = false) :
    (4 ≤ g.Players.length →
      HandleJoinGame games { Method := "POST", Body := some (gameID, name) } playerID bullet
        = Exec.ok (games, JoinReply.full)) ∧
    (g.Players.length < 4 →
      ∃ g1, AddPlayer g name playerID bullet = Exec.ok (g1, playerID) ∧
        HandleJoinGame games { Method := "POST", Body := some (gameID, name) } playerID bullet
          = Exec.ok (setGame games gameID g1, JoinReply.joined playerID) ∧
        g1.State = g.State ∧ g1.PlayerOrder = g.PlayerOrder ++ [playerID] ∧
        getPlayer g1.Players playerID
          = some { ID := playerID, Name := name, Hand := [], Alive := true,
                   BulletPosition := ((bullet % 6 : Nat) : Int),
                   CurrentBulletPosition := 0, Opinions := [] }) := by
  have hfull : IsFull g = Exec.ok (decide (g.Players.length ≥ 4)) := by
    unfold IsFull
    rw [hfree]
    rfl
  have hadd : AddPlayer g name playerID bullet = Exec.ok
      (unlock (broadcastGameState
        { g with
          mutex := true,
          Players := putPlayer g.Players playerID
            { ID := playerID, Name := name, Hand := [], Alive := true,
              BulletPosition := ((bullet % 6 : Nat) : Int),
              CurrentBulletPosition := 0, Opinions := [] },
          PlayerOrder := g.PlayerOrder ++ [playerID] }), playerID) := by
    unfold AddPlayer lock intn
    rw [hfree]
    simp only [Bool.false_eq_true, if_false, Exec.bind_ok]
    rfl
  refine ⟨?_, ?_⟩
  · intro h4
    unfold HandleJoinGame
    simp only [ne_eq, not_true_eq_false, if_false, hfound, hfull, Exec.bind_ok]
    rw [if_pos (by simpa using h4)]
  · intro h4
    refine ⟨_, hadd, ?_, rfl, rfl, ?_⟩
    · unfold HandleJoinGame
      simp only [ne_eq, not_true_eq_false, if_false, hfound, hfull, Exec.bind_ok]
      rw [if_neg (by simpa using h4), hadd]
      rfl
    · exact getPlayer_putPlayer _ _ _

/-- C11 (amended) at the sample Finished session of two players: the join is
accepted. -/
theorem HandleJoinGame_spec_witness :
    GetGame [("g", sampleFinished)] "g" = some sampleFinished ∧
    sampleFinished.mutex = false ∧ sampleFinished.Players.length < 4 ∧
    ∃ g1, AddPlayer sampleFinished "zed" "z" 4 = Exec.ok (g1, "z") ∧
      HandleJoinGame [("g", sampleFinished)] { Method := "POST", Body := some ("g", "zed") }
          "z" 4
        = Exec.ok (setGame [("g", sampleFinished)] "g" g1, JoinReply.joined "z") ∧
      g1.State = sampleFinished.State ∧
      g1.PlayerOrder = sampleFinished.PlayerOrder ++ ["z"] ∧
      getPlayer g1.Players "z"
        = some { ID := "z", Name := "zed", Hand := [], Alive := true,
                 BulletPosition := ((4 % 6 : Nat) : Int),
                 CurrentBulletPosition := 0, Opinions := [] } :=
  ⟨rfl, rfl, by decide,
    (HandleJoinGame_spec [("g", sampleFinished)] "g" "zed" "z" 4 sampleFinished rfl rfl).2
      (by decide)⟩

/-! ### C12: the system-forced challenge is never triggered -/

/-- C12 (the code at the failing input): in the sample session "a" holds the last
card K and plays it, the target being K, while the living players "b" and "c"
hold no card.  Handling the `play_cards` message only removes the card: no
round is started, the round counter stays 1 and all hands are empty, although
checkOtherPlayersNoCards holds.  handleSystemChallenge applied to that play
would have dealt round 2. -/
theorem play_does_not_force_system_challenge :
    ∃ g1 g2, handleMessage sampleLastCard "a" (playCardsMessage [JSON.str "K"]) sampleDraws
        = Exec.ok g1 ∧
      g1 = { sampleLastCard with
             Players := [("a", samplePlayer "a" [] 3), ("b", samplePlayer "b" [] 2),
                         ("c", samplePlayer "c" [] 5)] } ∧
      checkOtherPlayersNoCards g1 "a" = true ∧ g1.RoundCount = 1 ∧
      handleSystemChallenge g1 "a" ["K"] sampleDraws = Exec.ok g2 ∧
      g2.RoundCount = 2 ∧ handLen g2 "a" = 5 ∧ handLen g2 "b" = 5 ∧ handLen g2 "c" = 5 :=
  ⟨_, _, rfl, rfl, rfl, rfl, rfl, rfl, rfl, rfl, rfl⟩

/-! ### C14: a play out of turn or out of state -/

/-- C14: a `play_cards` message handled while the session is not Playing, or
sent by someone who is not the player at the current-player index, returns the
session as it was (the mutex being free between two messages): no hand, no
session field and no connection has changed, so nothing was sent. -/
theorem handleMessage_play_cards_rejected (g : Game) (playerID : String)
    (message : List (String × JSON)) (d : Draws) (hfree : g.mutex = false)
    (htype : message.lookup "type" = some (JSON.str "play_cards"))
    (hno : ¬ (g.State = GameStatePlaying ∧ getCurrentPlayerID g = playerID)) :
    handleMessage g playerID message d = Exec.ok g := by
  obtain ⟨hl, hu⟩ := unlock_lock g hfree
  have hno1 : ¬ (({ g with mutex := true } : Game).State = GameStatePlaying ∧
      getCurrentPlayerID { g with mutex := true } = playerID) := hno
  unfold handleMessage
  rw [hl, Exec.bind_ok, htype]
  simp only
  unfold dispatch
  rw [if_neg (by decide), if_pos rfl, if_neg hno1, Exec.bind_ok, hu]

/-- C14 at the sample Playing session: "b" sends cards while it is the turn of
"a". -/
theorem handleMessage_play_cards_rejected_witness :
    samplePlaying.mutex = false ∧
    (playCardsMessage [JSON.str "A"]).lookup "type" = some (JSON.str "play_cards") ∧
    ¬ (samplePlaying.State = GameStatePlaying ∧ getCurrentPlayerID samplePlaying = "b") ∧
    handleMessage samplePlaying "b" (playCardsMessage [JSON.str "A"]) sampleDraws
      = Exec.ok samplePlaying :=
  ⟨rfl, rfl, by decide,
    handleMessage_play_cards_rejected samplePlaying "b" (playCardsMessage [JSON.str "A"])
      sampleDraws rfl rfl (by decide)⟩

/-! ### C15: a card that is not a string -/

/-- C15 (the code at the failing input): in the sample Playing session the
current player "a" sends `play_cards` with the cards list `[3]`; the conversion
`card.(string)` panics. -/
theorem handleMessage_panics_on_non_string_card :
    samplePlaying.State = GameStatePlaying ∧ getCurrentPlayerID samplePlaying = "a" ∧
    handleMessage samplePlaying "a" (playCardsMessage [JSON.num 3]) sampleDraws = Exec.panic ∧
    handleMessage samplePlaying "a" (playCardsMessage [JSON.str "Q", JSON.null]) sampleDraws
      = Exec.panic :=
  ⟨rfl, rfl, rfl, rfl⟩

/-! ### The system-forced challenge -/

theorem isValidPlay_iff (g : Game) (cards : List String) :
    isValidPlay g cards = true ↔ ∀ card ∈ cards, card = g.TargetCard ∨ card = CardJoker := by
  unfold isValidPlay
  rw [List.all_eq_true]
  constructor
  · intro h card hc
    have := h card hc
    by_cases h1 : card = g.TargetCard
    · exact Or.inl h1
    · by_cases h2 : card = CardJoker
      · exact Or.inr h2
      · simp [h1, h2] at this
  · intro h card hc
    rcases h card hc with h1 | h1 <;> simp [h1]

/-! ### The search for the next player -/

theorem emod_step (n : Nat) (a : Int) (j : Nat) :
    ((a + 1) % (n : Int) + j) % (n : Int) = (a + ((j + 1 : Nat) : Int)) % (n : Int) := by
  rw [Int.emod_add_emod]
  congr 1
  push_cast
  ring

/-- The loop of findNextPlayerWithCards examines the indices after `idx` in
cyclic order: it returns the first of the next `k` that is eligible, or nothing
when none of them is. -/
theorem findNextLoop_spec (g : Game) (hsub : ∀ id ∈ g.PlayerOrder, id ∈ playerKeys g)
    (hpos : 0 < g.PlayerOrder.length)
    (k : Nat) (idx : Int) (h0 : -1 ≤ idx) (h1 : idx < g.PlayerOrder.length) :
    ∃ r, findNextLoop g k idx = Exec.ok r ∧
      (∀ i, r = some i →
        ∃ j : Nat, 1 ≤ j ∧ j ≤ k ∧ i = (idx + j) % g.PlayerOrder.length ∧
          eligibleAt g i = true ∧
          ∀ j1 : Nat, 1 ≤ j1 → j1 < j →
            eligibleAt g ((idx + j1) % g.PlayerOrder.length) = false) ∧
      (r = none → ∀ j1 : Nat, 1 ≤ j1 → j1 ≤ k →
        eligibleAt g ((idx + j1) % g.PlayerOrder.length) = false) := by
  induction k generalizing idx with
  | zero =>
    refine ⟨none, rfl, fun i h => by simp at h, fun _ j1 a b => ?_⟩
    omega
  | succ k ih =>
    have hn : (0 : Int) < g.PlayerOrder.length := by omega
    have hmod : Int.tmod (idx + 1) g.PlayerOrder.length = (idx + 1) % g.PlayerOrder.length :=
      Int.tmod_eq_emod (by omega) (by omega)
    have hlo : 0 ≤ (idx + 1) % (g.PlayerOrder.length : Int) := Int.emod_nonneg _ (by omega)
    have hhi : (idx + 1) % (g.PlayerOrder.length : Int) < g.PlayerOrder.length :=
      Int.emod_lt_of_pos _ hn
    obtain ⟨x, hx, hmem⟩ := index_ok g.PlayerOrder _ hlo hhi
    obtain ⟨p, hp⟩ := getPlayer_some_of_mem_keys g.Players x (hsub x hmem)
    have helig : eligibleAt g ((idx + 1) % g.PlayerOrder.length)
        = (p.Alive && decide (p.Hand.length > 0)) := by
      unfold eligibleAt rosterAt
      simp only [hx, hp]
    have hone : ∀ j1 : Nat, 1 ≤ j1 → j1 < 2 →
        (idx + (j1 : Int)) % (g.PlayerOrder.length : Int)
          = (idx + 1) % (g.PlayerOrder.length : Int) := by
      intro j1 a b
      have : j1 = 1 := by omega
      rw [this]
      rfl
    unfold findNextLoop
    simp only [hmod, hx, Exec.bind_ok, hp]
    by_cases he : (p.Alive && decide (p.Hand.length > 0)) = true
    · rw [if_pos he]
      refine ⟨_, rfl, ?_, fun h => by simp at h⟩
      intro i hi
      simp only [Option.some.injEq] at hi
      refine ⟨1, le_refl _, by omega, ?_, ?_, ?_⟩
      · rw [← hi]
        rfl
      · rw [← hi, helig, he]
      · intro j1 a b
        omega
    · rw [if_neg he]
      obtain ⟨r, hr, hsome, hnone⟩ := ih _ (by omega) hhi
      have hfirst : eligibleAt g ((idx + 1) % g.PlayerOrder.length) = false := by
        rw [helig]
        simpa using he
      refine ⟨r, hr, ?_, ?_⟩
      · intro i hi
        obtain ⟨j, j1, j2, ji, je, jf⟩ := hsome i hi
        refine ⟨j + 1, by omega, by omega, ?_, je, ?_⟩
        · rw [ji, emod_step]
        · intro j' a b
          by_cases h1' : j' = 1
          · rw [h1']
            exact hfirst
          · have := jf (j' - 1) (by omega) (by omega)
            rw [emod_step] at this
            have e : j' - 1 + 1 = j' := by omega
            rw [e] at this
            exact this
      · intro hr0 j' a b
        by_cases h1' : j' = 1
        · rw [h1']
          exact hfirst
        · have := hnone hr0 (j' - 1) (by omega) (by omega)
          rw [emod_step] at this
          have e : j' - 1 + 1 = j' := by omega
          rw [e] at this
          exact this

/-- Every roster index is met within one turn of the table after `start`. -/
theorem cyclic_cover (n : Nat) (hpos : 0 < n) (start x : Int) (hx0 : 0 ≤ x) (hx1 : x < n) :
    ∃ j : Nat, 1 ≤ j ∧ j ≤ n ∧ (start + (j : Int)) % (n : Int) = x := by
  have hn : (0 : Int) < n := by omega
  have hlo : 0 ≤ (x - start - 1) % (n : Int) := Int.emod_nonneg _ (by omega)
  have hhi : (x - start - 1) % (n : Int) < n := Int.emod_lt_of_pos _ hn
  refine ⟨((x - start - 1) % (n : Int)).toNat + 1, by omega, by omega, ?_⟩
  have hcast : ((((x - start - 1) % (n : Int)).toNat + 1 : Nat) : Int)
      = (x - start - 1) % (n : Int) + 1 := by
    push_cast
    rw [Int.toNat_of_nonneg hlo]
  rw [hcast]
  have : start + ((x - start - 1) % (n : Int) + 1) = (start + 1) + (x - start - 1) % (n : Int) := by
    ring
  rw [this, Int.add_emod_emod]
  have : start + 1 + (x - start - 1) = x := by ring
  rw [this]
  exact Int.emod_eq_of_lt hx0 hx1

theorem eligibleAt_out_of_range (g : Game) (x : Int)
    (h : ¬ (0 ≤ x ∧ x < g.PlayerOrder.length)) : eligibleAt g x = false := by
  unfold eligibleAt rosterAt index
  rw [if_neg h]

/-- findNextPlayerWithCards returns the first eligible index after `startIdx` in
cyclic roster order, `startIdx` itself coming last; it returns `startIdx` when
no roster member is eligible. -/
theorem findNextPlayerWithCards_spec (g : Game)
    (hsub : ∀ id ∈ g.PlayerOrder, id ∈ playerKeys g) (hpos : 0 < g.PlayerOrder.length)
    (start : Int) (h0 : -1 ≤ start) (h1 : start < g.PlayerOrder.length) :
    ∃ i : Int, findNextPlayerWithCards g start = Exec.ok i ∧
      (FirstAfter g (eligibleAt g) start i ∨
        (i = start ∧ ∀ x : Int, eligibleAt g x = false)) := by
  obtain ⟨r, hr, hsome, hnone⟩ := findNextLoop_spec g hsub hpos g.PlayerOrder.length start h0 h1
  unfold findNextPlayerWithCards
  rw [hr, Exec.bind_ok]
  cases r with
  | some i =>
    exact ⟨i, rfl, Or.inl (hsome i rfl)⟩
  | none =>
    refine ⟨start, rfl, Or.inr ⟨rfl, ?_⟩⟩
    intro x
    by_cases hx : 0 ≤ x ∧ x < g.PlayerOrder.length
    · obtain ⟨j, j1, j2, je⟩ := cyclic_cover g.PlayerOrder.length hpos start x hx.1 hx.2
      have := hnone rfl j j1 j2
      rw [je] at this
      exact this
    · exact eligibleAt_out_of_range g x hx

/-! ### The deal, card by card -/

theorem livingHands_cons (k : String) (q : Player) (ps : List (String × Player)) :
    livingHands ((k, q) :: ps) = (if q.Alive then q.Hand else []) ++ livingHands ps := rfl

theorem livingHands_setPlayer (ps : List (String × Player)) (id : String) (p : Player)
    (c : String) (hnd : (ps.map Prod.fst).Nodup) (hp : getPlayer ps id = some p)
    (ha : p.Alive = true) :
    (livingHands (setPlayer ps id { p with Hand := p.Hand ++ [c] })).Perm
      (c :: livingHands ps) := by
  induction ps with
  | nil => simp [getPlayer_nil] at hp
  | cons e ps ih =>
    obtain ⟨k, q⟩ := e
    rw [List.map_cons, List.nodup_cons] at hnd
    rw [getPlayer_cons] at hp
    rw [setPlayer_cons]
    by_cases hk : id = k
    · rw [if_pos hk] at hp
      cases hp
      subst hk
      rw [if_pos rfl, setPlayer_of_not_mem ps id _ hnd.1, livingHands_cons, livingHands_cons]
      simp only [ha, if_true, List.append_assoc, List.singleton_append]
      exact List.perm_middle
    · rw [if_neg hk] at hp
      rw [if_neg (fun h => hk h.symm), livingHands_cons, livingHands_cons]
      exact (List.Perm.append_left _ (ih hnd.2 hp)).trans List.perm_middle

theorem getPlayer_clearHands (ps : List (String × Player)) (id : String) :
    getPlayer (clearHands ps) id
      = (getPlayer ps id).map (fun p => if p.Alive then { p with Hand := [] } else p) := by
  induction ps with
  | nil => rfl
  | cons e ps ih =>
    obtain ⟨k, q⟩ := e
    have : clearHands ((k, q) :: ps)
        = (if q.Alive then (k, { q with Hand := [] }) else (k, q)) :: clearHands ps := by
      simp [clearHands]
    rw [this]
    by_cases hq : q.Alive <;> by_cases hk : id = k <;>
      simp [hq, hk, getPlayer_cons, ih]

theorem livingHands_clearHands (ps : List (String × Player)) :
    livingHands (clearHands ps) = [] := by
  induction ps with
  | nil => rfl
  | cons e ps ih =>
    obtain ⟨k, q⟩ := e
    have : clearHands ((k, q) :: ps)
        = (if q.Alive then (k, { q with Hand := [] }) else (k, q)) :: clearHands ps := by
      simp [clearHands]
    rw [this]
    by_cases hq : q.Alive <;> simp [hq, livingHands_cons, ih]

/-- One card dealt: exactly what dealOne does to the hands and the deck. -/
theorem dealOne_exact (g : Game) (id : String) (hnd : (playerKeys g).Nodup)
    (hmem : id ∈ playerKeys g) :
    ∃ g1, dealOne g id = Exec.ok g1 ∧ DealFrame g g1 ∧
      (livingHands g1.Players ++ g1.Deck).Perm (livingHands g.Players ++ g.Deck) ∧
      (isAlive g id = false → g1.Deck = g.Deck ∧ ∀ x, handOf g1 x = handOf g x) ∧
      (isAlive g id = true → ∀ c rest, g.Deck = c :: rest →
        g1.Deck = rest ∧ ∀ x, handOf g1 x = handOf g x ++ (if x = id then [c] else [])) := by
  obtain ⟨p, hp⟩ := getPlayer_some_of_mem_keys g.Players id hmem
  have hal : isAlive g id = p.Alive := by simp [isAlive, hp]
  unfold dealOne
  rw [hp, hal]
  simp only
  by_cases ha : p.Alive = true
  · rw [if_pos ha]
    cases hd : g.Deck with
    | nil =>
      refine ⟨g, rfl, DealFrame.refl g, by rw [hd], ?_, ?_⟩
      · intro h
        rw [ha] at h
        exact absurd h (by decide)
      · intro _ c rest h
        exact absurd h (by simp)
    | cons card rest =>
      refine ⟨_, rfl, ⟨rfl, stripHands_setPlayer g.Players id p _ hnd hp⟩, ?_, ?_, ?_⟩
      · show (livingHands (setPlayer g.Players id { p with Hand := p.Hand ++ [card] })
            ++ rest).Perm (livingHands g.Players ++ card :: rest)
        exact (List.Perm.append_right rest
          (livingHands_setPlayer g.Players id p card hnd hp ha)).trans List.perm_middle.symm
      · intro h
        rw [ha] at h
        exact absurd h (by decide)
      · intro _ c rest1 h
        cases h
        refine ⟨rfl, ?_⟩
        intro x
        simp only [handOf, getPlayer_setPlayer]
        by_cases hx : x = id
        · subst hx
          simp [hp]
        · simp [hx]
  · rw [if_neg ha]
    refine ⟨g, rfl, DealFrame.refl g, List.Perm.refl _, ?_, ?_⟩
    · intro _
      exact ⟨rfl, fun _ => rfl⟩
    · intro h
      exact absurd h ha

/-- One pass of the deal over the roster members `ids`: the j-th living member
receives the j-th card of the deck. -/
theorem dealRound_exact (ids : List String) (g : Game) (hnd : (playerKeys g).Nodup)
    (hsub : ∀ id ∈ ids, id ∈ playerKeys g) (hids : ids.Nodup)
    (hlen : (ids.filter (isAlive g)).length ≤ g.Deck.length) :
    ∃ g1, dealRound ids g = Exec.ok g1 ∧ DealFrame g g1 ∧
      (livingHands g1.Players ++ g1.Deck).Perm (livingHands g.Players ++ g.Deck) ∧
      g1.Deck = g.Deck.drop (ids.filter (isAlive g)).length ∧
      (∀ x, x ∉ ids.filter (isAlive g) → handOf g1 x = handOf g x) ∧
      (∀ (j : Nat) (x : String), (ids.filter (isAlive g))[j]? = some x →
        (handOf g1 x).map some = (handOf g x).map some ++ [g.Deck[j]?]) := by
  induction ids generalizing g with
  | nil =>
    refine ⟨g, rfl, DealFrame.refl g, List.Perm.refl _, rfl, fun _ _ => rfl, ?_⟩
    intro j x h
    simp at h
  | cons id rest ih =>
    obtain ⟨g1, h1, f1, p1, hdead, hlive⟩ :=
      dealOne_exact g id hnd (hsub id (List.mem_cons_self _ _))
    have hfun : isAlive g1 = isAlive g := funext (f1.alive_eq)
    rw [List.nodup_cons] at hids
    have hnd1 : (playerKeys g1).Nodup := by rw [f1.keys]; exact hnd
    have hsub1 : ∀ x ∈ rest, x ∈ playerKeys g1 := by
      intro x hx
      rw [f1.keys]
      exact hsub x (List.mem_cons_of_mem _ hx)
    show ∃ g2, (dealOne g id).bind (dealRound rest) = Exec.ok g2 ∧ _
    rw [h1, Exec.bind_ok]
    cases ha : isAlive g id with
    | false =>
      obtain ⟨hd1, hh1⟩ := hdead ha
      have hfil : (id :: rest).filter (isAlive g) = rest.filter (isAlive g) := by
        rw [List.filter_cons, ha]
        rfl
      rw [hfil] at hlen ⊢
      obtain ⟨g2, h2, f2, p2, d2, u2, l2⟩ := ih g1 hnd1 hsub1 hids.2
        (by rw [hfun, hd1]; exact hlen)
      rw [hfun] at d2 u2 l2
      refine ⟨g2, h2, f1.trans f2, p2.trans p1, by rw [d2, hd1], ?_, ?_⟩
      · intro x hx
        rw [u2 x hx, hh1 x]
      · intro j x hj
        rw [l2 j x hj, hh1 x, hd1]
    | true =>
      have hfil : (id :: rest).filter (isAlive g) = id :: rest.filter (isAlive g) := by
        rw [List.filter_cons, ha]
        rfl
      rw [hfil] at hlen ⊢
      cases hdeck : g.Deck with
      | nil =>
        rw [hdeck] at hlen
        simp at hlen
      | cons c cs =>
        obtain ⟨hd1, hh1⟩ := hlive ha c cs hdeck
        rw [hdeck, List.length_cons, List.length_cons] at hlen
        obtain ⟨g2, h2, f2, p2, d2, u2, l2⟩ := ih g1 hnd1 hsub1 hids.2
          (by rw [hfun, hd1]; omega)
        rw [hfun] at d2 u2 l2
        have hnot : id ∉ rest.filter (isAlive g) := fun h => hids.1 (List.mem_filter.mp h).1
        refine ⟨g2, h2, f1.trans f2, ?_, ?_, ?_, ?_⟩
        · have := p2.trans p1
          rw [hdeck] at this
          exact this
        · rw [d2, hd1]
          rfl
        · intro x hx
          rw [List.mem_cons, not_or] at hx
          rw [u2 x hx.2, hh1 x, if_neg hx.1, List.append_nil]
        · intro j x hj
          cases j with
          | zero =>
            simp only [List.getElem?_cons_zero, Option.some.injEq] at hj
            subst hj
            rw [u2 id hnot, hh1 id, if_pos rfl]
            simp
          | succ j =>
            rw [List.getElem?_cons_succ] at hj ⊢
            have hx : x ∈ rest.filter (isAlive g) := List.getElem?_mem hj
            have hne : x ≠ id := fun e => hnot (e ▸ hx)
            rw [l2 j x hj, hh1 x, if_neg hne, List.append_nil, hd1]

/-- The outer loop of the deal: after `k` passes the j-th living roster member
has received the deck cards at positions j, j+n, ..., j+(k-1)n, where n is the
number of living roster members. -/
theorem dealRounds_exact (k : Nat) (g : Game) (hnd : (playerKeys g).Nodup)
    (hsub : ∀ id ∈ g.PlayerOrder, id ∈ playerKeys g) (hids : g.PlayerOrder.Nodup)
    (hlen : k * (g.PlayerOrder.filter (isAlive g)).length ≤ g.Deck.length) :
    ∃ g1, dealRounds k g = Exec.ok g1 ∧ DealFrame g g1 ∧
      (livingHands g1.Players ++ g1.Deck).Perm (livingHands g.Players ++ g.Deck) ∧
      g1.Deck = g.Deck.drop (k * (g.PlayerOrder.filter (isAlive g)).length) ∧
      (∀ x, x ∉ g.PlayerOrder.filter (isAlive g) → handOf g1 x = handOf g x) ∧
      (∀ (j : Nat) (x : String), (g.PlayerOrder.filter (isAlive g))[j]? = some x →
        (handOf g1 x).map some = (handOf g x).map some ++
          (List.range k).map
            (fun r => g.Deck[j + r * (g.PlayerOrder.filter (isAlive g)).length]?)) := by
  induction k generalizing g with
  | zero =>
    refine ⟨g, rfl, DealFrame.refl g, List.Perm.refl _, by simp, fun _ _ => rfl, ?_⟩
    intro j x _
    simp
  | succ k ih =>
    have hmul : (k + 1) * (g.PlayerOrder.filter (isAlive g)).length
        = k * (g.PlayerOrder.filter (isAlive g)).length
          + (g.PlayerOrder.filter (isAlive g)).length := Nat.succ_mul _ _
    rw [hmul] at hlen
    obtain ⟨g1, h1, f1, p1, d1, u1, l1⟩ := dealRound_exact g.PlayerOrder g hnd hsub hids
      (by omega)
    have hfun : isAlive g1 = isAlive g := funext (f1.alive_eq)
    obtain ⟨g2, h2, f2, p2, d2, u2, l2⟩ := ih g1 (by rw [f1.keys]; exact hnd)
      (by rw [f1.keys, f1.order]; exact hsub) (by rw [f1.order]; exact hids)
      (by rw [f1.order, hfun, d1, List.length_drop]; omega)
    rw [f1.order, hfun] at d2 u2 l2
    show ∃ g3, (dealRound g.PlayerOrder g).bind (dealRounds k) = Exec.ok g3 ∧ _
    rw [h1, Exec.bind_ok]
    refine ⟨g2, h2, f1.trans f2, p2.trans p1, ?_, ?_, ?_⟩
    · rw [d2, d1, List.drop_drop, hmul]
      congr 1
      omega
    · intro x hx
      rw [u2 x hx, u1 x hx]
    · intro j x hj
      rw [l2 j x hj, l1 j x hj, d1, List.range_succ_eq_map, List.map_cons, List.map_map,
        List.append_assoc, List.singleton_append]
      congr 2
      · simp
      · apply List.map_congr_left
        intro r _
        simp only [Function.comp, List.getElem?_drop]
        congr 1
        rw [Nat.succ_mul]
        omega

/-- The whole deal, card by card, for at most four living roster members. -/
theorem dealCards_cards (g : Game) (d : Draws) (hwf : g.WellFormed)
    (hshuffle : (d.shuffle cardPool).Perm cardPool)
    (hn : (g.PlayerOrder.filter (isAlive g)).length ≤ 4) :
    ∃ g1, dealCards g d = Exec.ok g1 ∧ DealFrame g g1 ∧
      (∀ (j : Nat) (id : String), (g.PlayerOrder.filter (isAlive g))[j]? = some id →
        (handOf g1 id).map some = (List.range 5).map
          (fun r => (createDeck d)[j + r * (g.PlayerOrder.filter (isAlive g)).length]?)) ∧
      g1.Deck = (createDeck d).drop (5 * (g.PlayerOrder.filter (isAlive g)).length) ∧
      g1.Deck.length = 20 - 5 * (g.PlayerOrder.filter (isAlive g)).length ∧
      (∀ id, isAlive g id = false → handOf g1 id = handOf g id) ∧
      (livingHands g1.Players ++ g1.Deck).Perm cardPool := by
  obtain ⟨hnd, hids, hsub, -⟩ := hwf
  have hlen : (createDeck d).length = 20 := by
    unfold createDeck
    rw [hshuffle.length_eq, cardPool_length]
  have f0 : DealFrame g { g with Deck := createDeck d, Players := clearHands g.Players } :=
    ⟨rfl, stripHands_clearHands g.Players⟩
  have hfun : isAlive { g with Deck := createDeck d, Players := clearHands g.Players }
      = isAlive g := funext (f0.alive_eq)
  obtain ⟨g1, h1, f1, p1, d1, u1, l1⟩ := dealRounds_exact 5
    { g with Deck := createDeck d, Players := clearHands g.Players }
    (by rw [f0.keys]; exact hnd) (by rw [f0.keys]; exact hsub) hids
    (by rw [hfun]; show _ ≤ (createDeck d).length; rw [hlen]; exact Nat.mul_le_mul_left 5 hn)
  rw [hfun] at d1 u1 l1
  have hclear : ∀ id, handOf { g with Deck := createDeck d, Players := clearHands g.Players } id
      = if isAlive g id = true then [] else handOf g id := by
    intro id
    unfold handOf isAlive
    simp only [getPlayer_clearHands]
    cases hp : getPlayer g.Players id with
    | none => simp
    | some p => by_cases ha : p.Alive = true <;> simp [ha]
  refine ⟨g1, h1, f0.trans f1, ?_, d1, ?_, ?_, ?_⟩
  · intro j id hj
    have hal : isAlive g id = true := (List.mem_filter.mp (List.getElem?_mem hj)).2
    rw [l1 j id hj, hclear id, if_pos hal]
    rfl
  · rw [d1]
    show ((createDeck d).drop _).length = _
    rw [List.length_drop, hlen]
  · intro id hdead
    have hnot : id ∉ g.PlayerOrder.filter (isAlive g) := by
      intro h
      rw [(List.mem_filter.mp h).2] at hdead
      exact absurd hdead (by decide)
    rw [u1 id hnot, hclear id, if_neg (by rw [hdead]; decide)]
  · refine p1.trans ?_
    show (livingHands (clearHands g.Players) ++ createDeck d).Perm cardPool
    rw [livingHands_clearHands, List.nil_append]
    exact hshuffle


/-! ### C19: who gets which card -/

/-- C19: in a well-formed session whose roster has n living members, n ≤ 4, and
for a shuffle that returns a permutation of the fixed 20-card pool, dealCards
returns; the j-th living roster member (j counted from 0) then holds exactly the
five deck cards at positions j, j+n, j+2n, j+3n, j+4n of the shuffled deck, in
that order; the deck is the shuffled deck without its first 5n cards, 20 - 5n
cards; the hand of every player who is not alive is the same as before; and the
hands of the living players together with the deck are a permutation of the
pool. -/
theorem dealCards_exact (g : Game) (d : Draws) (hwf : g.WellFormed)
    (hshuffle : (d.shuffle cardPool).Perm cardPool)
    (hn : (g.PlayerOrder.filter (isAlive g)).length ≤ 4) :
    ∃ g1, dealCards g d = Exec.ok g1 ∧
      (∀ (j : Nat) (id : String), (g.PlayerOrder.filter (isAlive g))[j]? = some id →
        (handOf g1 id).map some = (List.range 5).map
          (fun r => (createDeck d)[j + r * (g.PlayerOrder.filter (isAlive g)).length]?)) ∧
      g1.Deck = (createDeck d).drop (5 * (g.PlayerOrder.filter (isAlive g)).length) ∧
      g1.Deck.length = 20 - 5 * (g.PlayerOrder.filter (isAlive g)).length ∧
      (∀ id, isAlive g id = false → handOf g1 id = handOf g id) ∧
      (livingHands g1.Players ++ g1.Deck).Perm cardPool := by
  obtain ⟨g1, h1, -, h2⟩ := dealCards_cards g d hwf hshuffle hn
  exact ⟨g1, h1, h2⟩

/-- C19 at the sample Playing session of three living players, the shuffle
reversing the pool. -/
theorem dealCards_exact_witness :
    samplePlaying.WellFormed ∧ (sampleDraws.shuffle cardPool).Perm cardPool ∧
    (samplePlaying.PlayerOrder.filter (isAlive samplePlaying)).length ≤ 4 ∧
    ∃ g1, dealCards samplePlaying sampleDraws = Exec.ok g1 ∧
      (∀ (j : Nat) (id : String),
        (samplePlaying.PlayerOrder.filter (isAlive samplePlaying))[j]? = some id →
        (handOf g1 id).map some = (List.range 5).map
          (fun r => (createDeck sampleDraws)[j + r *
            (samplePlaying.PlayerOrder.filter (isAlive samplePlaying)).length]?)) ∧
      g1.Deck = (createDeck sampleDraws).drop
        (5 * (samplePlaying.PlayerOrder.filter (isAlive samplePlaying)).length) ∧
      g1.Deck.length = 20 - 5 * (samplePlaying.PlayerOrder.filter (isAlive samplePlaying)).length ∧
      (∀ id, isAlive samplePlaying id = false → handOf g1 id = handOf samplePlaying id) ∧
      (livingHands g1.Players ++ g1.Deck).Perm cardPool :=
  ⟨by decide, List.reverse_perm _, by decide,
    dealCards_exact samplePlaying sampleDraws (by decide) (List.reverse_perm _) (by decide)⟩

/-! ### Roster positions -/

theorem get_indexFrom (id : String) (l : List String) (i : Int) (h : id ∈ l) :
    l.get? (indexFrom id i l - i).toNat = some id := by
  induction l generalizing i with
  | nil => simp at h
  | cons x rest ih =>
    unfold indexFrom
    by_cases hx : x = id
    · simp [hx]
    · rw [if_neg hx]
      have hmem : id ∈ rest := by
        rcases List.mem_cons.mp h with h1 | h1
        · exact absurd h1.symm hx
        · exact h1
      have hb := indexFrom_of_mem id rest (i + 1) hmem
      have hk : (indexFrom id (i + 1) rest - i).toNat
          = (indexFrom id (i + 1) rest - (i + 1)).toNat + 1 := by omega
      rw [hk, List.get?_cons_succ]
      exact ih (i + 1) hmem

/-- The roster holds `id` at the index that the search loop returns for it. -/
theorem index_indexOf (order : List String) (id : String) (h : id ∈ order) :
    index order (indexOf order id) = Exec.ok id := by
  obtain ⟨h0, h1⟩ := indexOf_of_mem order id h
  have := get_indexFrom id order 0 h
  rw [Int.sub_zero] at this
  unfold index
  rw [if_pos ⟨h0, h1⟩]
  show (match order.get? (indexFrom id 0 order).toNat with
    | some x => Exec.ok x
    | none => Exec.panic) = Exec.ok id
  rw [this]

theorem rosterAt_indexOf (g : Game) (id : String) (h : id ∈ g.PlayerOrder) :
    rosterAt g (indexOf g.PlayerOrder id) = getPlayer g.Players id := by
  unfold rosterAt
  rw [index_indexOf g.PlayerOrder id h]

theorem aliveAt_indexOf (g : Game) (id : String) (h : id ∈ g.PlayerOrder) :
    aliveAt g (indexOf g.PlayerOrder id) = isAlive g id := by
  unfold aliveAt isAlive
  rw [rosterAt_indexOf g id h]

theorem eligibleAt_congr (g g2 : Game) (hP : g2.Players = g.Players)
    (hO : g2.PlayerOrder = g.PlayerOrder) : eligibleAt g2 = eligibleAt g := by
  funext x
  unfold eligibleAt rosterAt
  rw [hP, hO]

theorem FirstAfter_congr (g g2 : Game) (hO : g2.PlayerOrder = g.PlayerOrder)
    (ok : Int → Bool) (start i : Int) : FirstAfter g2 ok start i ↔ FirstAfter g ok start i := by
  unfold FirstAfter
  rw [hO]

theorem aliveAt_true_of_eligibleAt {g : Game} {x : Int} (h : eligibleAt g x = true) :
    aliveAt g x = true := by
  unfold eligibleAt at h
  unfold aliveAt
  cases hr : rosterAt g x with
  | none => rw [hr] at h; exact absurd h (by decide)
  | some p =>
    rw [hr] at h
    simp only [Bool.and_eq_true] at h
    exact h.1

/-- After the deal in a well-formed session with at most four living roster
members, the roster members that are alive are those that are alive with a
card. -/
theorem dealCards_eligible (g : Game) (d : Draws) (hwf : g.WellFormed)
    (hshuffle : (d.shuffle cardPool).Perm cardPool)
    (hn : (g.PlayerOrder.filter (isAlive g)).length ≤ 4) :
    ∃ g1, dealCards g d = Exec.ok g1 ∧ DealFrame g g1 ∧
      ∀ x, eligibleAt g1 x = aliveAt g x := by
  obtain ⟨g1, h1, f1, hc, -⟩ := dealCards_cards g d hwf hshuffle hn
  refine ⟨g1, h1, f1, ?_⟩
  intro x
  unfold eligibleAt aliveAt rosterAt
  rw [f1.order]
  cases hi : index g.PlayerOrder x with
  | panic => rfl
  | hang => rfl
  | ok id =>
    simp only
    have hmem : id ∈ g.PlayerOrder := by
      unfold index at hi
      split at hi
      · cases hg : g.PlayerOrder.get? x.toNat with
        | none => rw [hg] at hi; cases hi
        | some y =>
          rw [hg] at hi
          cases hi
          exact List.get?_mem hg
      · cases hi
    have hal := f1.alive_eq id
    have hhand : handOf g1 id = match getPlayer g1.Players id with
      | some p => p.Hand
      | none => [] := rfl
    unfold isAlive at hal
    cases hp1 : getPlayer g1.Players id with
    | none =>
      rw [hp1] at hal
      cases hp : getPlayer g.Players id with
      | none => rfl
      | some p =>
        rw [hp] at hal
        simp only at hal ⊢
        exact hal
    | some p1 =>
      rw [hp1] at hal hhand
      cases hp : getPlayer g.Players id with
      | none =>
        exfalso
        have hk := hwf.2.2.1 id hmem
        obtain ⟨p, hp0⟩ := getPlayer_some_of_mem_keys g.Players id hk
        rw [hp] at hp0
        cases hp0
      | some p =>
        rw [hp] at hal
        simp only at hal hhand ⊢
        by_cases ha : p.Alive = true
        · rw [ha] at hal
          have hin : id ∈ g.PlayerOrder.filter (isAlive g) := by
            rw [List.mem_filter]
            refine ⟨hmem, ?_⟩
            unfold isAlive
            rw [hp]
            exact ha
          obtain ⟨j, hj⟩ := List.mem_iff_getElem?.mp hin
          have hl := congrArg List.length (hc j id hj)
          rw [List.length_map, List.length_map, List.length_range, hhand] at hl
          rw [hal, ha, hl]
          rfl
        · have hf : p.Alive = false := by simpa using ha
          rw [hf] at hal
          rw [hal, hf]
          rfl

theorem getElem_of_index {s : List String} {i : Int} {x : String}
    (h : index s i = Exec.ok x) : s[i.toNat]? = some x := by
  unfold index at h
  split at h
  · rw [← List.get?_eq_getElem?]
    cases hg : s.get? i.toNat with
    | none => rw [hg] at h; cases h
    | some y =>
      rw [hg] at h
      cases h
      rfl
  · cases h

/-! ### Who starts the new round -/

/-- The choice of the starting player, case by case. -/
theorem chooseStarter_where (g : Game) (b : Bool) (d : Draws)
    (hsub : ∀ id ∈ g.PlayerOrder, id ∈ playerKeys g)
    (h0 : 0 ≤ g.CurrentPlayerIdx) (h1 : g.CurrentPlayerIdx < g.PlayerOrder.length)
    (hlast : g.LastShooterID = "" ∨ g.LastShooterID ∈ g.PlayerOrder) :
    ∃ i : Int, (0 ≤ i ∧ i < g.PlayerOrder.length) ∧
      chooseStarter g b d = Exec.ok { g with CurrentPlayerIdx := i } ∧
      ((b = true ∧ g.LastShooterID ≠ "") →
        (isAlive g g.LastShooterID = true → i = indexOf g.PlayerOrder g.LastShooterID) ∧
        (isAlive g g.LastShooterID = false →
          FirstAfter g (eligibleAt g) (indexOf g.PlayerOrder g.LastShooterID) i ∨
          (i = indexOf g.PlayerOrder g.LastShooterID ∧ ∀ x : Int, eligibleAt g x = false))) ∧
      (¬ (b = true ∧ g.LastShooterID ≠ "") →
        (g.PlayerOrder.filter (isAlive g) ≠ [] →
          ∃ id, (g.PlayerOrder.filter (isAlive g))[d.alive %
              (g.PlayerOrder.filter (isAlive g)).length]? = some id ∧
            i = indexOf g.PlayerOrder id) ∧
        (g.PlayerOrder.filter (isAlive g) = [] → i = g.CurrentPlayerIdx)) := by
  have hpos : 0 < g.PlayerOrder.length := by omega
  unfold chooseStarter
  by_cases hc : (b && g.LastShooterID != "") = true
  · rw [if_pos hc]
    simp only [Bool.and_eq_true, bne_iff_ne] at hc
    have hmem : g.LastShooterID ∈ g.PlayerOrder := by
      rcases hlast with h | h
      · exact absurd h hc.2
      · exact h
    obtain ⟨i0, i1⟩ := indexOf_of_mem g.PlayerOrder g.LastShooterID hmem
    obtain ⟨p, hp⟩ := getPlayer_some_of_mem_keys g.Players _ (hsub _ hmem)
    have hal : isAlive g g.LastShooterID = p.Alive := by simp [isAlive, hp]
    simp only [ge_iff_le, i0, if_true, hp]
    by_cases ha : p.Alive = true
    · rw [if_pos ha]
      refine ⟨_, ⟨i0, i1⟩, rfl, fun _ => ⟨fun _ => rfl, ?_⟩, fun h => absurd hc h⟩
      intro hd
      rw [hal, ha] at hd
      exact absurd hd (by decide)
    · rw [if_neg ha]
      obtain ⟨i, hi, hw⟩ := findNextPlayerWithCards_spec g hsub hpos _ (by omega) i1
      obtain ⟨i2, hi2, hv⟩ := findNextPlayerWithCards_valid g hsub _ i0 i1
      rw [hi] at hi2
      cases hi2
      rw [hi]
      refine ⟨i, hv, rfl, fun _ => ⟨?_, fun _ => hw⟩, fun h => absurd hc h⟩
      intro hd
      rw [hal] at hd
      exact absurd hd ha
  · rw [if_neg hc, alivePlayers_spec g g.PlayerOrder hsub]
    simp only [Bool.and_eq_true, bne_iff_ne] at hc
    simp only [Exec.bind_ok]
    by_cases hl : (g.PlayerOrder.filter (isAlive g)).length > 0
    · rw [if_pos hl]
      have hlt : d.alive % (g.PlayerOrder.filter (isAlive g)).length
          < (g.PlayerOrder.filter (isAlive g)).length := Nat.mod_lt _ hl
      obtain ⟨x, hx, hxmem⟩ := index_ok (g.PlayerOrder.filter (isAlive g))
        ((d.alive % (g.PlayerOrder.filter (isAlive g)).length : Nat) : Int) (by omega) (by omega)
      obtain ⟨i0, i1⟩ := indexOf_of_mem g.PlayerOrder x (List.mem_of_mem_filter hxmem)
      have hget := getElem_of_index hx
      rw [Int.toNat_ofNat] at hget
      unfold intn
      rw [if_neg (by omega)]
      simp only [Exec.bind_ok]
      rw [hx]
      simp only [Exec.bind_ok, ge_iff_le, i0, if_true]
      refine ⟨_, ⟨i0, i1⟩, rfl, fun h => absurd h hc, fun _ => ⟨fun _ => ⟨x, hget, rfl⟩, ?_⟩⟩
      intro hnil
      rw [hnil] at hl
      exact absurd hl (by decide)
    · rw [if_neg hl]
      refine ⟨g.CurrentPlayerIdx, ⟨h0, h1⟩, rfl, fun h => absurd h hc,
        fun _ => ⟨fun hne => ?_, fun _ => rfl⟩⟩
      exact absurd (List.length_pos.mpr hne) hl

/-- A round reset in a well-formed session with at most four living roster
members: it returns, every living roster member then holds a card, and the
current-player index is the one chosen by chooseStarter. -/
theorem resetRound_where (g : Game) (b : Bool) (d : Draws) (hwf : g.WellFormed)
    (h0 : 0 ≤ g.CurrentPlayerIdx) (h1 : g.CurrentPlayerIdx < g.PlayerOrder.length)
    (hlast : g.LastShooterID = "" ∨ g.LastShooterID ∈ g.PlayerOrder)
    (hshuffle : (d.shuffle cardPool).Perm cardPool)
    (hn : (g.PlayerOrder.filter (isAlive g)).length ≤ 4) :
    ∃ g1, resetRound g b d = Exec.ok g1 ∧
      (∀ x, eligibleAt g1 x = aliveAt g x) ∧ g1.PlayerOrder = g.PlayerOrder ∧
      (0 ≤ g1.CurrentPlayerIdx ∧ g1.CurrentPlayerIdx < g.PlayerOrder.length) ∧
      ((b = true ∧ g.LastShooterID ≠ "") →
        (isAlive g g.LastShooterID = true →
          g1.CurrentPlayerIdx = indexOf g.PlayerOrder g.LastShooterID) ∧
        (isAlive g g.LastShooterID = false →
          FirstAfter g (aliveAt g) (indexOf g.PlayerOrder g.LastShooterID)
              g1.CurrentPlayerIdx ∨
          (g1.CurrentPlayerIdx = indexOf g.PlayerOrder g.LastShooterID ∧
            ∀ x : Int, aliveAt g x = false))) ∧
      (¬ (b = true ∧ g.LastShooterID ≠ "") →
        (g.PlayerOrder.filter (isAlive g) ≠ [] →
          ∃ id, (g.PlayerOrder.filter (isAlive g))[d.alive %
              (g.PlayerOrder.filter (isAlive g)).length]? = some id ∧
            g1.CurrentPlayerIdx = indexOf g.PlayerOrder id) ∧
        (g.PlayerOrder.filter (isAlive g) = [] →
          g1.CurrentPlayerIdx = g.CurrentPlayerIdx)) := by
  obtain ⟨g1, e1, f1, hel⟩ := dealCards_eligible g d hwf hshuffle hn
  obtain ⟨c, -, e2⟩ := chooseTargetCard_spec g1 d
  have hsub1 : ∀ id ∈ g1.PlayerOrder, id ∈ playerKeys g1 := by
    rw [f1.keys, f1.order]
    exact hwf.2.2.1
  have hidx1 : g1.CurrentPlayerIdx = g.CurrentPlayerIdx := by rw [f1.1]
  have hlast1 : g1.LastShooterID = g.LastShooterID := by rw [f1.1]
  have hfun : isAlive g1 = isAlive g := funext (f1.alive_eq)
  have helf : eligibleAt g1 = aliveAt g := funext hel
  obtain ⟨i, hi, e3, hm, hr⟩ := chooseStarter_where { g1 with TargetCard := c } b d hsub1
    (by show 0 ≤ g1.CurrentPlayerIdx
        rw [hidx1]; exact h0)
    (by show g1.CurrentPlayerIdx < g1.PlayerOrder.length
        rw [hidx1, f1.order]; exact h1)
    (by show g1.LastShooterID = "" ∨ g1.LastShooterID ∈ g1.PlayerOrder
        rw [hlast1, f1.order]; exact hlast)
  have e4 := startRound_spec { g1 with TargetCard := c, CurrentPlayerIdx := i } hsub1 hi.1 hi.2
  have hrun : resetRound g b d = Exec.ok (notifyCurrentPlayer (broadcastGameState
      { g1 with TargetCard := c, CurrentPlayerIdx := i, RoundCount := g1.RoundCount + 1 })) := by
    unfold resetRound
    rw [e1, Exec.bind_ok, e2, Exec.bind_ok, e3, Exec.bind_ok, e4, Exec.bind_ok]
  have hm1 : (b = true ∧ g1.LastShooterID ≠ "") →
      (isAlive g1 g1.LastShooterID = true → i = indexOf g1.PlayerOrder g1.LastShooterID) ∧
      (isAlive g1 g1.LastShooterID = false →
        FirstAfter g1 (eligibleAt g1) (indexOf g1.PlayerOrder g1.LastShooterID) i ∨
        (i = indexOf g1.PlayerOrder g1.LastShooterID ∧ ∀ x : Int, eligibleAt g1 x = false)) := hm
  have hr1 : ¬ (b = true ∧ g1.LastShooterID ≠ "") →
      (g1.PlayerOrder.filter (isAlive g1) ≠ [] →
        ∃ id, (g1.PlayerOrder.filter (isAlive g1))[d.alive %
            (g1.PlayerOrder.filter (isAlive g1)).length]? = some id ∧
          i = indexOf g1.PlayerOrder id) ∧
      (g1.PlayerOrder.filter (isAlive g1) = [] → i = g1.CurrentPlayerIdx) := hr
  rw [hlast1, f1.order, hfun, helf, FirstAfter_congr g g1 f1.order] at hm1
  rw [hlast1, f1.order, hfun, hidx1] at hr1
  have hi2 : i < (g.PlayerOrder.length : Int) := by
    have := hi.2
    rw [← f1.order]
    exact this
  refine ⟨_, hrun, ?_, ?_, ?_, ?_, ?_⟩
  · rw [notifyCurrentPlayer_eq]
    exact hel
  · rw [notifyCurrentPlayer_eq]
    exact f1.order
  · rw [notifyCurrentPlayer_eq]
    exact ⟨hi.1, hi2⟩
  · rw [notifyCurrentPlayer_eq]
    exact hm1
  · rw [notifyCurrentPlayer_eq]
    exact hr1

/-! ### A new round is dealt -/

/-- Whether a deal has just been made is read off the roster, the player map and
the deck. -/
theorem Dealt.of_frame {g g1 : Game} {d : Draws} (hP : g1.Players = g.Players)
    (hD : g1.Deck = g.Deck) (hO : g1.PlayerOrder = g.PlayerOrder) (h : Dealt g d) :
    Dealt g1 d := by
  have ha : isAlive g1 = isAlive g := by
    funext id
    unfold isAlive
    rw [hP]
  have hh : handOf g1 = handOf g := by
    funext id
    unfold handOf
    rw [hP]
  unfold Dealt at h ⊢
  rw [ha, hh, hD, hO]
  exact h

/-- The deal of dealCards in the words of `Dealt`. -/
theorem dealCards_dealt (g : Game) (d : Draws) (hwf : g.WellFormed)
    (hshuffle : (d.shuffle cardPool).Perm cardPool)
    (hn : (g.PlayerOrder.filter (isAlive g)).length ≤ 4) :
    ∃ g1, dealCards g d = Exec.ok g1 ∧ DealFrame g g1 ∧ Dealt g1 d := by
  obtain ⟨g1, h1, f1, hc, hd, -⟩ := dealCards_cards g d hwf hshuffle hn
  have ha : isAlive g1 = isAlive g := funext (f1.alive_eq)
  refine ⟨g1, h1, f1, ?_⟩
  unfold Dealt
  rw [ha, f1.order]
  exact ⟨hc, hd⟩

/-- A round reset in a well-formed session with at most four living roster
members leaves the hands and the deck as the deal made them. -/
theorem resetRound_dealt (g : Game) (b : Bool) (d : Draws) (hwf : g.WellFormed)
    (h0 : 0 ≤ g.CurrentPlayerIdx) (h1 : g.CurrentPlayerIdx < g.PlayerOrder.length)
    (hlast : g.LastShooterID = "" ∨ g.LastShooterID ∈ g.PlayerOrder)
    (hshuffle : (d.shuffle cardPool).Perm cardPool)
    (hn : (g.PlayerOrder.filter (isAlive g)).length ≤ 4) :
    ∃ g1, resetRound g b d = Exec.ok g1 ∧ Dealt g1 d := by
  obtain ⟨g1, e1, f1, hdealt⟩ := dealCards_dealt g d hwf hshuffle hn
  obtain ⟨c, -, e2⟩ := chooseTargetCard_spec g1 d
  have hsub1 : ∀ id ∈ g1.PlayerOrder, id ∈ playerKeys g1 := by
    rw [f1.keys, f1.order]
    exact hwf.2.2.1
  have hidx1 : g1.CurrentPlayerIdx = g.CurrentPlayerIdx := by rw [f1.1]
  have hlast1 : g1.LastShooterID = g.LastShooterID := by rw [f1.1]
  obtain ⟨i, hi, e3⟩ := chooseStarter_spec { g1 with TargetCard := c } b d hsub1
    (by show 0 ≤ g1.CurrentPlayerIdx
        rw [hidx1]; exact h0)
    (by show g1.CurrentPlayerIdx < g1.PlayerOrder.length
        rw [hidx1, f1.order]; exact h1)
    (by show g1.LastShooterID = "" ∨ g1.LastShooterID ∈ g1.PlayerOrder
        rw [hlast1, f1.order]; exact hlast)
  have e4 := startRound_spec { g1 with TargetCard := c, CurrentPlayerIdx := i } hsub1 hi.1 hi.2
  have hrun : resetRound g b d = Exec.ok (notifyCurrentPlayer (broadcastGameState
      { g1 with TargetCard := c, CurrentPlayerIdx := i, RoundCount := g1.RoundCount + 1 })) := by
    unfold resetRound
    rw [e1, Exec.bind_ok, e2, Exec.bind_ok, e3, Exec.bind_ok, e4, Exec.bind_ok]
  refine ⟨_, hrun, ?_⟩
  exact Dealt.of_frame (by rw [notifyCurrentPlayer_eq]; rfl) (by rw [notifyCurrentPlayer_eq]; rfl)
    (by rw [notifyCurrentPlayer_eq]; rfl) hdealt

/-- A penalty that does not end the game is followed by a deal: in a sound
session with at most four living roster members, the hands and the deck of the
session that performPenalty returns are those of a fresh deal to the roster
members that are alive after the penalty. -/
theorem performPenalty_dealt (g : Game) (playerID : String) (d : Draws) (p : Player)
    (hs : g.Sound) (hp : getPlayer g.Players playerID = some p)
    (hshuffle : (d.shuffle cardPool).Perm cardPool)
    (hn : (g.PlayerOrder.filter (isAlive g)).length ≤ 4)
    (hno : ¬ (penaltyHits p = true ∧ othersAlive g playerID = 1)) :
    ∃ g1, performPenalty g playerID d = Exec.ok g1 ∧ Dealt g1 d := by
  obtain ⟨hwf, hfree, ⟨h0, h1⟩, hlast⟩ := hs
  rw [performPenalty_eq g playerID d p hfree hp]
  by_cases hit : penaltyHits p = true
  · rw [if_pos hit]
    have hone : othersAlive g playerID ≠ 1 := fun h => hno ⟨hit, h⟩
    generalize hgD : ({ g with
        mutex := true,
        Players := setPlayer
          (setPlayer g.Players playerID
            { p with CurrentBulletPosition := Int.tmod (p.CurrentBulletPosition + 1) 6 })
          playerID
          { p with CurrentBulletPosition := Int.tmod (p.CurrentBulletPosition + 1) 6,
                   Alive := false },
        Connections :=
          writeAll g.Connections (OutMsg.shootingResult p.Name (penaltyHits p)) } : Game) = gD
    have eP : gD.Players = setPlayer
          (setPlayer g.Players playerID
            { p with CurrentBulletPosition := Int.tmod (p.CurrentBulletPosition + 1) 6 })
          playerID
          { p with CurrentBulletPosition := Int.tmod (p.CurrentBulletPosition + 1) 6,
                   Alive := false } := by rw [← hgD]
    have eO : gD.PlayerOrder = g.PlayerOrder := by rw [← hgD]
    have eL : gD.LastShooterID = g.LastShooterID := by rw [← hgD]
    have eI : gD.CurrentPlayerIdx = g.CurrentPlayerIdx := by rw [← hgD]
    have eK : playerKeys gD = playerKeys g := by
      unfold playerKeys
      rw [eP, keys_setPlayer, keys_setPlayer]
    have wfD : gD.WellFormed := hwf.of_keys eK eO
    have getD : ∀ id1, getPlayer gD.Players id1 =
        if id1 = playerID then
          some { p with CurrentBulletPosition := Int.tmod (p.CurrentBulletPosition + 1) 6,
                        Alive := false }
        else getPlayer g.Players id1 := by
      intro id1
      rw [eP]
      exact setPlayer_setPlayer_get g.Players playerID p _ _ hp id1
    have hcount : (gD.PlayerOrder.filter (isAlive gD)).length = othersAlive g playerID := by
      unfold othersAlive
      rw [eO]
      congr 1
      apply List.filter_congr
      intro id _
      unfold isAlive
      rw [getD id]
      by_cases h : id = playerID
      · simp [h]
      · simp [h]
    have hmono : ∀ id, isAlive gD id = true → isAlive g id = true := by
      intro id
      unfold isAlive
      rw [getD id]
      by_cases h : id = playerID
      · simp [h]
      · simp [h]
    have hnD : (gD.PlayerOrder.filter (isAlive gD)).length ≤ 4 := by
      rw [eO]
      exact le_trans (List.monotone_filter_right g.PlayerOrder hmono).length_le hn
    rw [(checkVictory_spec gD wfD.2.2.1).2 (by rw [hcount]; exact hone), Exec.bind_ok]
    simp only [Bool.not_false, if_true]
    obtain ⟨r, hr, hd⟩ := resetRound_dealt gD true d wfD (by rw [eI]; exact h0)
      (by rw [eI, eO]; exact h1) (by rw [eL, eO]; exact hlast) hshuffle hnD
    rw [hr, Exec.bind_ok]
    exact ⟨unlock r, rfl, Dealt.of_frame rfl rfl rfl hd⟩
  · rw [if_neg hit]
    generalize hgB : ({ g with
        mutex := true,
        Players := setPlayer g.Players playerID
          { p with CurrentBulletPosition := Int.tmod (p.CurrentBulletPosition + 1) 6 },
        Connections :=
          writeAll g.Connections (OutMsg.shootingResult p.Name (penaltyHits p)) } : Game) = gB
    have eP : gB.Players = setPlayer g.Players playerID
          { p with CurrentBulletPosition := Int.tmod (p.CurrentBulletPosition + 1) 6 } := by
      rw [← hgB]
    have eO : gB.PlayerOrder = g.PlayerOrder := by rw [← hgB]
    have eL : gB.LastShooterID = g.LastShooterID := by rw [← hgB]
    have eI : gB.CurrentPlayerIdx = g.CurrentPlayerIdx := by rw [← hgB]
    have eK : playerKeys gB = playerKeys g := by
      unfold playerKeys
      rw [eP, keys_setPlayer]
    have wfB : gB.WellFormed := hwf.of_keys eK eO
    have hmono : ∀ id, isAlive gB id = true → isAlive g id = true := by
      intro id
      unfold isAlive
      rw [eP, getPlayer_setPlayer]
      by_cases h : id = playerID
      · simp [h, hp]
      · simp [h]
    have hnB : (gB.PlayerOrder.filter (isAlive gB)).length ≤ 4 := by
      rw [eO]
      exact le_trans (List.monotone_filter_right g.PlayerOrder hmono).length_le hn
    obtain ⟨r, hr, hd⟩ := resetRound_dealt gB true d wfB (by rw [eI]; exact h0)
      (by rw [eI, eO]; exact h1) (by rw [eL, eO]; exact hlast) hshuffle hnB
    rw [hr, Exec.bind_ok]
    exact ⟨unlock r, rfl, Dealt.of_frame rfl rfl rfl hd⟩

/-! ### C9: when a penalty ends the game -/

/-- C9: in a sound Playing session (terminal flag false, mutex free) a penalty on
a player of the session returns; the resulting session is Finished with the
terminal flag set exactly when the penalty hits and one roster member other than
the penalized player is alive; in every other case the session is still Playing,
the terminal flag is still false and a new round has been dealt: round counter
up by one, a target among Q, K, A, twenty cards over the living hands and the
deck, and, when the session had at most four living roster members, each roster
member alive after the penalty holds five cards, the j-th of them the cards at
positions j, j+n, j+2n, j+3n, j+4n of the shuffled deck (n their number), the
deck being the other 20 - 5n cards. -/
theorem performPenalty_finished_iff (g : Game) (playerID : String) (d : Draws) (p : Player)
    (hs : g.Sound) (hstate : g.State = GameStatePlaying) (hover : g.GameOver = false)
    (hp : getPlayer g.Players playerID = some p)
    (hshuffle : (d.shuffle cardPool).Perm cardPool) :
    ∃ g1, performPenalty g playerID d = Exec.ok g1 ∧
      ((g1.State = GameStateFinished ∧ g1.GameOver = true) ↔
        (penaltyHits p = true ∧ othersAlive g playerID = 1)) ∧
      (¬ (penaltyHits p = true ∧ othersAlive g playerID = 1) →
        g1.State = GameStatePlaying ∧ g1.GameOver = false ∧
        g1.RoundCount = g.RoundCount + 1 ∧ g1.TargetCard ∈ [CardQ, CardK, CardA] ∧
        cardsOfLiving g1 = 20 ∧
        ((g.PlayerOrder.filter (isAlive g)).length ≤ 4 → Dealt g1 d)) := by
  have hdeck : (createDeck d).length = 20 := by
    unfold createDeck
    rw [hshuffle.length_eq, cardPool_length]
  obtain ⟨g1, -, h1, -, -, -, -, -, -, -, hfin, hcont, -⟩ :=
    performPenalty_spec g playerID d p hs hp
  refine ⟨g1, h1, ⟨?_, fun h => ⟨(hfin h).1, (hfin h).2.1⟩⟩, ?_⟩
  · intro hf
    by_contra hno
    have := (hcont hno).1
    rw [hf.1, hstate] at this
    exact absurd this (by decide)
  · intro hno
    obtain ⟨a, b, c, t, e⟩ := hcont hno
    refine ⟨a.trans hstate, b.trans hover, c, t, e.trans hdeck, ?_⟩
    intro hn
    obtain ⟨g2, h2, hd⟩ := performPenalty_dealt g playerID d p hs hp hshuffle hn hno
    rw [h1] at h2
    cases h2
    exact hd

/-- C9 at the sample Playing session of three living players: the first penalty
of "b" does not hit, and a new round is dealt. -/
theorem performPenalty_finished_iff_witness :
    samplePlaying.Sound ∧ samplePlaying.State = GameStatePlaying ∧
    samplePlaying.GameOver = false ∧
    getPlayer samplePlaying.Players "b" = some (samplePlayer "b" ["A", "A", "Q", "K", "Q"] 2) ∧
    (sampleDraws.shuffle cardPool).Perm cardPool ∧
    ¬ (penaltyHits (samplePlayer "b" ["A", "A", "Q", "K", "Q"] 2) = true ∧
        othersAlive samplePlaying "b" = 1) ∧
    (samplePlaying.PlayerOrder.filter (isAlive samplePlaying)).length ≤ 4 ∧
    ∃ g1, performPenalty samplePlaying "b" sampleDraws = Exec.ok g1 ∧
      ((g1.State = GameStateFinished ∧ g1.GameOver = true) ↔
        (penaltyHits (samplePlayer "b" ["A", "A", "Q", "K", "Q"] 2) = true ∧
          othersAlive samplePlaying "b" = 1)) ∧
      g1.State = GameStatePlaying ∧ g1.GameOver = false ∧
      g1.RoundCount = samplePlaying.RoundCount + 1 ∧
      g1.TargetCard ∈ [CardQ, CardK, CardA] ∧ cardsOfLiving g1 = 20 ∧
      Dealt g1 sampleDraws :=
  ⟨samplePlaying_sound, rfl, rfl, rfl, List.reverse_perm _, by decide, by decide,
    (fun ⟨g1, h1, hiff, hrest⟩ =>
      ⟨g1, h1, hiff, (hrest (by decide)).1, (hrest (by decide)).2.1,
        (hrest (by decide)).2.2.1, (hrest (by decide)).2.2.2.1,
        (hrest (by decide)).2.2.2.2.1, (hrest (by decide)).2.2.2.2.2 (by decide)⟩)
      (performPenalty_finished_iff samplePlaying "b" sampleDraws
        (samplePlayer "b" ["A", "A", "Q", "K", "Q"] 2) samplePlaying_sound rfl rfl rfl
        (List.reverse_perm _))⟩

/-! ### C13: the system-forced challenge -/

/-- C13: take a sound session (mutex free), a player `p` of it and a card list.
If every card is the target card or the Joker, handleSystemChallenge returns a
session with the same last-penalized marker, in which every player has the
same mechanism position, hazard slot and liveness, and a new round has been
dealt: round counter up by one, a target among Q, K, A, the shuffled deck spread
over the living hands and the deck, and, when at most four roster members are
alive and the shuffle permutes the pool, the j-th living roster member holds the
five cards at positions j, j+n, j+2n, j+3n, j+4n of the shuffled deck (n their
number), the deck being the other 20 - 5n cards.  If some card is neither, it
returns a session whose last-penalized marker is `p` and in which the penalty
has been applied to `p`: the mechanism position of `p` is the old one plus one,
modulo 6. -/
theorem handleSystemChallenge_spec (g : Game) (playerID : String) (cards : List String)
    (d : Draws) (p : Player) (hs : g.Sound) (hp : getPlayer g.Players playerID = some p) :
    ((∀ card ∈ cards, card = g.TargetCard ∨ card = CardJoker) →
      ∃ g1, handleSystemChallenge g playerID cards d = Exec.ok g1 ∧
        g1.LastShooterID = g.LastShooterID ∧
        (∀ id q, getPlayer g.Players id = some q →
          ∃ q1, getPlayer g1.Players id = some q1 ∧
            q1.CurrentBulletPosition = q.CurrentBulletPosition ∧
            q1.BulletPosition = q.BulletPosition ∧ q1.Alive = q.Alive) ∧
        g1.RoundCount = g.RoundCount + 1 ∧ g1.TargetCard ∈ [CardQ, CardK, CardA] ∧
        cardsOfLiving g1 = (createDeck d).length ∧
        ((g.PlayerOrder.filter (isAlive g)).length ≤ 4 →
          (d.shuffle cardPool).Perm cardPool → Dealt g1 d)) ∧
    (¬ (∀ card ∈ cards, card = g.TargetCard ∨ card = CardJoker) →
      ∃ g1 p1, handleSystemChallenge g playerID cards d = Exec.ok g1 ∧
        g1.LastShooterID = playerID ∧
        getPlayer g1.Players playerID = some p1 ∧
        p1.CurrentBulletPosition = Int.tmod (p.CurrentBulletPosition + 1) 6 ∧
        (0 ≤ p.CurrentBulletPosition →
          p1.CurrentBulletPosition = (p.CurrentBulletPosition + 1) % 6) ∧
        p1.BulletPosition = p.BulletPosition ∧
        p1.Alive = (p.Alive && !penaltyHits p)) := by
  obtain ⟨hwf, hfree, hidx, hlast⟩ := hs
  have hbc : ∀ v, broadcastSystemChallengeResult g playerID v cards = Exec.ok
      { g with Connections :=
          writeAll g.Connections (OutMsg.systemChallenge p.Name (!v) cards) } := by
    intro v
    unfold broadcastSystemChallengeResult
    simp only [hp]
  refine ⟨?_, ?_⟩
  · intro hvalid
    have hv : isValidPlay g cards = true := (isValidPlay_iff g cards).mpr hvalid
    obtain ⟨g1, h1, ⟨-, -, -, fl, -, -, fr, fp, -⟩, -, ht, hc⟩ :=
      resetRound_spec
        { g with Connections :=
            writeAll g.Connections (OutMsg.systemChallenge p.Name (!true) cards) }
        false d (hwf.of_keys rfl rfl) hidx.1 hidx.2 hlast
    refine ⟨g1, ?_, fl, ?_, fr, ht, hc, ?_⟩
    · unfold handleSystemChallenge
      simp only [hp, hv, hbc, Exec.bind_ok, if_true]
      exact h1
    · intro id q hq
      obtain ⟨q1, hq1, a1, a2, -, a4⟩ := player_of_stripHands_eq fp hq
      exact ⟨q1, hq1, a1, a2, a4⟩
    · intro hn hshuffle
      obtain ⟨g2, h2, hd⟩ := resetRound_dealt
        { g with Connections :=
            writeAll g.Connections (OutMsg.systemChallenge p.Name (!true) cards) }
        false d (hwf.of_keys rfl rfl) hidx.1 hidx.2 hlast hshuffle hn
      rw [h1] at h2
      cases h2
      exact hd
  · intro hinvalid
    have hv : isValidPlay g cards = false := by
      cases h : isValidPlay g cards with
      | false => rfl
      | true => exact absurd ((isValidPlay_iff g cards).mp h) hinvalid
    have hmem : playerID ∈ g.PlayerOrder :=
      hwf.2.2.2 playerID (List.mem_map.mpr ⟨(playerID, p), mem_of_getPlayer _ _ _ hp, rfl⟩)
    obtain ⟨g1, p1, h1, -, hp1, c1, b1, -, al, -, -, -, -, fl, -⟩ :=
      performPenalty_spec
        { g with
          Connections := writeAll g.Connections (OutMsg.systemChallenge p.Name (!false) cards),
          LastShooterID := playerID }
        playerID d p ⟨hwf.of_keys rfl rfl, hfree, hidx, Or.inr hmem⟩ hp
    refine ⟨g1, p1, ?_, fl, hp1, c1, ?_, b1, al⟩
    · unfold handleSystemChallenge
      simp only [hp, hv, hbc, Exec.bind_ok, Bool.false_eq_true, if_false]
      exact h1
    · intro h0
      rw [c1]
      exact Int.tmod_eq_emod (by omega) (by omega)

/-- C13 at the sample Playing session of three living players, whose target card
is K: the play K, Joker of "a" is valid and a new round is dealt; the play K, A
is not. -/
theorem handleSystemChallenge_spec_witness :
    samplePlaying.Sound ∧
    getPlayer samplePlaying.Players "a"
      = some (samplePlayer "a" ["Q", "K", "A", "K", "Joker"] 3) ∧
    (∀ card ∈ ["K", "Joker"], card = samplePlaying.TargetCard ∨ card = CardJoker) ∧
    ¬ (∀ card ∈ ["K", "A"], card = samplePlaying.TargetCard ∨ card = CardJoker) ∧
    (samplePlaying.PlayerOrder.filter (isAlive samplePlaying)).length ≤ 4 ∧
    (sampleDraws.shuffle cardPool).Perm cardPool ∧
    (∃ g1, handleSystemChallenge samplePlaying "a" ["K", "Joker"] sampleDraws = Exec.ok g1 ∧
      g1.LastShooterID = samplePlaying.LastShooterID ∧
      g1.RoundCount = samplePlaying.RoundCount + 1 ∧
      Dealt g1 sampleDraws) ∧
    (∃ g1 p1, handleSystemChallenge samplePlaying "a" ["K", "A"] sampleDraws = Exec.ok g1 ∧
      g1.LastShooterID = "a" ∧ getPlayer g1.Players "a" = some p1 ∧
      p1.CurrentBulletPosition = 1) :=
  ⟨samplePlaying_sound, rfl, by decide, by decide, by decide, List.reverse_perm _,
    (fun ⟨g1, h1, h2, _, h3, _, _, h4⟩ =>
      ⟨g1, h1, h2, h3, h4 (by decide) (List.reverse_perm _)⟩)
      ((handleSystemChallenge_spec samplePlaying "a" ["K", "Joker"] sampleDraws
        (samplePlayer "a" ["Q", "K", "A", "K", "Joker"] 3) samplePlaying_sound rfl).1
        (by decide)),
    (fun ⟨g1, p1, h1, h2, h3, h4, _⟩ => ⟨g1, p1, h1, h2, h3, h4⟩)
      ((handleSystemChallenge_spec samplePlaying "a" ["K", "A"] sampleDraws
        (samplePlayer "a" ["Q", "K", "A", "K", "Joker"] 3) samplePlaying_sound rfl).2
        (by decide))⟩

/-! ### C16: the player at the current-player index -/

theorem eligibleAt_notify_broadcast (g : Game) :
    eligibleAt (notifyCurrentPlayer (broadcastGameState g)) = eligibleAt g :=
  eligibleAt_congr g _ (by rw [notifyCurrentPlayer_eq]; rfl) (by rw [notifyCurrentPlayer_eq]; rfl)

theorem idx_notify_broadcast (g : Game) :
    (notifyCurrentPlayer (broadcastGameState g)).CurrentPlayerIdx = g.CurrentPlayerIdx := by
  rw [notifyCurrentPlayer_eq]
  rfl

theorem state_notify_broadcast (g : Game) :
    (notifyCurrentPlayer (broadcastGameState g)).State = g.State := by
  rw [notifyCurrentPlayer_eq]
  rfl

/-- C16 (counterexample): startGame on the sample Waiting session deals five
cards to each of "a", "b", "c" and makes "b" (roster index 1) the current
player.  "b" then plays the whole hand with one `play_cards` message.  In the
session that handleMessage returns, the state is Playing and "a" at index 0 is
alive with cards, but the current-player index still is 1 and "b" holds no
card. -/
theorem play_keeps_turn_with_empty_hand :
    ∃ g0 g1, startGame sampleWaiting sampleDraws = Exec.ok g0 ∧
      getCurrentPlayerID g0 = "b" ∧ handOf g0 "b" = ["Joker", "A", "A", "K", "K"] ∧
      handleMessage g0 "b"
          (playCardsMessage
            [JSON.str "Joker", JSON.str "A", JSON.str "A", JSON.str "K", JSON.str "K"])
          sampleDraws
        = Exec.ok g1 ∧
      g1.State = GameStatePlaying ∧ eligibleAt g1 0 = true ∧
      g1.CurrentPlayerIdx = 1 ∧ isAlive g1 "b" = true ∧ handOf g1 "b" = [] ∧
      eligibleAt g1 g1.CurrentPlayerIdx = false :=
  ⟨_, _, rfl, rfl, rfl, rfl, rfl, rfl, rfl, rfl, rfl, rfl⟩


/-- C16 (amended): take a well-formed session with the current-player index
inside the roster, the marker unset or naming a roster member, at most four
living roster members, and a shuffle that permutes the pool.  Each operation
that sets the current-player index returns a session in which the roster member
at that index is alive and holds a card: startGame, when the mutex is free and
every roster member is alive (the result is Playing); resetRound, with either
flag, when some roster member is alive; moveToNextPlayer, when some roster
member is alive with a card.  The two last keep the state.  A play of cards is
not among them. -/
theorem turn_holder_eligible (g : Game) (d : Draws) (hwf : g.WellFormed)
    (h0 : 0 ≤ g.CurrentPlayerIdx) (h1 : g.CurrentPlayerIdx < g.PlayerOrder.length)
    (hlast : g.LastShooterID = "" ∨ g.LastShooterID ∈ g.PlayerOrder)
    (hshuffle : (d.shuffle cardPool).Perm cardPool)
    (hn : (g.PlayerOrder.filter (isAlive g)).length ≤ 4) :
    (g.mutex = false → (∀ id ∈ g.PlayerOrder, isAlive g id = true) →
      ∃ g1, startGame g d = Exec.ok g1 ∧ g1.State = GameStatePlaying ∧
        eligibleAt g1 g1.CurrentPlayerIdx = true) ∧
    (∀ recordShooter : Bool, (∃ id ∈ g.PlayerOrder, isAlive g id = true) →
      ∃ g1, resetRound g recordShooter d = Exec.ok g1 ∧ g1.State = g.State ∧
        eligibleAt g1 g1.CurrentPlayerIdx = true) ∧
    ((∃ x : Int, eligibleAt g x = true) →
      ∃ g1, moveToNextPlayer g = Exec.ok g1 ∧ g1.State = g.State ∧
        eligibleAt g1 g1.CurrentPlayerIdx = true) := by
  have hsub := hwf.2.2.1
  have hpos : 0 < g.PlayerOrder.length := by omega
  refine ⟨?_, ?_, ?_⟩
  · intro hfree hall
    have hne : g.PlayerOrder.length ≠ 0 := by omega
    have hlt : d.start % g.PlayerOrder.length < g.PlayerOrder.length := Nat.mod_lt _ hpos
    obtain ⟨g1, e1, f1, hel⟩ := dealCards_eligible
      { g with mutex := true, State := GameStatePlaying, GameOver := false, RoundCount := 0,
               CurrentPlayerIdx := ((d.start % g.PlayerOrder.length : Nat) : Int) } d
      hwf hshuffle hn
    obtain ⟨c, -, e2⟩ := chooseTargetCard_spec g1 d
    have hord : g1.PlayerOrder = g.PlayerOrder := f1.order
    have hkeys : playerKeys g1 = playerKeys g := f1.keys
    have hidx : g1.CurrentPlayerIdx = ((d.start % g.PlayerOrder.length : Nat) : Int) := by
      rw [f1.1]
    have hst : g1.State = GameStatePlaying := by rw [f1.1]
    have e3 := startRound_spec { g1 with TargetCard := c }
      (by show ∀ id ∈ g1.PlayerOrder, id ∈ playerKeys g1
          rw [hkeys, hord]; exact hsub)
      (by show 0 ≤ g1.CurrentPlayerIdx
          rw [hidx]; omega)
      (by show g1.CurrentPlayerIdx < g1.PlayerOrder.length
          rw [hidx, hord]; omega)
    have hrun : startGame g d = Exec.ok (unlock (notifyCurrentPlayer (broadcastGameState
        { g1 with TargetCard := c, RoundCount := g1.RoundCount + 1 }))) := by
      rw [startGame_eq g d hfree hne, e1, Exec.bind_ok, e2, Exec.bind_ok, e3, Exec.bind_ok]
    obtain ⟨x, hx, hxmem⟩ := index_ok g.PlayerOrder
      ((d.start % g.PlayerOrder.length : Nat) : Int) (by omega) (by omega)
    have halive : aliveAt g ((d.start % g.PlayerOrder.length : Nat) : Int) = true := by
      have := hall x hxmem
      unfold aliveAt rosterAt
      rw [hx]
      exact this
    refine ⟨_, hrun, ?_, ?_⟩
    · show (notifyCurrentPlayer (broadcastGameState
        { g1 with TargetCard := c, RoundCount := g1.RoundCount + 1 })).State = _
      rw [state_notify_broadcast]
      exact hst
    · show eligibleAt (notifyCurrentPlayer (broadcastGameState
        { g1 with TargetCard := c, RoundCount := g1.RoundCount + 1 }))
        (notifyCurrentPlayer (broadcastGameState
          { g1 with TargetCard := c, RoundCount := g1.RoundCount + 1 })).CurrentPlayerIdx = true
      rw [eligibleAt_notify_broadcast, idx_notify_broadcast]
      show eligibleAt g1 g1.CurrentPlayerIdx = true
      rw [hel, hidx]
      exact halive
  · intro b ⟨id, hid, hal⟩
    obtain ⟨g1, hrun, hel, -, -, hm, hr⟩ := resetRound_where g b d hwf h0 h1 hlast hshuffle hn
    obtain ⟨g2, hrun2, hframe, -⟩ := resetRound_spec g b d hwf h0 h1 hlast
    rw [hrun] at hrun2
    cases hrun2
    refine ⟨g1, hrun, hframe.2.1, ?_⟩
    rw [hel]
    have hsome : aliveAt g (indexOf g.PlayerOrder id) = true := by
      rw [aliveAt_indexOf g id hid]
      exact hal
    by_cases hb : b = true ∧ g.LastShooterID ≠ ""
    · have hmem : g.LastShooterID ∈ g.PlayerOrder := by
        rcases hlast with h | h
        · exact absurd h hb.2
        · exact h
      obtain ⟨ma, md⟩ := hm hb
      cases hmark : isAlive g g.LastShooterID with
      | true =>
        rw [ma hmark, aliveAt_indexOf g _ hmem]
        exact hmark
      | false =>
        rcases md hmark with ⟨j, -, -, -, hok, -⟩ | ⟨-, hnone⟩
        · exact hok
        · rw [hnone] at hsome
          exact absurd hsome (by decide)
    · obtain ⟨hsel, -⟩ := hr hb
      have hne : g.PlayerOrder.filter (isAlive g) ≠ [] :=
        List.ne_nil_of_mem (List.mem_filter.mpr ⟨hid, hal⟩)
      obtain ⟨y, hy, hi⟩ := hsel hne
      have hymem := List.mem_filter.mp (List.getElem?_mem hy)
      rw [hi, aliveAt_indexOf g y hymem.1]
      exact hymem.2
  · intro ⟨x, hx⟩
    obtain ⟨i, hi, hw⟩ := findNextPlayerWithCards_spec g hsub hpos g.CurrentPlayerIdx
      (by omega) h1
    have hrun : moveToNextPlayer g = Exec.ok (notifyCurrentPlayer (broadcastGameState
        { g with CurrentPlayerIdx := i })) := by
      unfold moveToNextPlayer
      rw [hi, Exec.bind_ok]
    refine ⟨_, hrun, ?_, ?_⟩
    · rw [state_notify_broadcast]
    · rw [eligibleAt_notify_broadcast, idx_notify_broadcast]
      show eligibleAt g i = true
      rcases hw with ⟨j, -, -, -, hok, -⟩ | ⟨-, hnone⟩
      · exact hok
      · rw [hnone] at hx
        exact absurd hx (by decide)

/-- C16 (amended) at the sample Playing session. -/
theorem turn_holder_eligible_witness :
    samplePlaying.WellFormed ∧
    (0 ≤ samplePlaying.CurrentPlayerIdx ∧
      samplePlaying.CurrentPlayerIdx < samplePlaying.PlayerOrder.length) ∧
    samplePlaying.LastShooterID = "" ∧
    (sampleDraws.shuffle cardPool).Perm cardPool ∧
    (samplePlaying.PlayerOrder.filter (isAlive samplePlaying)).length ≤ 4 ∧
    samplePlaying.mutex = false ∧
    (∀ id ∈ samplePlaying.PlayerOrder, isAlive samplePlaying id = true) ∧
    eligibleAt samplePlaying 2 = true ∧
    (∃ g1, startGame samplePlaying sampleDraws = Exec.ok g1 ∧ g1.State = GameStatePlaying ∧
      eligibleAt g1 g1.CurrentPlayerIdx = true) ∧
    (∃ g1, resetRound samplePlaying true sampleDraws = Exec.ok g1 ∧
      g1.State = samplePlaying.State ∧ eligibleAt g1 g1.CurrentPlayerIdx = true) ∧
    (∃ g1, moveToNextPlayer samplePlaying = Exec.ok g1 ∧ g1.State = samplePlaying.State ∧
      eligibleAt g1 g1.CurrentPlayerIdx = true) :=
  ⟨by decide, by decide, rfl, List.reverse_perm _, by decide, rfl, by decide, rfl,
    (fun h => ⟨h.1 rfl (by decide), h.2.1 true ⟨"a", by decide, rfl⟩, h.2.2 ⟨2, rfl⟩⟩)
      (turn_holder_eligible samplePlaying sampleDraws (by decide) (by decide) (by decide)
        (Or.inl rfl) (List.reverse_perm _) (by decide))⟩

/-! ### C17: the starting player of a new round -/

/-- C17 (counterexample): in the sample session the last-penalized marker names
"b", who is alive at roster index 1.  resetRound called with recordShooter=false,
as handleSystemChallenge does after a valid play, does not look at the marker:
with the draw 0 it makes index 0, the first living player, the current one. -/
theorem resetRound_ignores_marker_without_flag :
    sampleMarked.LastShooterID = "b" ∧ isAlive sampleMarked "b" = true ∧
    indexOf sampleMarked.PlayerOrder "b" = 1 ∧
    (∃ g1, resetRound sampleMarked false sampleDraws = Exec.ok g1 ∧
      g1.LastShooterID = "b" ∧ g1.CurrentPlayerIdx = 0) ∧
    ∃ g2, handleSystemChallenge sampleMarked "a" ["K", "Joker"] sampleDraws = Exec.ok g2 ∧
      g2.LastShooterID = "b" ∧ g2.CurrentPlayerIdx = 0 :=
  ⟨rfl, rfl, rfl, ⟨_, rfl, rfl, rfl⟩, ⟨_, rfl, rfl, rfl⟩⟩

/-- C17 (amended): in a well-formed session with the current-player index inside
the roster, the marker unset or naming a roster member, at most four living
roster members and a shuffle that permutes the pool, resetRound returns.  When
it is called with recordShooter=true and the marker is set: if the marked player
is alive the new index is that player's roster index; if the marked player is
dead it is the first index after theirs in cyclic roster order whose player is
alive, or their own index when no roster member is alive.  When it is called
with recordShooter=false, or the marker is unset: if some roster member is alive
the new index is the roster index of the living member picked by the draw, and
otherwise the index is unchanged. -/
theorem resetRound_starter (g : Game) (recordShooter : Bool) (d : Draws) (hwf : g.WellFormed)
    (h0 : 0 ≤ g.CurrentPlayerIdx) (h1 : g.CurrentPlayerIdx < g.PlayerOrder.length)
    (hlast : g.LastShooterID = "" ∨ g.LastShooterID ∈ g.PlayerOrder)
    (hshuffle : (d.shuffle cardPool).Perm cardPool)
    (hn : (g.PlayerOrder.filter (isAlive g)).length ≤ 4) :
    ∃ g1, resetRound g recordShooter d = Exec.ok g1 ∧
      ((recordShooter = true ∧ g.LastShooterID ≠ "") →
        (isAlive g g.LastShooterID = true →
          g1.CurrentPlayerIdx = indexOf g.PlayerOrder g.LastShooterID) ∧
        (isAlive g g.LastShooterID = false →
          FirstAfter g (aliveAt g) (indexOf g.PlayerOrder g.LastShooterID)
              g1.CurrentPlayerIdx ∨
          (g1.CurrentPlayerIdx = indexOf g.PlayerOrder g.LastShooterID ∧
            ∀ x : Int, aliveAt g x = false))) ∧
      (¬ (recordShooter = true ∧ g.LastShooterID ≠ "") →
        (g.PlayerOrder.filter (isAlive g) ≠ [] →
          ∃ id, (g.PlayerOrder.filter (isAlive g))[d.alive %
              (g.PlayerOrder.filter (isAlive g)).length]? = some id ∧
            g1.CurrentPlayerIdx = indexOf g.PlayerOrder id) ∧
        (g.PlayerOrder.filter (isAlive g) = [] →
          g1.CurrentPlayerIdx = g.CurrentPlayerIdx)) := by
  obtain ⟨g1, hrun, -, -, -, hm, hr⟩ :=
    resetRound_where g recordShooter d hwf h0 h1 hlast hshuffle hn
  exact ⟨g1, hrun, hm, hr⟩

/-- C17 (amended) at the sample session marked with "b", recordShooter=true:
"b" starts the new round. -/
theorem resetRound_starter_witness :
    sampleMarked.WellFormed ∧
    (0 ≤ sampleMarked.CurrentPlayerIdx ∧
      sampleMarked.CurrentPlayerIdx < sampleMarked.PlayerOrder.length) ∧
    sampleMarked.LastShooterID ∈ sampleMarked.PlayerOrder ∧
    (sampleDraws.shuffle cardPool).Perm cardPool ∧
    (sampleMarked.PlayerOrder.filter (isAlive sampleMarked)).length ≤ 4 ∧
    isAlive sampleMarked sampleMarked.LastShooterID = true ∧
    ∃ g1, resetRound sampleMarked true sampleDraws = Exec.ok g1 ∧
      g1.CurrentPlayerIdx = indexOf sampleMarked.PlayerOrder sampleMarked.LastShooterID :=
  ⟨by decide, by decide, by decide, List.reverse_perm _, by decide, rfl,
    (fun ⟨g1, hrun, hm, _⟩ => ⟨g1, hrun, (hm ⟨rfl, by decide⟩).1 rfl⟩)
      (resetRound_starter sampleMarked true sampleDraws (by decide) (by decide) (by decide)
        (Or.inr (by decide)) (List.reverse_perm _) (by decide))⟩

/-! ### The search for the previous player finds one -/

/-- When some roster member other than the decision-maker is eligible and lies
within the indices still to be examined, the loop of handleChallenge returns an
index. -/
theorem findPrevLoop_finds (g : Game) (hsub : ∀ id ∈ g.PlayerOrder, id ∈ playerKeys g)
    (cur : Int) (hc0 : 0 ≤ cur) (hc1 : cur < g.PlayerOrder.length)
    (i : Int) (hi0 : 0 ≤ i) (hi1 : i < g.PlayerOrder.length)
    (hel : eligibleAt g i = true)
    (fuel : Nat) (prev : Int) (h0 : 0 ≤ prev) (h1 : prev < g.PlayerOrder.length)
    (hpc : prev ≠ cur)
    (hfuel : (if cur < prev then prev - cur else prev - cur + g.PlayerOrder.length) ≤ fuel)
    (hin : (if cur < i then i - cur else i - cur + g.PlayerOrder.length)
      ≤ (if cur < prev then prev - cur else prev - cur + g.PlayerOrder.length)) :
    ∃ r : Int, (0 ≤ r ∧ r < g.PlayerOrder.length) ∧
      findPrevLoop g cur fuel prev = Exec.ok (some r) := by
  induction fuel generalizing prev with
  | zero =>
    exfalso
    split at hfuel <;> omega
  | succ fuel ih =>
    obtain ⟨x, hx, hmem⟩ := index_ok g.PlayerOrder prev h0 h1
    obtain ⟨q, hq⟩ := getPlayer_some_of_mem_keys g.Players x (hsub x hmem)
    have helig : eligibleAt g prev = (q.Alive && decide (q.Hand.length > 0)) := by
      unfold eligibleAt rosterAt
      simp only [hx, hq]
    unfold findPrevLoop
    rw [hx, Exec.bind_ok]
    simp only [hq]
    by_cases hcond : (!q.Alive || decide (q.Hand.length = 0)) = true
    · rw [if_pos hcond]
      have hnot : eligibleAt g prev = false := by
        rw [helig]
        cases ha : q.Alive
        · rfl
        · rw [ha] at hcond
          simp only [Bool.not_true, Bool.false_or, decide_eq_true_eq] at hcond
          simp [hcond]
      have hip : i ≠ prev := by
        intro e
        rw [e, hnot] at hel
        exact absurd hel (by decide)
      have hstep := stepBack_eq g.PlayerOrder.length prev h0 h1
      generalize Int.tmod (prev - 1 + g.PlayerOrder.length) g.PlayerOrder.length = prev1
        at hstep ⊢
      have hne : prev1 ≠ cur := by
        split at hstep <;> split at hin <;> split at hin <;> omega
      rw [if_neg hne]
      apply ih prev1
      · split at hstep <;> omega
      · split at hstep <;> omega
      · exact hne
      · split at hstep <;> split at hfuel <;> split <;> omega
      · split at hstep <;> split at hin <;> split at hin <;> split <;> omega
    · rw [if_neg hcond]
      exact ⟨prev, ⟨h0, h1⟩, rfl⟩

/-! ### C18: declining to challenge -/

/-- C18 (counterexample): in the sample Playing session "a" at index 0 holds the
turn and every player is alive with five cards, so the next living player with a
card in turn order is "b" at index 1.  When "b" declines to challenge, the code
first sets the index to that of "b" and then moves on: the new index is 2 and
"b" is skipped; the same through handleMessage.  In the two-player session the
index is 0 before and after, while the next eligible player in turn order is the
one at index 1. -/
theorem pass_counts_from_decision_maker :
    (samplePlaying.CurrentPlayerIdx = 0 ∧ indexOf samplePlaying.PlayerOrder "b" = 1 ∧
      FirstAfter samplePlaying (eligibleAt samplePlaying) samplePlaying.CurrentPlayerIdx 1 ∧
      (∃ g1, handleChallenge samplePlaying "b" false "" sampleDraws = Exec.ok g1 ∧
        g1.CurrentPlayerIdx = 2) ∧
      ∃ g1, handleMessage samplePlaying "b" (challengeMessage false) sampleDraws = Exec.ok g1 ∧
        g1.CurrentPlayerIdx = 2) ∧
    (sampleTwo.CurrentPlayerIdx = 0 ∧ indexOf sampleTwo.PlayerOrder "b" = 1 ∧
      FirstAfter sampleTwo (eligibleAt sampleTwo) sampleTwo.CurrentPlayerIdx 1 ∧
      ∃ g1, handleChallenge sampleTwo "b" false "" sampleDraws = Exec.ok g1 ∧
        g1.CurrentPlayerIdx = 0) :=
  ⟨⟨rfl, rfl, ⟨1, le_refl 1, by decide, rfl, rfl, fun j1 a b => by omega⟩,
      ⟨_, rfl, rfl⟩, ⟨_, rfl, rfl⟩⟩,
    ⟨rfl, rfl, ⟨1, le_refl 1, by decide, rfl, rfl, fun j1 a b => by omega⟩,
      ⟨_, rfl, rfl⟩⟩⟩

/-- C18 (amended): in a Playing session whose roster members all are players,
take a decision-maker of the roster such that some other roster member is alive
with at least one card (an eligible predecessor).  handleChallenge with
challenge=false returns a session that differs from the given one only by the
current-player index and by what was written to the connections: hands,
liveness, hazard slots, mechanism positions, deck, target card, round counter
and last-penalized marker are the same.  The new index is the first after the
roster index of the decision-maker, not after the index of the turn holder, in
cyclic roster order, whose player is alive and holds at least one card. -/
theorem handleChallenge_pass (g : Game) (playerID reason : String) (d : Draws)
    (_hstate : g.State = GameStatePlaying)
    (hsub : ∀ id ∈ g.PlayerOrder, id ∈ playerKeys g) (hpid : playerID ∈ g.PlayerOrder)
    (hother : ∃ i : Int, 0 ≤ i ∧ i < g.PlayerOrder.length ∧
      i ≠ indexOf g.PlayerOrder playerID ∧ eligibleAt g i = true) :
    ∃ g1, handleChallenge g playerID false reason d = Exec.ok g1 ∧
      g1 = { g with CurrentPlayerIdx := g1.CurrentPlayerIdx, Connections := g1.Connections } ∧
      FirstAfter g (eligibleAt g) (indexOf g.PlayerOrder playerID) g1.CurrentPlayerIdx := by
  obtain ⟨i, hi0, hi1, hic, hel⟩ := hother
  obtain ⟨c0, c1⟩ := indexOf_of_mem g.PlayerOrder playerID hpid
  have hpos : 0 < g.PlayerOrder.length := by omega
  obtain ⟨pl, hpl⟩ := getPlayer_some_of_mem_keys g.Players playerID (hsub playerID hpid)
  have hstep := stepBack_eq g.PlayerOrder.length (indexOf g.PlayerOrder playerID) c0 c1
  obtain ⟨prev, hprev, hfind⟩ := findPrevLoop_finds g hsub (indexOf g.PlayerOrder playerID) c0 c1
    i hi0 hi1 hel (g.PlayerOrder.length + 1)
    (Int.tmod (indexOf g.PlayerOrder playerID - 1 + g.PlayerOrder.length) g.PlayerOrder.length)
    (by rw [hstep]; split <;> omega) (by rw [hstep]; split <;> omega)
    (by rw [hstep]; split <;> omega)
    (by rw [hstep]; split <;> split <;> push_cast <;> omega)
    (by rw [hstep]; split <;> split <;> split <;> omega)
  obtain ⟨prevID, hprevID, -⟩ := index_ok g.PlayerOrder prev hprev.1 hprev.2
  obtain ⟨nxt, hnxt, hwhere⟩ := findNextPlayerWithCards_spec
    { g with
      Connections := writeAll g.Connections (OutMsg.challengeResult pl.Name false reason none),
      CurrentPlayerIdx := indexOf g.PlayerOrder playerID }
    hsub hpos (indexOf g.PlayerOrder playerID) (by omega) c1
  have hrun : handleChallenge g playerID false reason d = Exec.ok
      (notifyCurrentPlayer (broadcastGameState
        { g with
          Connections :=
            writeAll g.Connections (OutMsg.challengeResult pl.Name false reason none),
          CurrentPlayerIdx := nxt })) := by
    unfold handleChallenge
    simp only
    rw [if_neg (by omega), hfind, Exec.bind_ok]
    simp only [hprevID, Exec.bind_ok, Bool.not_false, if_true, broadcastChallengeResult, hpl,
      Bool.false_eq_true, if_false]
    unfold moveToNextPlayer
    simp only [hnxt, Exec.bind_ok]
  refine ⟨_, hrun, ?_, ?_⟩
  · rw [notifyCurrentPlayer_eq]
    rfl
  · rw [notifyCurrentPlayer_eq]
    show FirstAfter g (eligibleAt g) _ nxt
    rcases hwhere with hfa | ⟨-, hnone⟩
    · exact hfa
    · have h2 : eligibleAt g i = false := hnone i
      rw [hel] at h2
      exact absurd h2 (by decide)


/-- C18 (amended) at the sample Playing session: "b" (roster index 1) declines to
challenge while "a" at index 0 is alive with five cards. -/
theorem handleChallenge_pass_witness :
    samplePlaying.State = GameStatePlaying ∧
    (∀ id ∈ samplePlaying.PlayerOrder, id ∈ playerKeys samplePlaying) ∧
    "b" ∈ samplePlaying.PlayerOrder ∧
    ((0 : Int) ≠ indexOf samplePlaying.PlayerOrder "b" ∧ eligibleAt samplePlaying 0 = true) ∧
    ∃ g1, handleChallenge samplePlaying "b" false "no reason" sampleDraws = Exec.ok g1 ∧
      g1 = { samplePlaying with
             CurrentPlayerIdx := g1.CurrentPlayerIdx, Connections := g1.Connections } ∧
      FirstAfter samplePlaying (eligibleAt samplePlaying)
        (indexOf samplePlaying.PlayerOrder "b") g1.CurrentPlayerIdx :=
  ⟨rfl, by decide, by decide, ⟨by decide, rfl⟩,
    handleChallenge_pass samplePlaying "b" "no reason" sampleDraws rfl (by decide) (by decide)
      ⟨0, by decide, by decide, by decide, rfl⟩⟩

/-! ### Playing cards -/

theorem removeCard_of_mem (card : String) (hand : List String) (h : card ∈ hand) :
    removeCard card hand = some (hand.erase card) := by
  induction hand with
  | nil => simp at h
  | cons x rest ih =>
    unfold removeCard
    by_cases hx : x = card
    · simp [hx]
    · have hmem : card ∈ rest := by
        rcases List.mem_cons.mp h with h1 | h1
        · exact absurd h1.symm hx
        · exact h1
      rw [if_neg hx, ih hmem, List.erase_cons_tail (by simpa using hx)]
      rfl

theorem removeCard_of_not_mem (card : String) (hand : List String) (h : card ∉ hand) :
    removeCard card hand = none := by
  induction hand with
  | nil => rfl
  | cons x rest ih =>
    simp only [List.mem_cons, not_or] at h
    unfold removeCard
    rw [if_neg (fun e => h.1 e.symm), ih h.2]
    rfl

theorem length_foldl_erase (cards hand : List String) (h : cards.Subperm hand) :
    (cards.foldl List.erase hand).length + cards.length = hand.length := by
  induction cards generalizing hand with
  | nil => rfl
  | cons c cs ih =>
    have hmem : c ∈ hand := h.subset (List.mem_cons_self _ _)
    have hrest : cs.Subperm (hand.erase c) := by
      have := h.erase c
      simpa using this
    have := ih (hand.erase c) hrest
    have hl := List.length_erase_of_mem hmem
    have hpos : 0 < hand.length := List.length_pos_of_mem hmem
    simp only [List.foldl_cons, List.length_cons]
    omega

/-- The loop of handlePlayCards on cards that the hand holds: every card is
found, the hand loses the first match of each in turn, and nothing else
changes. -/
theorem playLoop_spec (playerID : String) (cards : List String) (g : Game) (p : Player)
    (hp : getPlayer g.Players playerID = some p) (hsub : cards.Subperm p.Hand) :
    ∃ g1, playLoop playerID cards g = Exec.ok g1 ∧
      g1 = { g with Players := g1.Players } ∧
      getPlayer g1.Players playerID = some { p with Hand := cards.foldl List.erase p.Hand } ∧
      (∀ id, id ≠ playerID → getPlayer g1.Players id = getPlayer g.Players id) ∧
      playerKeys g1 = playerKeys g := by
  induction cards generalizing g p with
  | nil => exact ⟨g, rfl, rfl, hp, fun _ _ => rfl, rfl⟩
  | cons c cs ih =>
    have hmem : c ∈ p.Hand := hsub.subset (List.mem_cons_self _ _)
    have hrest : cs.Subperm (p.Hand.erase c) := by
      have := hsub.erase c
      simpa using this
    have hp1 : getPlayer (setPlayer g.Players playerID { p with Hand := p.Hand.erase c }) playerID
        = some { p with Hand := p.Hand.erase c } := by
      rw [getPlayer_setPlayer, if_pos rfl, hp]
      rfl
    obtain ⟨g1, h1, e1, q1, o1, k1⟩ :=
      ih { g with Players := setPlayer g.Players playerID { p with Hand := p.Hand.erase c } }
        { p with Hand := p.Hand.erase c } hp1 hrest
    refine ⟨g1, ?_, ?_, q1, ?_, ?_⟩
    · unfold playLoop
      simp only [hp, removeCard_of_mem c p.Hand hmem]
      exact h1
    · rw [e1]
    · intro id hid
      rw [o1 id hid]
      show getPlayer (setPlayer g.Players playerID _) id = _
      rw [getPlayer_setPlayer, if_neg hid]
    · rw [k1]
      show (setPlayer g.Players playerID _).map Prod.fst = _
      rw [keys_setPlayer]
      rfl

/-! ### C20: what a successful play removes -/

/-- C20: when the current player submits cards that form a sub-multiset of the
hand, handlePlayCards returns; the hand is the original hand from which, for
each submitted card in order, the first card of that value has been erased; it
is shorter by the number of submitted cards and is a sublist of the original
hand (the cards kept are in their original order); every other player is
unchanged, and so is every other field of the session. -/
theorem handlePlayCards_removes_first_matches (g : Game) (playerID : String)
    (cards : List String) (p : Player) (hcur : getCurrentPlayerID g = playerID)
    (hp : getPlayer g.Players playerID = some p) (hsub : cards.Subperm p.Hand) :
    ∃ g1, handlePlayCards g playerID cards = Exec.ok g1 ∧
      getPlayer g1.Players playerID = some { p with Hand := cards.foldl List.erase p.Hand } ∧
      (cards.foldl List.erase p.Hand).length + cards.length = p.Hand.length ∧
      (cards.foldl List.erase p.Hand).Sublist p.Hand ∧
      (∀ id, id ≠ playerID → getPlayer g1.Players id = getPlayer g.Players id) ∧
      g1 = { g with Players := g1.Players } := by
  obtain ⟨g1, h1, e1, q1, o1, -⟩ := playLoop_spec playerID cards g p hp hsub
  refine ⟨g1, ?_, q1, length_foldl_erase cards p.Hand hsub, ?_, o1, e1⟩
  · unfold handlePlayCards
    rw [if_neg (by simpa using hcur)]
    exact h1
  · rw [← List.diff_eq_foldl]
    exact List.diff_sublist _ _

/-- C20 at the sample Playing session: "a" holds Q, K, A, K, Joker and plays
K, Joker, K; the hand left is Q, A. -/
theorem handlePlayCards_removes_first_matches_witness :
    getCurrentPlayerID samplePlaying = "a" ∧
    getPlayer samplePlaying.Players "a"
      = some (samplePlayer "a" ["Q", "K", "A", "K", "Joker"] 3) ∧
    List.Subperm ["K", "Joker", "K"] ["Q", "K", "A", "K", "Joker"] ∧
    ∃ g1, handlePlayCards samplePlaying "a" ["K", "Joker", "K"] = Exec.ok g1 ∧
      getPlayer g1.Players "a" = some (samplePlayer "a" ["Q", "A"] 3) ∧
      (["Q", "A"] : List String).length + 3 = 5 ∧
      List.Sublist ["Q", "A"] ["Q", "K", "A", "K", "Joker"] ∧
      (∀ id, id ≠ "a" → getPlayer g1.Players id = getPlayer samplePlaying.Players id) ∧
      g1 = { samplePlaying with Players := g1.Players } :=
  ⟨rfl, rfl, by decide,
    handlePlayCards_removes_first_matches samplePlaying "a" ["K", "Joker", "K"]
      (samplePlayer "a" ["Q", "K", "A", "K", "Joker"] 3) rfl rfl (by decide)⟩

/-! ### C21: the next player with cards -/

/-- C21: in a session whose roster members all are players, for every start
index `s` inside the roster, findNextPlayerWithCards returns an index inside the
roster.  When some roster member is alive with at least one card, it is the
first such index after `s` in cyclic roster order: s+1, s+2, ..., wrapping, `s`
itself being examined last.  When no roster member is alive with a card, it is
`s`. -/
theorem findNextPlayerWithCards_first (g : Game)
    (hsub : ∀ id ∈ g.PlayerOrder, id ∈ playerKeys g)
    (s : Int) (h0 : 0 ≤ s) (h1 : s < g.PlayerOrder.length) :
    ∃ i : Int, findNextPlayerWithCards g s = Exec.ok i ∧
      (0 ≤ i ∧ i < g.PlayerOrder.length) ∧
      ((∃ x : Int, eligibleAt g x = true) → FirstAfter g (eligibleAt g) s i) ∧
      ((∀ x : Int, eligibleAt g x = false) → i = s) := by
  have hpos : 0 < g.PlayerOrder.length := by omega
  obtain ⟨i, hi, hw⟩ := findNextPlayerWithCards_spec g hsub hpos s (by omega) h1
  obtain ⟨i2, hi2, hv⟩ := findNextPlayerWithCards_valid g hsub s h0 h1
  rw [hi] at hi2
  cases hi2
  refine ⟨i, hi, hv, ?_, ?_⟩
  · intro ⟨x, hx⟩
    rcases hw with hfa | ⟨-, hnone⟩
    · exact hfa
    · rw [hnone] at hx
      exact absurd hx (by decide)
  · intro hnone
    rcases hw with ⟨j, -, -, -, hok, -⟩ | ⟨he, -⟩
    · rw [hnone] at hok
      exact absurd hok (by decide)
    · exact he

/-- C21 at the sample Playing session, from index 2: the search wraps to index
0. -/
theorem findNextPlayerWithCards_first_witness :
    (∀ id ∈ samplePlaying.PlayerOrder, id ∈ playerKeys samplePlaying) ∧
    ((0 : Int) ≤ 2 ∧ (2 : Int) < samplePlaying.PlayerOrder.length) ∧
    eligibleAt samplePlaying 0 = true ∧
    ∃ i : Int, findNextPlayerWithCards samplePlaying 2 = Exec.ok i ∧
      (0 ≤ i ∧ i < samplePlaying.PlayerOrder.length) ∧
      FirstAfter samplePlaying (eligibleAt samplePlaying) 2 i :=
  ⟨by decide, by decide, rfl,
    (fun ⟨i, hi, hv, hf, _⟩ => ⟨i, hi, hv, hf ⟨0, rfl⟩⟩)
      (findNextPlayerWithCards_first samplePlaying (by decide) 2 (by decide) (by decide))⟩

/-! ### C22: a snapshot does not depend on what it hides -/

theorem playerView_of_agreeEntry (viewer : String) (e1 e2 : String × Player)
    (h : agreeEntry viewer e1 e2) :
    (e1.1, playerView viewer e1.1 e1.2) = (e2.1, playerView viewer e2.1 e2.2) := by
  obtain ⟨k1, p1⟩ := e1
  obtain ⟨k2, p2⟩ := e2
  obtain ⟨hk, hrest⟩ := h
  simp only at hk hrest
  subst hk
  by_cases hv : k1 = viewer
  · rw [if_pos hv] at hrest
    rw [hrest]
  · rw [if_neg hv] at hrest
    obtain ⟨hid, hname, halive, -, hlen⟩ := hrest
    unfold playerView
    simp only [hv, if_false, hid, hname, halive, hlen]

theorem winner_of_agreeEntry (viewer : String) (ps1 ps2 : List (String × Player))
    (h : List.Forall₂ (agreeEntry viewer) ps1 ps2) :
    (ps1.find? (fun e => e.2.Alive)).map (fun e => e.2.Name)
      = (ps2.find? (fun e => e.2.Alive)).map (fun e => e.2.Name) := by
  induction h with
  | nil => rfl
  | @cons e1 e2 r1 r2 he _ ih =>
    have hfields : e1.2.Alive = e2.2.Alive ∧ e1.2.Name = e2.2.Name := by
      obtain ⟨-, hrest⟩ := he
      by_cases hv : e1.1 = viewer
      · rw [if_pos hv] at hrest
        rw [hrest]
        exact ⟨rfl, rfl⟩
      · rw [if_neg hv] at hrest
        exact ⟨hrest.2.2.1, hrest.2.1⟩
    rw [List.find?_cons, List.find?_cons, ← hfields.1]
    cases ha : e1.2.Alive with
    | true =>
      simp only [Option.map_some']
      rw [hfields.2]
    | false => exact ih

/-- C22: for every viewer and every two sessions that agree on everything except
the hand contents (the hands having the same lengths), the hazard slots and the
mechanism positions of the players stored under a key other than the viewer's,
createGameStateForPlayer returns the same snapshot. -/
theorem createGameStateForPlayer_hides (viewer : String) (g1 g2 : Game)
    (h : AgreeFor viewer g1 g2) :
    createGameStateForPlayer g1 viewer = createGameStateForPlayer g2 viewer := by
  obtain ⟨hrest, hplayers⟩ := h
  have hmap : g1.Players.map (fun e => (e.1, playerView viewer e.1 e.2))
      = g2.Players.map (fun e => (e.1, playerView viewer e.1 e.2)) := by
    generalize g1.Players = ps1 at hplayers
    generalize g2.Players = ps2 at hplayers
    induction hplayers with
    | nil => rfl
    | cons he _ ih =>
      rw [List.map_cons, List.map_cons, ih, playerView_of_agreeEntry viewer _ _ he]
  have hwin := winner_of_agreeEntry viewer g1.Players g2.Players hplayers
  unfold createGameStateForPlayer
  rw [hmap, hwin, hrest]

/-- C22 at the sample Playing session and the session that differs from it in
the cards, hazard slots and mechanism positions of "b" and "c": "a" is sent the
same snapshot, though the sessions differ. -/
theorem createGameStateForPlayer_hides_witness :
    AgreeFor "a" samplePlaying sampleOtherHands ∧ samplePlaying ≠ sampleOtherHands ∧
    createGameStateForPlayer samplePlaying "a" = createGameStateForPlayer sampleOtherHands "a" :=
  ⟨by decide, by decide,
    createGameStateForPlayer_hides "a" samplePlaying sampleOtherHands (by decide)⟩

/-! ### C23: the mutex is taken twice -/

theorem lock_held (g : Game) (h : g.mutex = true) : lock g = Exec.hang := by
  unfold lock
  rw [if_pos h]

/-- The predecessor search reads the roster and the player map only. -/
theorem findPrevLoop_congr (g g2 : Game) (hP : g2.Players = g.Players)
    (hO : g2.PlayerOrder = g.PlayerOrder) (cur : Int) (fuel : Nat) (prev : Int) :
    findPrevLoop g2 cur fuel prev = findPrevLoop g cur fuel prev := by
  induction fuel generalizing prev with
  | zero => rfl
  | succ n ih =>
    unfold findPrevLoop
    rw [hP, hO]
    simp only [ih]

/-- A `start_game` message that passes the guard never returns: handleMessage
holds the mutex when startGame takes it. -/
theorem handleMessage_start_game_hangs (g : Game) (playerID : String)
    (message : List (String × JSON)) (d : Draws) (hfree : g.mutex = false)
    (htype : message.lookup "type" = some (JSON.str "start_game"))
    (hguard : g.State = GameStateWaiting ∧ 2 ≤ g.Players.length) :
    handleMessage g playerID message d = Exec.hang := by
  obtain ⟨hl, -⟩ := unlock_lock g hfree
  unfold handleMessage
  rw [hl, Exec.bind_ok, htype]
  simp only
  unfold dispatch
  rw [if_pos rfl, if_pos hguard]
  unfold startGame
  rw [lock_held _ rfl]
  rfl

/-- A `challenge` message with challenge=true, sent in a Playing session by a
roster member who has an eligible predecessor, never returns: handleMessage
holds the mutex when performPenalty takes it. -/
theorem handleMessage_challenge_hangs (g : Game) (playerID : String)
    (message : List (String × JSON)) (d : Draws) (hfree : g.mutex = false)
    (htype : message.lookup "type" = some (JSON.str "challenge"))
    (hchallenge : message.lookup "challenge" = some (JSON.bool true))
    (hstate : g.State = GameStatePlaying)
    (hsub : ∀ id ∈ g.PlayerOrder, id ∈ playerKeys g) (hpid : playerID ∈ g.PlayerOrder)
    (hother : ∃ i : Int, 0 ≤ i ∧ i < g.PlayerOrder.length ∧
      i ≠ indexOf g.PlayerOrder playerID ∧ eligibleAt g i = true) :
    handleMessage g playerID message d = Exec.hang := by
  obtain ⟨hl, -⟩ := unlock_lock g hfree
  obtain ⟨i, hi0, hi1, hic, hel⟩ := hother
  obtain ⟨c0, c1⟩ := indexOf_of_mem g.PlayerOrder playerID hpid
  obtain ⟨pl, hpl⟩ := getPlayer_some_of_mem_keys g.Players playerID (hsub playerID hpid)
  have hstep := stepBack_eq g.PlayerOrder.length (indexOf g.PlayerOrder playerID) c0 c1
  obtain ⟨prev, hprev, hfind0⟩ := findPrevLoop_finds g hsub
    (indexOf g.PlayerOrder playerID) c0 c1
    i hi0 hi1 hel (g.PlayerOrder.length + 1)
    (Int.tmod (indexOf g.PlayerOrder playerID - 1 + g.PlayerOrder.length) g.PlayerOrder.length)
    (by rw [hstep]; split <;> omega) (by rw [hstep]; split <;> omega)
    (by rw [hstep]; split <;> omega)
    (by rw [hstep]; split <;> split <;> push_cast <;> omega)
    (by rw [hstep]; split <;> split <;> split <;> omega)
  have hfind : findPrevLoop { g with mutex := true } (indexOf g.PlayerOrder playerID)
      (g.PlayerOrder.length + 1)
      (Int.tmod (indexOf g.PlayerOrder playerID - 1 + g.PlayerOrder.length)
        g.PlayerOrder.length) = Exec.ok (some prev) := by
    rw [findPrevLoop_congr g { g with mutex := true } rfl rfl]
    exact hfind0
  obtain ⟨prevID, hprevID, -⟩ := index_ok g.PlayerOrder prev hprev.1 hprev.2
  have hrun : handleChallenge { g with mutex := true } playerID true
      (match message.lookup "reason" with
        | some (JSON.str s) => s
        | _ => "") d = Exec.hang := by
    unfold handleChallenge
    simp only
    rw [if_neg (by omega), hfind, Exec.bind_ok]
    simp only [hprevID, Exec.bind_ok, Bool.not_true, Bool.false_eq_true, if_false,
      broadcastChallengeResult, hpl]
    unfold performPenalty
    rw [lock_held _ rfl]
    rfl
  unfold handleMessage
  rw [hl, Exec.bind_ok, htype]
  simp only
  unfold dispatch
  rw [if_neg (by decide), if_neg (by decide), if_pos rfl,
    if_pos (show ({ g with mutex := true } : Game).State = GameStatePlaying from hstate),
    hchallenge]
  simp only
  rw [hrun]
  rfl

/-- C23 (the code at the failing inputs): a `start_game` message to the sample
Waiting session of three players, and a `challenge` message with challenge=true
sent by "b" in the sample Playing session, never return: handleMessage holds the
mutex when startGame, and performPenalty, take it again.  startGame called with
the mutex free returns and leaves it free, and so does the handling of a
`challenge` message with challenge=false, which takes no second lock. -/
theorem handleMessage_takes_held_mutex :
    handleMessage sampleWaiting "a" startGameMessage sampleDraws = Exec.hang ∧
    handleMessage samplePlaying "b" (challengeMessage true) sampleDraws = Exec.hang ∧
    lock { sampleWaiting with mutex := true } = Exec.hang ∧
    (∃ g1, startGame sampleWaiting sampleDraws = Exec.ok g1 ∧ g1.mutex = false) ∧
    (∃ g1, handleMessage samplePlaying "b" (challengeMessage false) sampleDraws = Exec.ok g1 ∧
      g1.mutex = false) :=
  ⟨handleMessage_start_game_hangs sampleWaiting "a" startGameMessage sampleDraws rfl rfl
      (by decide),
    handleMessage_challenge_hangs samplePlaying "b" (challengeMessage true) sampleDraws rfl rfl
      rfl rfl (by decide) (by decide) ⟨0, by decide, by decide, by decide, rfl⟩,
    rfl, ⟨_, rfl, rfl⟩, ⟨_, rfl, rfl⟩⟩

end LiarsBar
